import Mathlib

/-!
# DockerOps: image puller (`internal/puller`, `internal/config`)

A shallow embedding of the multi-registry image puller.

* Go strings are byte strings; they are embedded as `List Char` (`Str`).  Every
  separator the program splits on is a single ASCII character, so splitting a
  character list agrees with splitting the byte string.
* Go `int` and `time.Duration` are embedded as `Int`.
* The network, the clock, the file system and the library codecs (JSON, regular
  expressions, SHA-256, base64, query encoding) are not code of the repository;
  they are fields of the structure `World`, and the embedded functions take a
  `World` as their first argument.  A world answers a request by a function of
  the request alone.
-/

namespace DockerOps

/-- A Go string, as its list of characters. -/
abbrev Str := List Char

/-! ## The `strings` package -/

/-- Go `strings.Split(s, sep)` for a one-character separator. -/
def stringsSplit (s : Str) (sep : Char) : List Str :=
  s.splitOn sep

/-- Go `strings.Join(parts, sep)` for a one-character separator. -/
def stringsJoin (parts : List Str) (sep : Char) : Str :=
  [sep].intercalate parts

/-- Go `strings.Contains(s, substr)`. -/
def stringsContains : Str → Str → Bool
  | [], substr => substr.isEmpty
  | c :: s, substr => substr.isPrefixOf (c :: s) || stringsContains s substr

/-- Go `strings.ReplaceAll(s, old, new)` for a non-empty `old`; `skip` counts the
characters of a matched `old` that are still to be dropped. -/
def replaceAllFrom (old new : Str) : Nat → Str → Str
  | _, [] => []
  | skip + 1, _ :: s => replaceAllFrom old new skip s
  | 0, c :: s =>
    if old.isPrefixOf (c :: s) then new ++ replaceAllFrom old new (old.length - 1) s
    else c :: replaceAllFrom old new 0 s

/-- Go `strings.ReplaceAll(s, old, new)`; with an empty `old` Go inserts `new`
before every character and at the end. -/
def stringsReplaceAll (s old new : Str) : Str :=
  if old.isEmpty then new ++ (s.map fun c => c :: new).flatten
  else replaceAllFrom old new 0 s

/-! ## Data model (`puller.go`, `config.go`, `api_client.go`) -/

/-- `ImageInfo` of puller.go. -/
structure ImageInfo where
  Repository : Str
  Image : Str
  Tag : Str
deriving DecidableEq, Repr

/-- `Platform` of puller.go. -/
structure Platform where
  Architecture : Str
  OS : Str
deriving DecidableEq, Repr

/-- `PlatformManifest` of puller.go. -/
structure PlatformManifest where
  MediaType : Str
  Size : Int
  Digest : Str
  Platform : Platform
deriving DecidableEq, Repr

/-- `ConfigDescriptor` of puller.go. -/
structure ConfigDescriptor where
  MediaType : Str
  Size : Int
  Digest : Str
deriving DecidableEq, Repr

/-- `LayerDescriptor` of puller.go. -/
structure LayerDescriptor where
  MediaType : Str
  Size : Int
  Digest : Str
deriving DecidableEq, Repr

/-- `ManifestResponse` of puller.go. -/
structure ManifestResponse where
  SchemaVersion : Int
  MediaType : Str
  Config : ConfigDescriptor
  Layers : List LayerDescriptor
  Manifests : List PlatformManifest
deriving DecidableEq, Repr

/-- `AuthToken` of puller.go. -/
structure AuthToken where
  Token : Str
  AccessToken : Str
  ExpiresIn : Int
deriving DecidableEq, Repr

/-- `RegistryConfig` of config.go; `ResponseTime` is a nullable pointer. -/
structure RegistryConfig where
  Name : Str
  URL : Str
  Priority : Int
  AuthRequired : Bool
  Timeout : Int
  Description : Str
  Available : Bool
  ResponseTime : Option Int
deriving DecidableEq, Repr

/-- `TagTransformRule` of config.go. -/
structure TagTransformRule where
  Name : Str
  Description : Str
  Pattern : Str
  Replacement : Str
  Enabled : Bool
deriving DecidableEq, Repr

/-- `TagTransform` of config.go. -/
structure TagTransform where
  Enabled : Bool
  Rules : List TagTransformRule
deriving DecidableEq, Repr

/-- `Settings` of config.go. -/
structure Settings where
  MaxConcurrentRegistries : Int
  RetryCount : Int
  RemoveRegistryPrefix : Bool
  DefaultArchitecture : Str
  DownloadTimeout : Int
  EnableProgressBar : Bool
  CleanupTempFiles : Bool
  EnableAdvancedAPI : Bool
  AdvancedAPIURL : Str
deriving DecidableEq, Repr

/-- `Config` of config.go. -/
structure Config where
  Registries : List RegistryConfig
  TagTransform : TagTransform
  Settings : Settings
deriving DecidableEq, Repr

/-- `APIImageResult` of api_client.go. -/
structure APIImageResult where
  Source : Str
  Mirror : Str
  Platform : Str
  Size : Str
  CreatedAt : Str
deriving DecidableEq, Repr

/-- `APIResponse` of api_client.go. -/
structure APIResponse where
  Count : Int
  Error : Bool
  Results : List APIImageResult
  Search : Str
deriving DecidableEq, Repr

/-- `MultiRegistryImagePuller` of puller.go: the configuration behind
`configManager`, the static registry list, and the base URL of `apiClient`. -/
structure MultiRegistryImagePuller where
  config : Config
  registries : List RegistryConfig
  apiBaseURL : Str
deriving DecidableEq, Repr

/-! ## The outside world -/

/-- An outgoing GET request: its URL and the two headers the program sets (empty
when the header is not set). -/
structure HttpRequest where
  URL : Str
  Accept : Str
  Authorization : Str
deriving DecidableEq, Repr

/-- What the program reads of an HTTP response: the status code, the
`WWW-Authenticate` header (empty when absent), and the body (`none` when reading
the body fails). -/
structure HttpResponse where
  StatusCode : Int
  WWWAuthenticate : Str
  Body : Option Str
deriving DecidableEq, Repr

/-- One effect on the file system.  File contents that the program marshals as JSON
are kept as the marshalled values. -/
inductive FsOp where
  /-- `os.MkdirAll(path, 0755)`. -/
  | mkdirAll (path : Str)
  /-- `DownloadFileWithProgress`: the body of `url` streamed to `savePath`. -/
  | download (url token savePath desc : Str)
  /-- `decompressGzip(src, dst)`. -/
  | decompress (src dst : Str)
  /-- `os.Remove(path)`. -/
  | remove (path : Str)
  /-- The per-layer `json` file: `id`, and `parent` unless it is empty. -/
  | writeLayerJSON (path id : Str) (parent : Option Str)
  /-- `manifest.json`: a one-element array with `Config`, `RepoTags`, `Layers`. -/
  | writeManifest (path config : Str) (repoTags layers : List Str)
  /-- `repositories`: the map from image to the map from tag to last layer id. -/
  | writeRepositories (path image tag id : Str)
  /-- `createImageTar`: the tree under `tmpDir` archived to `outputFile`. -/
  | writeTar (outputFile tmpDir : Str)
deriving DecidableEq, Repr

/-- Everything the program consults that is not code of the repository. -/
structure World where
  /-- `regexp.MatchString(pattern, s)`; `none` when the pattern does not compile. -/
  regexpMatchString : Str → Str → Option Bool
  /-- `base64.StdEncoding.EncodeToString`. -/
  base64 : Str → Str
  /-- Lower-case hex of `sha256.Sum256`, i.e. `fmt.Sprintf("%x", hash)`. -/
  sha256hex : Str → Str
  /-- `url.Values.Encode` of the parameters in the order they were added. -/
  queryEncode : List (Str × Str) → Str
  /-- `filepath.Join` of two elements. -/
  filepathJoin : Str → Str → Str
  /-- `filepath.Base`. -/
  filepathBase : Str → Str
  /-- `filepath.Dir`. -/
  filepathDir : Str → Str
  /-- Whether `http.NewRequest("GET", url, nil)` succeeds. -/
  newRequest : Str → Bool
  /-- The probe request of `TestRegistryAvailability` for a URL under a timeout in
  seconds: `none` on a transport error or timeout, else the status code and the time
  elapsed since the probe started. -/
  probe : Str → Int → Option (Int × Int)
  /-- `p.httpClient.Do(req)`; `none` on a transport error. -/
  httpDo : HttpRequest → Option HttpResponse
  /-- `c.httpClient.Get(url)` of the directory API client; `none` on a transport error. -/
  apiGet : Str → Option HttpResponse
  /-- JSON decoding of an `AuthToken`. -/
  decodeAuthToken : Str → Option AuthToken
  /-- JSON decoding of a `ManifestResponse`. -/
  decodeManifest : Str → Option ManifestResponse
  /-- JSON decoding of an `APIResponse`. -/
  decodeAPIResponse : Str → Option APIResponse
  /-- JSON decoding of a bare array of `APIImageResult`. -/
  decodeAPIResults : Str → Option (List APIImageResult)
  /-- The order in which the probe goroutines of the static fan-out reach the
  critical section that appends to the available list. -/
  arrival : List RegistryConfig → List RegistryConfig
  /-- Every goroutine runs once: the arrival order is a permutation. -/
  arrival_perm : ∀ l, (arrival l).Perm l
  /-- Whether `os.MkdirAll(path, 0755)` succeeds. -/
  mkdirAll : Str → Bool
  /-- Whether `os.Create(path)` succeeds. -/
  create : Str → Bool
  /-- Whether `io.Copy` of the response body of `url` into `savePath` succeeds. -/
  copyBody : Str → Str → Bool
  /-- Whether `decompressGzip(src, dst)` succeeds. -/
  gunzip : Str → Str → Bool
  /-- Whether `os.WriteFile(path, data, 0644)` succeeds. -/
  writeFile : Str → Bool
  /-- Whether `filepath.Walk` over `tmpDir`, writing into the tar, succeeds. -/
  walkTar : Str → Str → Bool

/-- The error values the program builds with `fmt.Errorf`, one constructor per site;
wrapped causes are not kept. -/
inductive PullError where
  /-- GetAuthToken: the GET of `/v2/` failed. -/
  | authInfo
  /-- GetAuthToken: no `WWW-Authenticate` header. -/
  | authHeaderMissing
  /-- GetAuthToken: the header has fewer than four quote-separated parts. -/
  | authHeaderFormat
  /-- GetAuthToken: the token request could not be built. -/
  | authRequest
  /-- GetAuthToken: the token request failed in transport. -/
  | tokenTransport
  /-- GetAuthToken: the token response is not 200. -/
  | tokenStatus (code : Int)
  /-- GetAuthToken: the token response does not decode. -/
  | tokenDecode
  /-- FetchManifest, DownloadFileWithProgress: the request could not be built. -/
  | requestCreate
  /-- FetchManifest, DownloadFileWithProgress: the request failed in transport. -/
  | requestTransport
  /-- FetchManifest: the response is not 200. -/
  | manifestStatus (code : Int)
  /-- FetchManifest: the response does not decode. -/
  | manifestDecode
  /-- SearchImage: the request failed. -/
  | apiRequest
  /-- SearchImage: the body could not be read. -/
  | apiRead
  /-- SearchImage: the response is not 200. -/
  | apiStatus (code : Int) (body : Str)
  /-- SearchImage: the body decodes in neither envelope. -/
  | apiDecode (body : Str)
  /-- SearchImage: the wrapped envelope has `error = true`. -/
  | apiError (search : Str)
  /-- GetBestMatch: both searches are empty. -/
  | apiNoMatch
  /-- SearchImageInRegistries: no registry is available. -/
  | noRegistriesAvailable
  /-- SearchImageInRegistries: no available registry has `repository:tag`. -/
  | imageNotFound (repository tag : Str)
  /-- DownloadFileWithProgress: the response is not 200. -/
  | downloadStatus (code : Int)
  /-- DownloadFileWithProgress: the directory could not be created. -/
  | downloadMkdir
  /-- DownloadFileWithProgress: the file could not be created. -/
  | downloadCreate
  /-- DownloadFileWithProgress: copying the body failed. -/
  | downloadCopy
  /-- PullImage: the manifest has no layers. -/
  | noLayers
  /-- PullImage: wraps the error of GetAuthToken. -/
  | pullAuth (cause : PullError)
  /-- PullImage: the scratch directory could not be created. -/
  | pullMkdir
  /-- PullImage: wraps the error of the config download. -/
  | pullConfig (cause : PullError)
  /-- PullImage: wraps the error of downloadLayers. -/
  | pullLayers (cause : PullError)
  /-- PullImage: wraps the error of createImageTar. -/
  | pullTar (cause : PullError)
  /-- downloadLayers: a layer directory could not be created. -/
  | layerMkdir
  /-- downloadLayers: a layer download failed; carries `layer.Digest[:12]`. -/
  | layerDownload (digest12 : Str) (cause : PullError)
  /-- downloadLayers: decompressing a layer failed. -/
  | layerGunzip
  /-- downloadLayers: writing a layer `json` failed. -/
  | layerJSON
  /-- downloadLayers: writing `manifest.json` failed. -/
  | manifestWrite
  /-- downloadLayers: writing `repositories` failed. -/
  | repositoriesWrite
  /-- createImageTar: the tar file could not be created. -/
  | tarCreate
  /-- createImageTar: walking the scratch tree failed. -/
  | tarWalk
deriving DecidableEq, Repr

deriving instance DecidableEq for Except

/-- How a call ends: it returns a value, it panics (slice bounds, negative channel
size), or it never returns (every goroutine blocked). -/
inductive Run (α : Type) where
  | done (a : α)
  | panic
  | hang
deriving DecidableEq, Repr

/-! ## Reference parser -/

/-- `parseImageTag` of puller.go. -/
def parseImageTag (imgTag : Str) : Str × Str :=
  let parts := stringsSplit imgTag ':'
  if parts.length > 1 then (parts.getD 0 [], parts.getD 1 [])
  else (parts.getD 0 [], "latest".toList)

/-- `ParseImageInput` of puller.go.  The first branch is the private-registry
form, taken when the input contains `/` and its first segment contains `.` or
`:`; every other input falls through to the standard form. -/
def ParseImageInput (imageInput : Str) : ImageInfo :=
  let parts := stringsSplit imageInput '/'
  if stringsContains imageInput ['/'] &&
      (decide (parts.length > 0) &&
        (stringsContains (parts.getD 0 []) ['.'] || stringsContains (parts.getD 0 []) [':'])) then
    let remainder := stringsJoin (parts.drop 1) '/'
    let repoParts := stringsSplit remainder '/'
    let imgTag := if repoParts.length = 1 then repoParts.getD 0 [] else repoParts.getLastD []
    let (img, tag) := parseImageTag imgTag
    let repository := (stringsSplit remainder ':').getD 0 []
    { Repository := repository, Image := img, Tag := tag }
  else
    let (repo, imgTag) :=
      if parts.length = 1 then (([] : Str), parts.getD 0 [])
      else (stringsJoin (parts.take (parts.length - 1)) '/', parts.getLastD [])
    let (img, tag) := parseImageTag imgTag
    let repository := if repo = [] then img else repo ++ ['/'] ++ img
    { Repository := repository, Image := img, Tag := tag }

/-! ## Platform selection -/

/-- `selectManifest` of puller.go. -/
def selectManifest : List PlatformManifest → Str → Str
  | [], _ => []
  | m :: manifests, arch =>
    if m.Platform.Architecture = arch ∧ m.Platform.OS = "linux".toList then m.Digest
    else selectManifest manifests arch

/-! ## Tag rewriter (`config.go`) -/

/-- The loop of `TransformTag` over the rules: a disabled rule and a rule whose
pattern does not compile are skipped, the first matching rule returns. -/
def transformTagRules (w : World) (originalTag : Str) : List TagTransformRule → Str
  | [] => originalTag
  | rule :: rules =>
    if !rule.Enabled then transformTagRules w originalTag rules
    else
      match w.regexpMatchString rule.Pattern originalTag with
      | none => transformTagRules w originalTag rules
      | some matched =>
        if matched then stringsReplaceAll rule.Replacement "\x7boriginal_tag\x7d".toList originalTag
        else transformTagRules w originalTag rules

/-- `TransformTag` of config.go. -/
def TransformTag (w : World) (config : Config) (originalTag : Str) : Str :=
  if !config.TagTransform.Enabled then originalTag
  else transformTagRules w originalTag config.TagTransform.Rules

/-! ## Registry probe, auth handshake, manifest fetcher (`puller.go`) -/

/-- `TestRegistryAvailability` of puller.go: the descriptor as the call leaves it,
and the returned flag. -/
def TestRegistryAvailability (w : World) (registry : RegistryConfig) : RegistryConfig × Bool :=
  let url := "https://".toList ++ registry.URL ++ "/v2/".toList
  if !w.newRequest url then ({ registry with Available := false }, false)
  else
    match w.probe url registry.Timeout with
    | none => ({ registry with Available := false }, false)
    | some (statusCode, responseTime) =>
      let available := statusCode == 200 || statusCode == 401
      ({ registry with ResponseTime := some responseTime, Available := available }, available)

/-- `GetAuthToken` of puller.go. -/
def GetAuthToken (w : World) (registry : RegistryConfig) (repository username password : Str) :
    Except PullError Str :=
  let url := "https://".toList ++ registry.URL ++ "/v2/".toList
  match w.httpDo ⟨url, [], []⟩ with
  | none => .error .authInfo
  | some resp =>
    if resp.StatusCode = 200 then .ok []
    else
      let authHeader := resp.WWWAuthenticate
      if authHeader = [] then .error .authHeaderMissing
      else
        let parts := stringsSplit authHeader '"'
        if parts.length < 4 then .error .authHeaderFormat
        else
          let authURL := parts.getD 1 []
          let service := parts.getD 3 []
          let tokenURL := authURL ++ "?service=".toList ++ service ++
            "&scope=repository:".toList ++ repository ++ ":pull".toList
          if !w.newRequest tokenURL then .error .authRequest
          else
            let authorization :=
              if username ≠ [] ∧ password ≠ [] then
                "Basic ".toList ++ w.base64 (username ++ ":".toList ++ password)
              else []
            match w.httpDo ⟨tokenURL, [], authorization⟩ with
            | none => .error .tokenTransport
            | some tokenResp =>
              if tokenResp.StatusCode ≠ 200 then .error (.tokenStatus tokenResp.StatusCode)
              else
                match tokenResp.Body.bind w.decodeAuthToken with
                | none => .error .tokenDecode
                | some authToken =>
                  if authToken.Token ≠ [] then .ok authToken.Token
                  else .ok authToken.AccessToken

/-- The second half of `GetAuthToken` (puller.go 258-276): the token request is sent
and its answer read. -/
def tokenExchange (w : World) (req : HttpRequest) : Except PullError Str :=
  match w.httpDo req with
  | none => .error .tokenTransport
  | some tokenResp =>
    if tokenResp.StatusCode ≠ 200 then .error (.tokenStatus tokenResp.StatusCode)
    else
      match tokenResp.Body.bind w.decodeAuthToken with
      | none => .error .tokenDecode
      | some authToken =>
        if authToken.Token ≠ [] then .ok authToken.Token
        else .ok authToken.AccessToken

/-- `GetAuthToken` of puller.go together with the requests it hands to the HTTP
client, in the order it issues them: the GET of `/v2/` (puller.go 221) and, when
control reaches it, the token request (puller.go 258). -/
def GetAuthTokenTraced (w : World) (registry : RegistryConfig)
    (repository username password : Str) : List HttpRequest × Except PullError Str :=
  let url := "https://".toList ++ registry.URL ++ "/v2/".toList
  match w.httpDo ⟨url, [], []⟩ with
  | none => ([⟨url, [], []⟩], .error .authInfo)
  | some resp =>
    if resp.StatusCode = 200 then ([⟨url, [], []⟩], .ok [])
    else
      let authHeader := resp.WWWAuthenticate
      if authHeader = [] then ([⟨url, [], []⟩], .error .authHeaderMissing)
      else
        let parts := stringsSplit authHeader '"'
        if parts.length < 4 then ([⟨url, [], []⟩], .error .authHeaderFormat)
        else
          let authURL := parts.getD 1 []
          let service := parts.getD 3 []
          let tokenURL := authURL ++ "?service=".toList ++ service ++
            "&scope=repository:".toList ++ repository ++ ":pull".toList
          if !w.newRequest tokenURL then ([⟨url, [], []⟩], .error .authRequest)
          else
            let authorization :=
              if username ≠ [] ∧ password ≠ [] then
                "Basic ".toList ++ w.base64 (username ++ ":".toList ++ password)
              else []
            ([⟨url, [], []⟩, ⟨tokenURL, [], authorization⟩],
              tokenExchange w ⟨tokenURL, [], authorization⟩)

/-- `FetchManifest` of puller.go. -/
def FetchManifest (w : World) (registry : RegistryConfig) (repository tag token : Str) :
    Except PullError ManifestResponse :=
  let url := "https://".toList ++ registry.URL ++ "/v2/".toList ++ repository ++
    "/manifests/".toList ++ tag
  if !w.newRequest url then .error .requestCreate
  else
    let authorization := if token ≠ [] then "Bearer ".toList ++ token else []
    match w.httpDo ⟨url, "application/vnd.docker.distribution.manifest.v2+json".toList,
        authorization⟩ with
    | none => .error .requestTransport
    | some resp =>
      if resp.StatusCode ≠ 200 then .error (.manifestStatus resp.StatusCode)
      else
        match resp.Body.bind w.decodeManifest with
        | none => .error .manifestDecode
        | some manifest => .ok manifest

/-- `FetchManifestByDigest` of puller.go. -/
def FetchManifestByDigest (w : World) (registry : RegistryConfig)
    (repository digest token : Str) : Except PullError ManifestResponse :=
  let url := "https://".toList ++ registry.URL ++ "/v2/".toList ++ repository ++
    "/manifests/".toList ++ digest
  if !w.newRequest url then .error .requestCreate
  else
    let authorization := if token ≠ [] then "Bearer ".toList ++ token else []
    match w.httpDo ⟨url, "application/vnd.docker.distribution.manifest.v2+json".toList,
        authorization⟩ with
    | none => .error .requestTransport
    | some resp =>
      if resp.StatusCode ≠ 200 then .error (.manifestStatus resp.StatusCode)
      else
        match resp.Body.bind w.decodeManifest with
        | none => .error .manifestDecode
        | some manifest => .ok manifest

/-! ## Directory API client (`api_client.go`) -/

/-- `SearchImage` of api_client.go. -/
def SearchImage (w : World) (baseURL imageName site platform : Str) :
    Except PullError (List APIImageResult) :=
  let params := [("search".toList, imageName)] ++
    (if site ≠ [] then [("site".toList, site)] else []) ++
    (if platform ≠ [] then [("platform".toList, platform)] else [])
  let searchURL := baseURL ++ "/image?".toList ++ w.queryEncode params
  match w.apiGet searchURL with
  | none => .error .apiRequest
  | some resp =>
    match resp.Body with
    | none => .error .apiRead
    | some body =>
      if resp.StatusCode ≠ 200 then .error (.apiStatus resp.StatusCode body)
      else
        match w.decodeAPIResponse body with
        | none =>
          match w.decodeAPIResults body with
          | some directResults => .ok directResults
          | none => .error (.apiDecode body)
        | some apiResp =>
          if apiResp.Error then .error (.apiError apiResp.Search)
          else .ok apiResp.Results

/-- `ConvertToRegistryInfo` of api_client.go. -/
def ConvertToRegistryInfo (apiResult : APIImageResult) : Str × Str :=
  let mirrorURL := apiResult.Mirror
  if mirrorURL = [] then ([], [])
  else
    let parts := stringsSplit mirrorURL '/'
    if parts.length < 2 then ([], mirrorURL)
    else (parts.getD 0 [], stringsJoin (parts.drop 1) '/')

/-- The first result whose source contains `docker.io` (the loop at puller.go 350-355
and api_client.go 135-140); `none` when the loop leaves `bestMatch` nil. -/
def firstDockerIo : List APIImageResult → Option APIImageResult
  | [] => none
  | r :: results =>
    if stringsContains r.Source "docker.io".toList then some r else firstDockerIo results

/-- `GetBestMatch` of api_client.go; the parameter `arch` is not used by the code. -/
def GetBestMatch (w : World) (baseURL imageName _arch : Str) :
    Except PullError APIImageResult :=
  match SearchImage w baseURL imageName [] [] with
  | .error err => .error err
  | .ok results =>
    let retried : Except PullError (List APIImageResult) :=
      if results.length = 0 then
        let parts := stringsSplit imageName ':'
        if parts.length > 1 then SearchImage w baseURL (parts.getD 0 []) [] []
        else .ok results
      else .ok results
    match retried with
    | .error err => .error err
    | .ok [] => .error .apiNoMatch
    | .ok (r0 :: results) => .ok ((firstDockerIo (r0 :: results)).getD r0)

/-! ## Search orchestrator (`puller.go`) -/

/-- The four values `SearchImageInRegistries` returns; a nil pointer or nil error
is `none`. -/
structure SearchResult where
  registry : Option RegistryConfig
  manifest : Option ManifestResponse
  imageInfo : ImageInfo
  err : Option PullError
deriving DecidableEq, Repr

/-- The index step both phases apply to a fetched manifest (puller.go 399-408 and
502-511): with a non-empty `Manifests` and a selected digest the child manifest is
fetched and, if that succeeds, replaces the manifest; in every other case the
manifest is kept as it is. -/
def resolveIndex (w : World) (registry : RegistryConfig) (repository arch token : Str)
    (manifest : ManifestResponse) : ManifestResponse :=
  if manifest.Manifests.length > 0 then
    let selectedDigest := selectManifest manifest.Manifests arch
    if selectedDigest ≠ [] then
      match FetchManifestByDigest w registry repository selectedDigest token with
      | .ok archManifest => archManifest
      | .error _ => manifest
    else manifest
  else manifest

/-- The directory queries of Phase A (puller.go 327-343): the search for
`repository:tag` and, when it fails or is empty, the search for the part of the
search term before its first `:`.  `.ok results` stands for `err == nil`. -/
def searchAdvancedAPIResults (w : World) (p : MultiRegistryImagePuller) (imageInfo : ImageInfo)
    (arch : Str) : Except PullError (List APIImageResult) :=
  let searchTerm := imageInfo.Repository ++ ":".toList ++ imageInfo.Tag
  let platform := if arch ≠ [] then "linux/".toList ++ arch else []
  let first := SearchImage w p.apiBaseURL searchTerm [] platform
  match first with
  | .ok (_ :: _) => first
  | _ =>
    let parts := stringsSplit searchTerm ':'
    if parts.length > 1 then SearchImage w p.apiBaseURL (parts.getD 0 []) [] platform
    else first

/-- The transient descriptor Phase A builds for the discovered host (puller.go
370-378). -/
def apiMirrorRegistry (registryURL : Str) : RegistryConfig :=
  { Name := "API-Mirror".toList, URL := registryURL, Priority := 0, AuthRequired := false,
    Timeout := 30, Description := "通过高级API发现的镜像仓库".toList, Available := true,
    ResponseTime := none }

/-- The token Phase A fetches the manifest with (puller.go 387-391): the empty token
when the auth handshake fails. -/
def apiMirrorToken (w : World) (tempRegistry : RegistryConfig)
    (repository username password : Str) : Str :=
  match GetAuthToken w tempRegistry repository username password with
  | .ok token => token
  | .error _ => []

/-- Phase A of `SearchImageInRegistries` (puller.go 322-424): `some r` when the
function returns `r` from inside the phase, `none` when control reaches the
static-registry search. -/
def searchAdvancedAPI (w : World) (p : MultiRegistryImagePuller) (imageInfo : ImageInfo)
    (arch username password : Str) : Option SearchResult :=
  match searchAdvancedAPIResults w p imageInfo arch with
  | .ok (r0 :: results) =>
    let bestMatch := (firstDockerIo (r0 :: results)).getD r0
    let (registryURL, imagePath) := ConvertToRegistryInfo bestMatch
    if registryURL ≠ [] ∧ imagePath ≠ [] then
      let (tempRegistry, ok) := TestRegistryAvailability w (apiMirrorRegistry registryURL)
      if ok then
        let apiImageInfo := { imageInfo with Repository := imagePath }
        let token := apiMirrorToken w tempRegistry apiImageInfo.Repository username password
        match FetchManifest w tempRegistry apiImageInfo.Repository apiImageInfo.Tag token with
        | .ok manifest =>
          some ⟨some tempRegistry,
            some (resolveIndex w tempRegistry apiImageInfo.Repository arch token manifest),
            apiImageInfo, none⟩
        | .error _ => none
      else none
    else none
  | _ => none

/-- The inner loop of the insertion sort of Go's `sort` package: the new element
`x` moves left while `less x` of its left neighbour holds.  The sorted prefix is
passed and returned reversed (nearest neighbour first). -/
def insertLeft {α : Type} (less : α → α → Bool) (x : α) : List α → List α
  | [] => [x]
  | y :: ys => if less x y then y :: insertLeft less x ys else x :: y :: ys

/-- `sort.Slice(data, less)`, as the insertion sort the `sort` package runs on
slices of at most twelve elements.  On longer slices the package runs a quicksort
that is not stable: its result is a permutation in which no later element is below
an earlier one, as here, but elements the comparison does not order can come out in
another order than here. -/
def sortSlice {α : Type} (less : α → α → Bool) (data : List α) : List α :=
  (data.foldl (fun sortedRev x => insertLeft less x sortedRev) []).reverse

/-- The comparison function of the Phase B ranking (puller.go 465-473). -/
def rankLess (a b : RegistryConfig) : Bool :=
  if a.Priority ≠ b.Priority then decide (a.Priority < b.Priority)
  else
    match a.ResponseTime, b.ResponseTime with
    | some ta, some tb => decide (ta < tb)
    | _, _ => false

/-- The probe fan-out of Phase B (puller.go 436-458).  A negative channel capacity
panics in `make`; with capacity zero no goroutine ever passes the send on the
semaphore, so `wg.Wait` never returns when there is a registry to probe.  Otherwise
every registry is probed on its own copy of the descriptor, and the copies that
are available are appended in arrival order. -/
def probeRegistries (w : World) (p : MultiRegistryImagePuller) : Run (List RegistryConfig) :=
  let maxWorkers := p.config.Settings.MaxConcurrentRegistries
  if maxWorkers < 0 then .panic
  else if maxWorkers = 0 ∧ p.registries ≠ [] then .hang
  else
    .done ((w.arrival p.registries).filterMap fun reg =>
      let (reg, ok) := TestRegistryAvailability w reg
      if ok then some reg else none)

/-- The loop over the ranked registries (puller.go 478-518). -/
def searchRanked (w : World) (originalImageInfo : ImageInfo) (arch username password : Str) :
    List RegistryConfig → SearchResult
  | [] =>
    ⟨none, none, originalImageInfo,
      some (.imageNotFound originalImageInfo.Repository originalImageInfo.Tag)⟩
  | registry :: rest =>
    let searchRepository := originalImageInfo.Repository
    match GetAuthToken w registry searchRepository username password with
    | .error _ => searchRanked w originalImageInfo arch username password rest
    | .ok token =>
      match FetchManifest w registry searchRepository originalImageInfo.Tag token with
      | .error _ => searchRanked w originalImageInfo arch username password rest
      | .ok manifest =>
        ⟨some registry, some (resolveIndex w registry searchRepository arch token manifest),
          { originalImageInfo with Repository := searchRepository }, none⟩

/-- `SearchImageInRegistries` of puller.go. -/
def SearchImageInRegistries (w : World) (p : MultiRegistryImagePuller)
    (imageInput arch username password : Str) : Run SearchResult :=
  let imageInfo := ParseImageInput imageInput
  let imageInfo := { imageInfo with Tag := TransformTag w p.config imageInfo.Tag }
  let phaseA :=
    if p.config.Settings.EnableAdvancedAPI then
      searchAdvancedAPI w p imageInfo arch username password
    else none
  match phaseA with
  | some result => .done result
  | none =>
    let originalImageInfo := ParseImageInput imageInput
    let originalImageInfo :=
      { originalImageInfo with Tag := TransformTag w p.config originalImageInfo.Tag }
    match probeRegistries w p with
    | .panic => .panic
    | .hang => .hang
    | .done availableRegistries =>
      if availableRegistries.length = 0 then
        .done ⟨none, none, originalImageInfo, some .noRegistriesAvailable⟩
      else
        .done (searchRanked w originalImageInfo arch username password
          (sortSlice rankLess availableRegistries))

/-! ## Blob downloader and image assembler (`puller.go`) -/

/-- The Go slice expression `s[n:]`; `none` when it panics (out of range).  One
character stands for one byte. -/
def sliceFrom (s : Str) (n : Nat) : Option Str :=
  if n ≤ s.length then some (s.drop n) else none

/-- The Go slice expression `s[:n]`; `none` when it panics (out of range). -/
def sliceTo (s : Str) (n : Nat) : Option Str :=
  if n ≤ s.length then some (s.take n) else none

/-- `DownloadFileWithProgress` of puller.go: the file-system effects in the order
they happen, and the returned error (`none` for nil). -/
def DownloadFileWithProgress (w : World) (url token savePath desc : Str) :
    List FsOp × Option PullError :=
  if !w.newRequest url then ([], some .requestCreate)
  else
    let authorization := if token ≠ [] then "Bearer ".toList ++ token else []
    match w.httpDo ⟨url, [], authorization⟩ with
    | none => ([], some .requestTransport)
    | some resp =>
      if resp.StatusCode ≠ 200 then ([], some (.downloadStatus resp.StatusCode))
      else if !w.mkdirAll (w.filepathDir savePath) then ([], some .downloadMkdir)
      else if !w.create savePath then
        ([.mkdirAll (w.filepathDir savePath)], some .downloadCreate)
      else if !w.copyBody url savePath then
        ([.mkdirAll (w.filepathDir savePath), .remove savePath], some .downloadCopy)
      else
        ([.mkdirAll (w.filepathDir savePath), .download url token savePath desc], none)

/-- The variables the layer loop of `downloadLayers` carries from one layer to the
next, and the file-system effects so far. -/
structure LayerLoopState where
  parentID : Str
  layerPaths : List Str
  ops : List FsOp
deriving DecidableEq, Repr

/-- The loop of `downloadLayers` over the layers (puller.go 690-736); `i` is the
index of the current layer and `total` is `len(layers)`.  The result carries the
state reached and the error the function returns from inside the loop, if any. -/
def downloadLayersLoop (w : World) (registry : RegistryConfig) (imageInfo : ImageInfo)
    (token tmpDir : Str) (total : Nat) :
    Nat → List LayerDescriptor → LayerLoopState → Run (LayerLoopState × Option PullError)
  | _, [], st => .done (st, none)
  | i, layer :: layers, st =>
    let fakeLayerID := w.sha256hex (st.parentID ++ "\n".toList ++ layer.Digest ++ "\n".toList)
    let layerDir := w.filepathJoin tmpDir fakeLayerID
    if !w.mkdirAll layerDir then .done (st, some .layerMkdir)
    else
      let ops := st.ops ++ [.mkdirAll layerDir]
      let parent := if st.parentID ≠ [] then some st.parentID else none
      let layerURL := "https://".toList ++ registry.URL ++ "/v2/".toList ++
        imageInfo.Repository ++ "/blobs/".toList ++ layer.Digest
      let gzipPath := w.filepathJoin layerDir "layer_gzip.tar".toList
      let desc := "Layer ".toList ++ (Nat.repr (i + 1)).toList ++ "/".toList ++
        (Nat.repr total).toList
      match DownloadFileWithProgress w layerURL token gzipPath desc with
      | (dops, some err) =>
        match sliceTo layer.Digest 12 with
        | none => .panic
        | some digest12 =>
          .done ({ st with ops := ops ++ dops }, some (.layerDownload digest12 err))
      | (dops, none) =>
        let ops := ops ++ dops
        let tarPath := w.filepathJoin layerDir "layer.tar".toList
        if !w.gunzip gzipPath tarPath then .done ({ st with ops := ops }, some .layerGunzip)
        else
          let ops := ops ++ [.decompress gzipPath tarPath, .remove gzipPath]
          let jsonPath := w.filepathJoin layerDir "json".toList
          if !w.writeFile jsonPath then .done ({ st with ops := ops }, some .layerJSON)
          else
            downloadLayersLoop w registry imageInfo token tmpDir total (i + 1) layers
              { parentID := fakeLayerID,
                layerPaths := st.layerPaths ++ [fakeLayerID ++ "/layer.tar".toList],
                ops := ops ++ [.writeLayerJSON jsonPath fakeLayerID parent] }

/-- `downloadLayers` of puller.go: the file-system effects in order and the
returned error (`none` for nil).  `layers[0]` and `Digest[7:]` panic when out of
range. -/
def downloadLayers (w : World) (p : MultiRegistryImagePuller) (registry : RegistryConfig)
    (imageInfo : ImageInfo) (layers : List LayerDescriptor) (token tmpDir : Str) :
    Run (List FsOp × Option PullError) :=
  match downloadLayersLoop w registry imageInfo token tmpDir layers.length 0 layers
      ⟨[], [], []⟩ with
  | .panic => .panic
  | .hang => .hang
  | .done (st, some err) => .done (st.ops, some err)
  | .done (st, none) =>
    let repoTag :=
      if !p.config.Settings.RemoveRegistryPrefix then
        imageInfo.Repository ++ ":".toList ++ imageInfo.Tag
      else imageInfo.Image ++ ":".toList ++ imageInfo.Tag
    match layers with
    | [] => .panic
    | layer0 :: _ =>
      match sliceFrom layer0.Digest 7 with
      | none => .panic
      | some hex =>
        let config := w.filepathBase tmpDir ++ "/".toList ++ hex ++ ".json".toList
        let manifestPath := w.filepathJoin tmpDir "manifest.json".toList
        if !w.writeFile manifestPath then .done (st.ops, some .manifestWrite)
        else
          let ops := st.ops ++ [.writeManifest manifestPath config [repoTag] st.layerPaths]
          let repositoriesPath := w.filepathJoin tmpDir "repositories".toList
          if !w.writeFile repositoriesPath then .done (ops, some .repositoriesWrite)
          else
            .done (ops ++ [.writeRepositories repositoriesPath imageInfo.Image imageInfo.Tag
              st.parentID], none)

/-- `createImageTar` of puller.go: the file-system effects and the returned pair of
output file name and error. -/
def createImageTar (w : World) (tmpDir : Str) (imageInfo : ImageInfo) (arch : Str) :
    List FsOp × Except PullError Str :=
  let safeRepo := stringsReplaceAll imageInfo.Repository "/".toList "_".toList
  let outputFile := safeRepo ++ "_".toList ++ imageInfo.Tag ++ "_".toList ++ arch ++
    ".tar".toList
  if !w.create outputFile then ([], .error .tarCreate)
  else if !w.walkTar tmpDir outputFile then ([], .error .tarWalk)
  else ([.writeTar outputFile tmpDir], .ok outputFile)

/-- `PullImage` of puller.go: the file-system effects in order and the returned pair
of output file name and error. -/
def PullImage (w : World) (p : MultiRegistryImagePuller)
    (imageInput arch username password : Str) : Run (List FsOp × Except PullError Str) :=
  match SearchImageInRegistries w p imageInput arch username password with
  | .panic => .panic
  | .hang => .hang
  | .done ⟨_, _, _, some err⟩ => .done ([], .error err)
  | .done ⟨none, _, _, none⟩ => .panic
  | .done ⟨some _, none, _, none⟩ => .panic
  | .done ⟨some registry, some manifest, imageInfo, none⟩ =>
    if manifest.Layers.length = 0 then .done ([], .error .noLayers)
    else
      match GetAuthToken w registry imageInfo.Repository username password with
      | .error err => .done ([], .error (.pullAuth err))
      | .ok token =>
        let tmpDir := "tmp".toList
        if !w.mkdirAll tmpDir then .done ([], .error .pullMkdir)
        else
          match sliceFrom manifest.Config.Digest 7 with
          | none => .panic
          | some hex =>
            let configFilename := hex ++ ".json".toList
            let configPath := w.filepathJoin tmpDir configFilename
            let configURL := "https://".toList ++ registry.URL ++ "/v2/".toList ++
              imageInfo.Repository ++ "/blobs/".toList ++ manifest.Config.Digest
            match DownloadFileWithProgress w configURL token configPath "Config".toList with
            | (cops, some err) => .done (.mkdirAll tmpDir :: cops, .error (.pullConfig err))
            | (cops, none) =>
              match downloadLayers w p registry imageInfo manifest.Layers token tmpDir with
              | .panic => .panic
              | .hang => .hang
              | .done (lops, some err) =>
                .done (.mkdirAll tmpDir :: cops ++ lops, .error (.pullLayers err))
              | .done (lops, none) =>
                match createImageTar w tmpDir imageInfo arch with
                | (tops, .error err) =>
                  .done (.mkdirAll tmpDir :: cops ++ lops ++ tops, .error (.pullTar err))
                | (tops, .ok outputFile) =>
                  .done (.mkdirAll tmpDir :: cops ++ lops ++ tops, .ok outputFile)

/-! ## The layer-id chain, in the words of the specification -/

/-- The synthetic layer ids of a digest sequence as the specification defines them:
each id is the lower-case hex SHA-256 of `parent_id ++ "\n" ++ digest ++ "\n"`,
where the parent id of the base layer is `parentID` (empty for a whole image) and
the parent id of every later layer is the id before it. -/
def layerIdChain (sha256hex : Str → Str) (parentID : Str) : List Str → List Str
  | [] => []
  | digest :: digests =>
    sha256hex (parentID ++ "\n".toList ++ digest ++ "\n".toList) ::
      layerIdChain sha256hex
        (sha256hex (parentID ++ "\n".toList ++ digest ++ "\n".toList)) digests

/-! ## Concrete worlds and inputs -/

/-- A world in which nothing answers: every request fails in transport, no body
decodes, no tag rule matches, and every file operation succeeds. -/
def quietWorld : World where
  regexpMatchString := fun _ _ => some false
  base64 := id
  sha256hex := fun s => "h(".toList ++ s.filter (· != '\n') ++ ")".toList
  queryEncode := fun params => (params.map fun kv => kv.1 ++ '=' :: kv.2 ++ ['&']).flatten
  filepathJoin := fun a b => a ++ '/' :: b
  filepathBase := id
  filepathDir := fun path => stringsJoin (stringsSplit path '/').dropLast '/'
  newRequest := fun _ => true
  probe := fun _ _ => none
  httpDo := fun _ => none
  apiGet := fun _ => none
  decodeAuthToken := fun _ => none
  decodeManifest := fun _ => none
  decodeAPIResponse := fun _ => none
  decodeAPIResults := fun _ => none
  arrival := id
  arrival_perm := fun l => List.Perm.refl l
  mkdirAll := fun _ => true
  create := fun _ => true
  copyBody := fun _ _ => true
  gunzip := fun _ _ => true
  writeFile := fun _ => true
  walkTar := fun _ _ => true

/-- Settings with the directory API switched off and five probe workers. -/
def plainSettings : Settings :=
  { MaxConcurrentRegistries := 5, RetryCount := 3, RemoveRegistryPrefix := true,
    DefaultArchitecture := "amd64".toList, DownloadTimeout := 300, EnableProgressBar := false,
    CleanupTempFiles := true, EnableAdvancedAPI := false, AdvancedAPIURL := [] }

/-- A static registry descriptor as configuration gives it: not yet probed. -/
def staticRegistry (name url : Str) (priority : Int) : RegistryConfig :=
  { Name := name, URL := url, Priority := priority, AuthRequired := false, Timeout := 15,
    Description := [], Available := false, ResponseTime := none }

/-- A puller over the registries `A` (priority 1) and `B` (priority 2). -/
def twoRegistryPuller (settings : Settings) : MultiRegistryImagePuller :=
  { config :=
      { Registries := [staticRegistry "A".toList "a.example".toList 1,
          staticRegistry "B".toList "b.example".toList 2],
        TagTransform := { Enabled := false, Rules := [] },
        Settings := settings },
    registries := [staticRegistry "A".toList "a.example".toList 1,
      staticRegistry "B".toList "b.example".toList 2],
    apiBaseURL := "https://api.example".toList }

/-- An image manifest with one config blob and one layer. -/
def nginxManifest : ManifestResponse :=
  { SchemaVersion := 2, MediaType := [],
    Config := { MediaType := [], Size := 1, Digest := "sha256:cccc".toList },
    Layers := [{ MediaType := [], Size := 1, Digest := "sha256:llll".toList }],
    Manifests := [] }

/-- The failover scenario: both registries answer the probe (A faster) and need no
auth; A answers 404 for the manifest of `nginx:1.25`, B serves it. -/
def failoverWorld : World :=
  { quietWorld with
    probe := fun url _ =>
      if url = "https://a.example/v2/".toList then some (200, 10)
      else if url = "https://b.example/v2/".toList then some (200, 20)
      else none
    httpDo := fun req =>
      if req.URL = "https://a.example/v2/".toList ∨ req.URL = "https://b.example/v2/".toList then
        some ⟨200, [], none⟩
      else if req.URL = "https://b.example/v2/nginx/manifests/1.25".toList then
        some ⟨200, [], some "nginx".toList⟩
      else some ⟨404, [], none⟩
    decodeManifest := fun body => if body = "nginx".toList then some nginxManifest else none }

/-- Registry `A` as its probe in `failoverWorld` leaves it. -/
def probedA : RegistryConfig :=
  { staticRegistry "A".toList "a.example".toList 1 with Available := true, ResponseTime := some 10 }

/-- Registry `B` as its probe in `failoverWorld` leaves it. -/
def probedB : RegistryConfig :=
  { staticRegistry "B".toList "b.example".toList 2 with Available := true, ResponseTime := some 20 }

/-- An index manifest whose only entry is for `linux/amd64`. -/
def amd64Index : ManifestResponse :=
  { SchemaVersion := 2, MediaType := [],
    Config := { MediaType := [], Size := 0, Digest := [] }, Layers := [],
    Manifests := [⟨[], 1, "sha256:digest1".toList, ⟨"amd64".toList, "linux".toList⟩⟩] }

/-- The directory scenario: the directory API names the mirror
`mirror.example.com/library/alpine`, the mirror answers the probe, needs no auth and
serves `amd64Index` for tag `3.19`; of the static registries, B is available and
serves the image manifest `nginxManifest` for `alpine:3.19`. -/
def mirrorIndexWorld : World :=
  { quietWorld with
    apiGet := fun _ => some ⟨200, [], some "results".toList⟩
    decodeAPIResponse := fun body =>
      if body = "results".toList then
        some ⟨1, false,
          [⟨"docker.io/library/alpine:3.19".toList, "mirror.example.com/library/alpine".toList,
            "linux/amd64".toList, "3MB".toList, []⟩],
          "alpine:3.19".toList⟩
      else none
    probe := fun url _ =>
      if url = "https://mirror.example.com/v2/".toList then some (200, 5)
      else if url = "https://b.example/v2/".toList then some (200, 20)
      else none
    httpDo := fun req =>
      if req.URL = "https://mirror.example.com/v2/".toList ∨
          req.URL = "https://b.example/v2/".toList then
        some ⟨200, [], none⟩
      else if req.URL = "https://mirror.example.com/v2/library/alpine/manifests/3.19".toList then
        some ⟨200, [], some "index".toList⟩
      else if req.URL = "https://b.example/v2/alpine/manifests/3.19".toList then
        some ⟨200, [], some "image".toList⟩
      else some ⟨404, [], none⟩
    decodeManifest := fun body =>
      if body = "index".toList then some amd64Index
      else if body = "image".toList then some nginxManifest
      else none }

/-- The transient descriptor of `mirror.example.com` as its probe in
`mirrorIndexWorld` leaves it. -/
def probedMirror : RegistryConfig :=
  { apiMirrorRegistry "mirror.example.com".toList with ResponseTime := some 5 }

/-- Two layers, with the digests `sha256:cccc` and `sha256:llll`. -/
def twoLayers : List LayerDescriptor :=
  [⟨[], 1, "sha256:cccc".toList⟩, ⟨[], 2, "sha256:llll".toList⟩]

/-- The pull scenario: the failover scenario in which registry B also serves the
config blob and the layer blob of `nginxManifest`. -/
def pullWorld : World :=
  { failoverWorld with
    httpDo := fun req =>
      if req.URL = "https://b.example/v2/nginx/blobs/sha256:cccc".toList ∨
          req.URL = "https://b.example/v2/nginx/blobs/sha256:llll".toList then
        some ⟨200, [], none⟩
      else failoverWorld.httpDo req }

/-- A world whose regular-expression matcher agrees with Go's on the three patterns
of the examples: `^v(.*)$` matches the one-line strings that begin with `v`, `.*`
matches every string, and `(` does not compile.  For any other pattern it answers
that there is no match. -/
def tagWorld : World :=
  { quietWorld with
    regexpMatchString := fun pattern s =>
      if pattern = "^v(.*)$".toList then some (s.head? == some 'v' && decide ('\n' ∉ s))
      else if pattern = ".*".toList then some true
      else if pattern = "(".toList then none
      else some false }

/-- A configuration with tag transformation switched on and the given rules. -/
def tagConfig (rules : List TagTransformRule) : Config :=
  { Registries := [], TagTransform := { Enabled := true, Rules := rules },
    Settings := plainSettings }

/-- The rule of the tag-rewrite scenario: pattern `^v(.*)$`, replacement
`{original_tag}-suffix`. -/
def suffixRule : TagTransformRule :=
  { Name := "suffix".toList, Description := [], Pattern := "^v(.*)$".toList,
    Replacement := "\x7boriginal_tag\x7d-suffix".toList, Enabled := true }

/-- The default rule of `getDefaultConfig`: every tag is kept. -/
def identityRule : TagTransformRule :=
  { Name := "默认规则".toList, Description := "保持原始标签不变".toList, Pattern := ".*".toList,
    Replacement := "\x7boriginal_tag\x7d".toList, Enabled := true }

/-- Registry `B` probed with the priority and the response time of `probedA`. -/
def tiedB : RegistryConfig :=
  { staticRegistry "B".toList "b.example".toList 1 with Available := true, ResponseTime := some 10 }

/-! ## Scenarios of the assembler, the auth handshake and the archive writer -/

/-- A world in which every request is answered with status 200 and every file
operation succeeds. -/
def blobWorld : World :=
  { quietWorld with httpDo := fun _ => some ⟨200, [], none⟩ }

/-- The file-system effects of staging the one layer of `nginxManifest` from registry
B under `tmp`, for a reference with the given repository. -/
def nginxLayerOps (repository : Str) : List FsOp :=
  [.mkdirAll "tmp/h(sha256:llll)".toList,
   .mkdirAll "tmp/h(sha256:llll)".toList,
   .download ("https://b.example/v2/".toList ++ repository ++ "/blobs/sha256:llll".toList) []
     "tmp/h(sha256:llll)/layer_gzip.tar".toList "Layer 1/1".toList,
   .decompress "tmp/h(sha256:llll)/layer_gzip.tar".toList
     "tmp/h(sha256:llll)/layer.tar".toList,
   .remove "tmp/h(sha256:llll)/layer_gzip.tar".toList,
   .writeLayerJSON "tmp/h(sha256:llll)/json".toList "h(sha256:llll)".toList none]

/-- A world in which the `/v2/` probe of `a.example` answers 401 with the given
`WWW-Authenticate` header, and the token endpoint of `auth.example` answers every
request with the body `tok`, which decodes to the token `secret`. -/
def challengeWorld (header : Str) : World :=
  { quietWorld with
    httpDo := fun req =>
      if req.URL = "https://a.example/v2/".toList then some ⟨401, header, none⟩
      else some ⟨200, [], some "tok".toList⟩
    decodeAuthToken := fun body =>
      if body = "tok".toList then some ⟨"secret".toList, [], 0⟩ else none }

/-- A well-formed bearer challenge. -/
def bearerHeader : Str :=
  "Bearer realm=\"https://auth.example/token\",service=\"registry.example\"".toList

/-- A bearer challenge whose second field lacks its closing quote. -/
def unterminatedHeader : Str :=
  "Bearer realm=\"https://auth.example/token\",service=\"registry.example".toList

/-- The settings of `plainSettings` with the registry prefix kept in `RepoTags`. -/
def keepPrefixSettings : Settings :=
  { plainSettings with RemoveRegistryPrefix := false }

/-- The settings of `plainSettings` with a probe semaphore of capacity zero, the value
an absent `max_concurrent_registries` decodes to. -/
def zeroPermitSettings : Settings :=
  { plainSettings with MaxConcurrentRegistries := 0 }

/-- A puller over the registries `A` and `C`, both of priority 1. -/
def sameClassPuller : MultiRegistryImagePuller :=
  { config :=
      { Registries := [staticRegistry "A".toList "a.example".toList 1,
          staticRegistry "C".toList "c.example".toList 1],
        TagTransform := { Enabled := false, Rules := [] },
        Settings := plainSettings },
    registries := [staticRegistry "A".toList "a.example".toList 1,
      staticRegistry "C".toList "c.example".toList 1],
    apiBaseURL := "https://api.example".toList }

/-- A world in which the token URL `1:2?service=s&scope=repository:library/nginx:pull`
cannot be made into a request, as `http.NewRequest` rejects a first path segment with
a colon; the `/v2/` probe of `a.example` answers 401 with the given header. -/
def brokenRealmWorld (header : Str) : World :=
  { challengeWorld header with
    newRequest := fun url =>
      decide (url ≠ "1:2?service=s&scope=repository:library/nginx:pull".toList) }

/-! ## Lemmas on splitting and joining -/

theorem stringsContains_singleton (c : Char) (s : Str) :
    stringsContains s [c] = true ↔ c ∈ s := by
  induction s with
  | nil => simp [stringsContains]
  | cons a s ih =>
    simp only [stringsContains, List.isPrefixOf, Bool.or_eq_true, Bool.and_eq_true, ih,
      List.mem_cons, beq_iff_eq]
    constructor
    · rintro (⟨h, _⟩ | h)
      · exact Or.inl h
      · exact Or.inr h
    · rintro (h | h)
      · exact Or.inl ⟨h, trivial⟩
      · exact Or.inr h

theorem stringsJoin_nil (sep : Char) : stringsJoin [] sep = [] := rfl

theorem stringsJoin_singleton (sep : Char) (a : Str) : stringsJoin [a] sep = a := by
  simp [stringsJoin, List.intercalate, List.intersperse]

theorem stringsJoin_cons_cons (sep : Char) (a b : Str) (l : List Str) :
    stringsJoin (a :: b :: l) sep = a ++ sep :: stringsJoin (b :: l) sep := by
  simp [stringsJoin, List.intercalate, List.intersperse]

theorem stringsJoin_cons_of_ne_nil (sep : Char) (a : Str) (l : List Str) (hl : l ≠ []) :
    stringsJoin (a :: l) sep = a ++ sep :: stringsJoin l sep := by
  cases l with
  | nil => exact absurd rfl hl
  | cons b l => exact stringsJoin_cons_cons sep a b l

/-- Appending to the last segment appends to the joined string. -/
theorem stringsJoin_append_last (sep : Char) (init : List Str) (last x : Str) :
    stringsJoin (init ++ [last ++ x]) sep = stringsJoin (init ++ [last]) sep ++ x := by
  induction init with
  | nil => simp [stringsJoin_singleton]
  | cons a init ih =>
    rw [List.cons_append, List.cons_append,
      stringsJoin_cons_of_ne_nil sep a _ (by simp), stringsJoin_cons_of_ne_nil sep a _ (by simp), ih]
    simp

theorem stringsJoin_snoc (sep : Char) (init : List Str) (last : Str) (h : init ≠ []) :
    stringsJoin (init ++ [last]) sep = stringsJoin init sep ++ sep :: last := by
  induction init with
  | nil => exact absurd rfl h
  | cons a init ih =>
    cases init with
    | nil => simp [stringsJoin_singleton, stringsJoin_cons_cons]
    | cons b init =>
      rw [List.cons_append, stringsJoin_cons_of_ne_nil sep a _ (by simp), ih (by simp),
        stringsJoin_cons_of_ne_nil sep a _ (by simp)]
      simp

theorem stringsSplit_ne_nil (s : Str) (sep : Char) : stringsSplit s sep ≠ [] :=
  List.splitOnP_ne_nil _ _

theorem stringsJoin_stringsSplit (s : Str) (sep : Char) :
    stringsJoin (stringsSplit s sep) sep = s :=
  List.intercalate_splitOn s sep

theorem stringsSplit_stringsJoin (sep : Char) (ls : List Str) (hx : ∀ l ∈ ls, sep ∉ l)
    (hls : ls ≠ []) : stringsSplit (stringsJoin ls sep) sep = ls :=
  List.splitOn_intercalate ls sep hx hls

theorem stringsSplit_of_not_mem (s : Str) (sep : Char) (h : sep ∉ s) :
    stringsSplit s sep = [s] := by
  have := stringsSplit_stringsJoin sep [s] (by simpa using h) (by simp)
  rwa [stringsJoin_singleton] at this

theorem stringsSplit_append_sep (a b : Str) (sep : Char) (h : sep ∉ a) :
    stringsSplit (a ++ sep :: b) sep = a :: stringsSplit b sep := by
  unfold stringsSplit List.splitOn
  exact List.splitOnP_first (· == sep) a (fun x hx hp => h ((beq_iff_eq.mp hp) ▸ hx)) sep
    (beq_self_eq_true _) b

/-- No segment of a split contains the separator. -/
theorem not_mem_of_mem_stringsSplit (sep : Char) (s : Str) :
    ∀ l ∈ stringsSplit s sep, sep ∉ l := by
  unfold stringsSplit List.splitOn
  induction s with
  | nil => simp [List.splitOnP_nil]
  | cons a s ih =>
    rw [List.splitOnP_cons]
    by_cases ha : (a == sep) = true
    · simp only [ha, if_true, List.mem_cons]
      rintro l (rfl | hl)
      · simp
      · exact ih l hl
    · simp only [ha, if_false]
      have hne := List.splitOnP_ne_nil (· == sep) s
      cases hsp : List.splitOnP (· == sep) s with
      | nil => exact absurd hsp hne
      | cons hd tl =>
        rw [hsp] at ih
        intro l hl
        simp only [Bool.false_eq_true, if_false, List.modifyHead_cons, List.mem_cons] at hl
        rcases hl with rfl | hl
        · have := ih hd (by simp)
          simp only [List.mem_cons, not_or]
          exact ⟨fun h => ha (by simp [h]), this⟩
        · exact ih l (by simp [hl])

/-- Every character of a segment is a character of the string that was split. -/
theorem mem_of_mem_stringsSplit (sep : Char) (s l : Str) (hl : l ∈ stringsSplit s sep)
    (c : Char) (hc : c ∈ l) : c ∈ s := by
  have h := stringsJoin_stringsSplit s sep
  rw [← h]
  generalize stringsSplit s sep = ls at hl
  induction ls with
  | nil => cases hl
  | cons a ls ih =>
    by_cases hls : ls = []
    · subst hls
      simp only [List.mem_singleton] at hl
      subst hl
      simpa [stringsJoin_singleton] using hc
    · rw [stringsJoin_cons_of_ne_nil sep a ls hls]
      rcases List.mem_cons.mp hl with rfl | hl
      · simp [hc]
      · simp [ih hl]

/-- The separator occurs in a joined list of separator-free segments exactly
when there are at least two segments. -/
theorem sep_mem_stringsJoin (sep : Char) (a : Str) (ls : List Str)
    (hx : ∀ l ∈ a :: ls, sep ∉ l) : sep ∈ stringsJoin (a :: ls) sep ↔ ls ≠ [] := by
  cases ls with
  | nil => simpa [stringsJoin_singleton] using hx
  | cons b ls => simp [stringsJoin_cons_cons]

/-! ## Reference parser: how an input is read, segment by segment -/

theorem parseImageTag_of_not_mem (s : Str) (h : ':' ∉ s) :
    parseImageTag s = (s, "latest".toList) := by
  simp [parseImageTag, stringsSplit_of_not_mem s ':' h]

theorem parseImageTag_colon (a t : Str) (ha : ':' ∉ a) (ht : ':' ∉ t) :
    parseImageTag (a ++ ':' :: t) = (a, t) := by
  simp [parseImageTag, stringsSplit_append_sep a t ':' ha, stringsSplit_of_not_mem t ':' ht]

theorem getLastD_append_singleton (l : List Str) (a d : Str) : (l ++ [a]).getLastD d = a := by
  induction l with
  | nil => rfl
  | cons b l ih => cases l <;> simp [List.getLastD] at ih ⊢

/-- The parse of an input given by its `/`-separated segments `init ++ [last]`. -/
theorem ParseImageInput_segments (init : List Str) (last : Str)
    (hseg : ∀ l ∈ init ++ [last], '/' ∉ l) :
    ParseImageInput (stringsJoin (init ++ [last]) '/') =
      if init ≠ [] ∧ ('.' ∈ init.headD [] ∨ ':' ∈ init.headD []) then
        { Repository := (stringsSplit (stringsJoin (init.drop 1 ++ [last]) '/') ':').getD 0 [],
          Image := (parseImageTag last).1, Tag := (parseImageTag last).2 }
      else
        { Repository := if stringsJoin init '/' = [] then (parseImageTag last).1
            else stringsJoin init '/' ++ ['/'] ++ (parseImageTag last).1,
          Image := (parseImageTag last).1, Tag := (parseImageTag last).2 }
    := by
  have hsplit := stringsSplit_stringsJoin '/' (init ++ [last]) hseg (by simp)
  cases init with
  | nil =>
    have hno : '/' ∉ last := hseg last (by simp)
    have hc : stringsContains last ['/'] = false := by
      rw [← Bool.not_eq_true, stringsContains_singleton]; exact hno
    simp only [List.nil_append, stringsJoin_singleton] at hsplit ⊢
    simp [ParseImageInput, hsplit, hc, stringsJoin_nil]
  | cons h init =>
    have hc : stringsContains (stringsJoin (h :: init ++ [last]) '/') ['/'] = true := by
      rw [stringsContains_singleton]
      exact (sep_mem_stringsJoin '/' h (init ++ [last]) hseg).2 (by simp)
    have hsplit2 := stringsSplit_stringsJoin '/' (init ++ [last])
      (fun l hl => hseg l (by simp at hl ⊢; tauto)) (by simp)
    have hd1 : List.drop 1 (h :: init ++ [last]) = init ++ [last] := rfl
    have hg0 : (h :: init ++ [last]).getD 0 [] = h := rfl
    have hlen0 : decide ((h :: init ++ [last]).length > 0) = true := by simp
    by_cases hh : '.' ∈ h ∨ ':' ∈ h
    · have hb : (stringsContains h ['.'] || stringsContains h [':']) = true := by
        simpa [stringsContains_singleton] using hh
      have hlast : (if (init ++ [last]).length = 1 then (init ++ [last]).getD 0 []
          else (init ++ [last]).getLastD []) = last := by
        rw [getLastD_append_singleton]
        cases init with
        | nil => simp
        | cons b init => simp
      simp only [ParseImageInput, hsplit, hc, hd1, hg0, hlen0, hb, hsplit2, hlast, Bool.and_self,
        if_true]
      have hcond : h :: init ≠ [] ∧ ('.' ∈ (h :: init).headD [] ∨ ':' ∈ (h :: init).headD []) :=
        ⟨by simp, hh⟩
      rw [if_pos hcond]
      rfl
    · have hb : (stringsContains h ['.'] || stringsContains h [':']) = false := by
        rw [← Bool.not_eq_true]
        simpa [stringsContains_singleton] using hh
      have hlen : ¬ ((h :: init ++ [last]).length = 1) := by simp
      have htake : (h :: init ++ [last]).take ((h :: init ++ [last]).length - 1) = h :: init := by
        simp
      have hl : (h :: init ++ [last]).getLastD [] = last := getLastD_append_singleton _ _ _
      simp only [ParseImageInput, hsplit, hc, hg0, hlen0, hb, Bool.and_false, Bool.false_eq_true,
        if_false, hlen, htake, hl]
      have hcond : ¬ (h :: init ≠ [] ∧ ('.' ∈ (h :: init).headD [] ∨ ':' ∈ (h :: init).headD [])) :=
        fun hx => hh hx.2
      rw [if_neg hcond]

/-- Every string is the join of its segments, the last one singled out. -/
theorem stringsSplit_decomp (p : Str) (sep : Char) :
    ∃ (I : List Str) (L : Str), stringsSplit p sep = I ++ [L] ∧ stringsJoin (I ++ [L]) sep = p ∧
      (∀ l ∈ I ++ [L], sep ∉ l) ∧ (∀ l ∈ I ++ [L], ∀ c ∈ l, c ∈ p) := by
  rcases List.eq_nil_or_concat (stringsSplit p sep) with h | ⟨I, L, h⟩
  · exact absurd h (stringsSplit_ne_nil p sep)
  · rw [List.concat_eq_append] at h
    refine ⟨I, L, h, ?_, ?_, ?_⟩
    · rw [← h]; exact stringsJoin_stringsSplit p sep
    · rw [← h]; exact not_mem_of_mem_stringsSplit sep p
    · rw [← h]; exact fun l hl c hc => mem_of_mem_stringsSplit sep p l hl c hc

/-- Standard form: the input `join (I ++ [L]) ++ sfx`, whose last segment is `L ++ sfx`. -/
theorem ParseImageInput_standard_core (I : List Str) (L sfx tg : Str)
    (hseg : ∀ l ∈ I ++ [L ++ sfx], '/' ∉ l)
    (hcond : ¬ (I ≠ [] ∧ ('.' ∈ I.headD [] ∨ ':' ∈ I.headD [])))
    (htag : parseImageTag (L ++ sfx) = (L, tg)) :
    ParseImageInput (stringsJoin (I ++ [L]) '/' ++ sfx) =
      ⟨if stringsJoin I '/' = [] then L else stringsJoin I '/' ++ ['/'] ++ L, L, tg⟩ := by
  rw [← stringsJoin_append_last, ParseImageInput_segments I (L ++ sfx) hseg, if_neg hcond, htag]

/-- Private-registry form: the input `h ++ "/" ++ join (I ++ [L]) ++ sfx`. -/
theorem ParseImageInput_host_core (h : Str) (I : List Str) (L sfx tg : Str)
    (hseg : ∀ l ∈ (h :: I) ++ [L ++ sfx], '/' ∉ l) (hhost : '.' ∈ h ∨ ':' ∈ h)
    (htag : parseImageTag (L ++ sfx) = (L, tg))
    (hrepo : (stringsSplit (stringsJoin (I ++ [L]) '/' ++ sfx) ':').getD 0 [] =
      stringsJoin (I ++ [L]) '/') :
    ParseImageInput (h ++ ['/'] ++ (stringsJoin (I ++ [L]) '/' ++ sfx)) =
      ⟨stringsJoin (I ++ [L]) '/', L, tg⟩ := by
  have hjoin : h ++ ['/'] ++ (stringsJoin (I ++ [L]) '/' ++ sfx) =
      stringsJoin ((h :: I) ++ [L ++ sfx]) '/' := by
    rw [List.cons_append, stringsJoin_cons_of_ne_nil '/' h _ (by simp), stringsJoin_append_last]
    simp
  rw [hjoin, ParseImageInput_segments (h :: I) (L ++ sfx) hseg, if_pos ⟨by simp, hhost⟩, htag]
  simp only [List.drop_succ_cons, List.drop_zero]
  rw [stringsJoin_append_last, hrepo]

/-! ## Reference parser: the claims -/

/-- C8: an input `h/p` or `h/p:t` whose first segment `h` contains `.` or `:` is read
as registry host plus path; the host is stripped: repository is `p`, image is the
last `/`-separated segment of `p`, tag is `t`, or `latest` when `:t` is absent. -/
theorem ParseImageInput_strips_registry_host (h p t : Str)
    (hslash : '/' ∉ h) (hhost : '.' ∈ h ∨ ':' ∈ h) (hp : ':' ∉ p)
    (ht : ':' ∉ t ∧ '/' ∉ t) :
    ParseImageInput (h ++ ['/'] ++ p) =
        ⟨p, (stringsSplit p '/').getLastD [], "latest".toList⟩ ∧
    ParseImageInput (h ++ ['/'] ++ (p ++ [':'] ++ t)) =
        ⟨p, (stringsSplit p '/').getLastD [], t⟩ := by
  obtain ⟨I, L, hs, hj, hfree, hmem⟩ := stringsSplit_decomp p '/'
  have hL : ':' ∉ L := fun hc => hp (hmem L (by simp) ':' hc)
  rw [hs, getLastD_append_singleton]
  constructor
  · have := ParseImageInput_host_core h I L [] "latest".toList
      (by
        intro l hl
        simp only [List.append_nil, List.cons_append, List.mem_cons] at hl
        rcases hl with rfl | hl
        · exact hslash
        · exact hfree l hl)
      hhost (by rw [List.append_nil]; exact parseImageTag_of_not_mem L hL)
      (by rw [List.append_nil, hj, stringsSplit_of_not_mem p ':' hp]; rfl)
    rwa [List.append_nil, hj] at this
  · have := ParseImageInput_host_core h I L (':' :: t) t
      (by
        intro l hl
        simp only [List.cons_append, List.mem_cons, List.mem_append, List.not_mem_nil,
          or_false] at hl
        rcases hl with rfl | hl | rfl
        · exact hslash
        · exact hfree l (by simp [hl])
        · have hLs := hfree L (by simp)
          simp only [List.mem_append, List.mem_cons, not_or]
          exact ⟨hLs, by decide, ht.2⟩)
      hhost (parseImageTag_colon L t hL ht.1)
      (by rw [hj, stringsSplit_append_sep p t ':' hp]; rfl)
    rw [hj] at this
    simpa using this

/-- C8, at `registry.example.com/library/nginx` with and without the tag `1.25`. -/
theorem ParseImageInput_strips_registry_host_witness :
    ('/' ∉ "registry.example.com".toList ∧ '.' ∈ "registry.example.com".toList) ∧
    ParseImageInput ("registry.example.com".toList ++ ['/'] ++ "library/nginx".toList) =
        ⟨"library/nginx".toList, "nginx".toList, "latest".toList⟩ ∧
    ParseImageInput ("registry.example.com".toList ++ ['/'] ++
        ("library/nginx".toList ++ [':'] ++ "1.25".toList)) =
        ⟨"library/nginx".toList, "nginx".toList, "1.25".toList⟩ :=
  ⟨by decide,
    ParseImageInput_strips_registry_host "registry.example.com".toList "library/nginx".toList
      "1.25".toList (by decide) (Or.inl (by decide)) (by decide) (by decide)⟩

/-- The repository the standard form computes from the segments `I ++ [L]` of the path. -/
theorem standard_repository_eq (I : List Str) (L p : Str)
    (hj : stringsJoin (I ++ [L]) '/' = p) (hfree : ∀ l ∈ I ++ [L], '/' ∉ l) :
    (if stringsJoin I '/' = [] then L else stringsJoin I '/' ++ ['/'] ++ L) =
      if p.head? = some '/' ∧ '/' ∉ p.tail then p.tail else p := by
  cases I with
  | nil =>
    simp only [List.nil_append, stringsJoin_singleton] at hj
    subst hj
    have hL : '/' ∉ L := hfree L (by simp)
    have : ¬ (L.head? = some '/' ∧ '/' ∉ L.tail) := by
      rintro ⟨h1, -⟩
      exact hL (List.mem_of_mem_head? h1)
    rw [if_neg this, stringsJoin_nil, if_pos rfl]
  | cons a I =>
    rw [stringsJoin_snoc '/' (a :: I) L (by simp)] at hj
    by_cases he : stringsJoin (a :: I) '/' = []
    · rw [he] at hj
      simp only [List.nil_append] at hj
      subst hj
      have hL : '/' ∉ L := hfree L (by simp)
      rw [if_pos he, if_pos ⟨rfl, hL⟩]
      rfl
    · rw [if_neg he]
      obtain ⟨c, rest, hcr⟩ := List.exists_cons_of_ne_nil he
      have : ¬ (p.head? = some '/' ∧ '/' ∉ p.tail) := by
        rintro ⟨-, h2⟩
        apply h2
        rw [← hj, hcr]
        simp
      rw [if_neg this, ← hj]
      simp

/-- C9 as amended: an input `p` or `p:t` that the parser reads in the standard form is
taken verbatim with no namespace prepended, except that a path `/x` with a single,
leading slash loses that slash (repository `x`).  Image is the last segment of `p`,
tag is `t` or `latest`; a bare name `n` gives repository = image = `n`. -/
theorem ParseImageInput_standard_form (p t : Str) (hp : ':' ∉ p)
    (ht : ':' ∉ t ∧ '/' ∉ t)
    (hfirst : '/' ∉ p ∨ '.' ∉ (stringsSplit p '/').headD []) :
    ParseImageInput p =
      ⟨if p.head? = some '/' ∧ '/' ∉ p.tail then p.tail else p,
        (stringsSplit p '/').getLastD [], "latest".toList⟩ ∧
    ParseImageInput (p ++ [':'] ++ t) =
      ⟨if p.head? = some '/' ∧ '/' ∉ p.tail then p.tail else p,
        (stringsSplit p '/').getLastD [], t⟩ ∧
    ('/' ∉ p → ParseImageInput p = ⟨p, p, "latest".toList⟩) := by
  obtain ⟨I, L, hs, hj, hfree, hmem⟩ := stringsSplit_decomp p '/'
  have hL : ':' ∉ L := fun hc => hp (hmem L (by simp) ':' hc)
  have hcond : ¬ (I ≠ [] ∧ ('.' ∈ I.headD [] ∨ ':' ∈ I.headD [])) := by
    rintro ⟨hne, hdot⟩
    obtain ⟨a, I, rfl⟩ := List.exists_cons_of_ne_nil hne
    simp only [List.headD_cons] at hdot
    rcases hdot with hdot | hcol
    · rcases hfirst with hno | hno
      · rw [stringsSplit_of_not_mem p '/' hno] at hs
        have := congrArg List.length hs
        simp at this
      · rw [hs] at hno
        exact hno hdot
    · exact hp (hmem a (by simp) ':' hcol)
  have hrepo := standard_repository_eq I L p hj hfree
  have h1 : ParseImageInput p = ⟨if p.head? = some '/' ∧ '/' ∉ p.tail then p.tail else p,
      (stringsSplit p '/').getLastD [], "latest".toList⟩ := by
    have := ParseImageInput_standard_core I L [] "latest".toList
      (by simpa using hfree) hcond
      (by rw [List.append_nil]; exact parseImageTag_of_not_mem L hL)
    rw [List.append_nil, hj, hrepo] at this
    rw [this, hs, getLastD_append_singleton]
  refine ⟨h1, ?_, ?_⟩
  · have := ParseImageInput_standard_core I L (':' :: t) t
      (by
        intro l hl
        simp only [List.mem_append, List.mem_singleton] at hl
        rcases hl with hl | rfl
        · exact hfree l (by simp [hl])
        · have hLs := hfree L (by simp)
          simp only [List.mem_append, List.mem_cons, not_or]
          exact ⟨hLs, by decide, ht.2⟩)
      hcond (parseImageTag_colon L t hL ht.1)
    rw [hj, hrepo] at this
    rw [hs, getLastD_append_singleton]
    simpa using this
  · intro hno
    rw [h1, stringsSplit_of_not_mem p '/' hno]
    have : ¬ (p.head? = some '/' ∧ '/' ∉ p.tail) := fun hx => hno (List.mem_of_mem_head? hx.1)
    rw [if_neg this]
    rfl

/-- C9 as amended, at the path `library/nginx` and tag `1.25`. -/
theorem ParseImageInput_standard_form_witness :
    (':' ∉ "library/nginx".toList ∧ '.' ∉ (stringsSplit "library/nginx".toList '/').headD []) ∧
    ParseImageInput ("library/nginx".toList ++ [':'] ++ "1.25".toList) =
      ⟨"library/nginx".toList, "nginx".toList, "1.25".toList⟩ :=
  ⟨by decide,
    (ParseImageInput_standard_form "library/nginx".toList "1.25".toList (by decide) (by decide)
      (Or.inr (by decide))).2.1⟩

/-- C9 as stated fails at the path `/x`: it has no `:`, its first segment (empty) has no
`.`, the parser takes the standard form, and the repository is `x`, not `/x`. -/
theorem ParseImageInput_verbatim_counterexample :
    (':' ∉ "/x".toList ∧ '.' ∉ (stringsSplit "/x".toList '/').headD []) ∧
    (ParseImageInput "/x".toList).Repository = "x".toList ∧
    (ParseImageInput "/x".toList).Repository ≠ "/x".toList := by
  decide

/-- C10: an input whose last `/`-separated segment contains no `:` gets the tag
`latest`, whichever form (private-registry or standard) the parser takes. -/
theorem ParseImageInput_default_tag (s : Str)
    (h : ':' ∉ (stringsSplit s '/').getLastD []) :
    (ParseImageInput s).Tag = "latest".toList := by
  obtain ⟨I, L, hs, hj, hfree, -⟩ := stringsSplit_decomp s '/'
  rw [hs, getLastD_append_singleton] at h
  rw [← hj, ParseImageInput_segments I L hfree, parseImageTag_of_not_mem L h]
  split <;> rfl

/-- C10, at `registry.example.com/library/nginx` (private-registry form). -/
theorem ParseImageInput_default_tag_witness :
    ':' ∉ (stringsSplit "registry.example.com/library/nginx".toList '/').getLastD [] ∧
    (ParseImageInput "registry.example.com/library/nginx".toList).Tag = "latest".toList :=
  ⟨by decide, ParseImageInput_default_tag "registry.example.com/library/nginx".toList (by decide)⟩

/-! ## Platform selection: the claims -/

theorem selectManifest_of_first_match (arch : Str) (pre : List PlatformManifest)
    (m : PlatformManifest) (post : List PlatformManifest)
    (hpre : ∀ x ∈ pre, ¬ (x.Platform.Architecture = arch ∧ x.Platform.OS = "linux".toList))
    (hm : m.Platform.Architecture = arch ∧ m.Platform.OS = "linux".toList) :
    selectManifest (pre ++ m :: post) arch = m.Digest := by
  induction pre with
  | nil => simp [selectManifest, hm.1, hm.2]
  | cons x pre ih =>
    have hx := hpre x (by simp)
    rw [List.cons_append, selectManifest, if_neg hx]
    exact ih (fun y hy => hpre y (by simp [hy]))

theorem selectManifest_of_no_match (arch : Str) (manifests : List PlatformManifest)
    (hnone : ∀ x ∈ manifests,
      ¬ (x.Platform.Architecture = arch ∧ x.Platform.OS = "linux".toList)) :
    selectManifest manifests arch = [] := by
  induction manifests with
  | nil => rfl
  | cons x manifests ih =>
    rw [selectManifest, if_neg (hnone x (by simp))]
    exact ih (fun y hy => hnone y (by simp [hy]))

/-- C5: `selectManifest` returns the digest of the first entry, in list order, whose
architecture is the target and whose os is `linux`; it returns the empty string when
no entry matches; for `[linux/amd64 -> digest1, linux/arm64 -> digest2]` and target
`arm64` it returns `digest2`. -/
theorem selectManifest_first_match (manifests : List PlatformManifest) (arch : Str) :
    (∀ pre m post, manifests = pre ++ m :: post →
      (∀ x ∈ pre, ¬ (x.Platform.Architecture = arch ∧ x.Platform.OS = "linux".toList)) →
      m.Platform.Architecture = arch → m.Platform.OS = "linux".toList →
      selectManifest manifests arch = m.Digest) ∧
    ((∀ x ∈ manifests, ¬ (x.Platform.Architecture = arch ∧ x.Platform.OS = "linux".toList)) →
      selectManifest manifests arch = []) ∧
    selectManifest
      [⟨[], 0, "digest1".toList, ⟨"amd64".toList, "linux".toList⟩⟩,
       ⟨[], 0, "digest2".toList, ⟨"arm64".toList, "linux".toList⟩⟩] "arm64".toList =
      "digest2".toList := by
  refine ⟨?_, selectManifest_of_no_match arch manifests, by decide⟩
  intro pre m post hm hpre ha ho
  subst hm
  exact selectManifest_of_first_match arch pre m post hpre ⟨ha, ho⟩

/-- C5, at an index whose second entry is the first `linux/arm64` one. -/
theorem selectManifest_first_match_witness :
    selectManifest
      ([⟨[], 0, "digest1".toList, ⟨"amd64".toList, "linux".toList⟩⟩] ++
        (⟨[], 0, "digest2".toList, ⟨"arm64".toList, "linux".toList⟩⟩ : PlatformManifest) ::
        [⟨[], 0, "digest3".toList, ⟨"arm64".toList, "linux".toList⟩⟩]) "arm64".toList =
      "digest2".toList :=
  (selectManifest_first_match _ "arm64".toList).1
    [⟨[], 0, "digest1".toList, ⟨"amd64".toList, "linux".toList⟩⟩]
    ⟨[], 0, "digest2".toList, ⟨"arm64".toList, "linux".toList⟩⟩
    [⟨[], 0, "digest3".toList, ⟨"arm64".toList, "linux".toList⟩⟩] rfl (by decide) rfl rfl

/-! ## Ranking: the sort and its comparison function -/

theorem insertLeft_perm {α : Type} (less : α → α → Bool) (x : α) (l : List α) :
    (insertLeft less x l).Perm (x :: l) := by
  induction l with
  | nil => exact List.Perm.refl _
  | cons y ys ih =>
    unfold insertLeft
    split
    · exact ((List.Perm.cons y ih).trans (List.Perm.swap x y ys))
    · exact List.Perm.refl _

theorem foldl_insertLeft_perm {α : Type} (less : α → α → Bool) (data acc : List α) :
    (data.foldl (fun sortedRev x => insertLeft less x sortedRev) acc).Perm (data ++ acc) := by
  induction data generalizing acc with
  | nil => exact List.Perm.refl _
  | cons x data ih =>
    rw [List.foldl_cons]
    refine (ih _).trans ?_
    refine (List.Perm.append_left data (insertLeft_perm less x acc)).trans ?_
    exact (List.perm_middle).trans (List.Perm.refl _)

/-- The sort returns a permutation of its input, whatever the comparison. -/
theorem sortSlice_perm {α : Type} (less : α → α → Bool) (data : List α) :
    (sortSlice less data).Perm data := by
  unfold sortSlice
  refine (List.reverse_perm _).trans ?_
  simpa using foldl_insertLeft_perm less data []

/-- Inserting keeps the reversed prefix in order, for a comparison that is
asymmetric and negatively transitive on the elements at hand. -/
theorem insertLeft_pairwise {α : Type} (less : α → α → Bool) (P : α → Prop)
    (hasym : ∀ a b, P a → P b → less a b = true → less b a = false)
    (htrans : ∀ a b c, P a → P b → P c → less a b = false → less b c = false →
      less a c = false)
    (x : α) (l : List α) (hx : P x) (hl : ∀ y ∈ l, P y)
    (hs : l.Pairwise (fun u v => less u v = false)) :
    (insertLeft less x l).Pairwise (fun u v => less u v = false) := by
  induction l with
  | nil => simp [insertLeft]
  | cons y ys ih =>
    rw [List.pairwise_cons] at hs
    unfold insertLeft
    by_cases hxy : less x y = true
    · rw [if_pos hxy, List.pairwise_cons]
      refine ⟨?_, ih (fun z hz => hl z (by simp [hz])) hs.2⟩
      intro z hz
      rcases List.mem_cons.mp ((insertLeft_perm less x ys).mem_iff.mp hz) with rfl | hz
      · exact hasym _ _ hx (hl y (by simp)) hxy
      · exact hs.1 z hz
    · rw [if_neg hxy]
      have hxy : less x y = false := by simpa using hxy
      rw [List.pairwise_cons, List.pairwise_cons]
      refine ⟨?_, hs⟩
      intro z hz
      rcases List.mem_cons.mp hz with rfl | hz
      · exact hxy
      · exact htrans x y z hx (hl y (by simp)) (hl z (by simp [hz])) hxy (hs.1 z hz)

theorem foldl_insertLeft_pairwise {α : Type} (less : α → α → Bool) (P : α → Prop)
    (hasym : ∀ a b, P a → P b → less a b = true → less b a = false)
    (htrans : ∀ a b c, P a → P b → P c → less a b = false → less b c = false →
      less a c = false)
    (data acc : List α) (hd : ∀ y ∈ data, P y) (ha : ∀ y ∈ acc, P y)
    (hs : acc.Pairwise (fun u v => less u v = false)) :
    (data.foldl (fun sortedRev x => insertLeft less x sortedRev) acc).Pairwise
      (fun u v => less u v = false) := by
  induction data generalizing acc with
  | nil => exact hs
  | cons x data ih =>
    rw [List.foldl_cons]
    refine ih _ (fun y hy => hd y (by simp [hy])) ?_ ?_
    · intro y hy
      rcases List.mem_cons.mp ((insertLeft_perm less x acc).mem_iff.mp hy) with rfl | hy
      · exact hd _ (by simp)
      · exact ha y hy
    · exact insertLeft_pairwise less P hasym htrans x acc (hd x (by simp)) ha hs

/-- The sort leaves no later element below an earlier one. -/
theorem sortSlice_pairwise {α : Type} (less : α → α → Bool) (P : α → Prop)
    (hasym : ∀ a b, P a → P b → less a b = true → less b a = false)
    (htrans : ∀ a b c, P a → P b → P c → less a b = false → less b c = false →
      less a c = false)
    (data : List α) (hd : ∀ y ∈ data, P y) :
    (sortSlice less data).Pairwise (fun a b => less b a = false) := by
  unfold sortSlice
  rw [List.pairwise_reverse]
  exact foldl_insertLeft_pairwise less P hasym htrans data [] hd (by simp) List.Pairwise.nil

theorem rankLess_eq_false_iff (a b : RegistryConfig) (ta tb : Int)
    (ha : a.ResponseTime = some ta) (hb : b.ResponseTime = some tb) :
    rankLess b a = false ↔
      a.Priority < b.Priority ∨ (a.Priority = b.Priority ∧ ta ≤ tb) := by
  unfold rankLess
  rw [ha, hb]
  by_cases hp : b.Priority = a.Priority
  · rw [if_neg (by simpa using hp)]
    simp only [decide_eq_false_iff_not, not_lt]
    omega
  · rw [if_pos hp]
    simp only [decide_eq_false_iff_not, not_lt]
    omega

/-- C3: when every registry of the available set has a measured response time, the
ranked list is a permutation of the available set, in ascending order of priority
and, among registries of equal priority, in ascending order of response time. -/
theorem rank_sorted_perm (availableRegistries : List RegistryConfig)
    (hmeasured : ∀ r ∈ availableRegistries, r.ResponseTime ≠ none) :
    (sortSlice rankLess availableRegistries).Perm availableRegistries ∧
    (sortSlice rankLess availableRegistries).Pairwise (fun a b =>
      a.Priority ≤ b.Priority ∧
      (a.Priority = b.Priority →
        ∃ ta tb, a.ResponseTime = some ta ∧ b.ResponseTime = some tb ∧ ta ≤ tb)) := by
  have hperm := sortSlice_perm rankLess availableRegistries
  refine ⟨hperm, ?_⟩
  have hsorted := sortSlice_pairwise rankLess (fun r => r.ResponseTime ≠ none)
    (by
      intro a b ha hb hab
      obtain ⟨ta, hta⟩ := Option.ne_none_iff_exists'.mp ha
      obtain ⟨tb, htb⟩ := Option.ne_none_iff_exists'.mp hb
      rw [rankLess_eq_false_iff a b ta tb hta htb]
      have hab' : ¬ rankLess a b = false := by simp [hab]
      rw [rankLess_eq_false_iff b a tb ta htb hta] at hab'
      omega)
    (by
      intro a b c ha hb hc hab hbc
      obtain ⟨ta, hta⟩ := Option.ne_none_iff_exists'.mp ha
      obtain ⟨tb, htb⟩ := Option.ne_none_iff_exists'.mp hb
      obtain ⟨tc, htc⟩ := Option.ne_none_iff_exists'.mp hc
      rw [rankLess_eq_false_iff b a tb ta htb hta] at hab
      rw [rankLess_eq_false_iff c b tc tb htc htb] at hbc
      rw [rankLess_eq_false_iff c a tc ta htc hta]
      omega)
    availableRegistries hmeasured
  have hmem : ∀ r ∈ sortSlice rankLess availableRegistries, r.ResponseTime ≠ none :=
    fun r hr => hmeasured r (hperm.mem_iff.mp hr)
  refine (List.Pairwise.and_mem.mp hsorted).imp ?_
  rintro a b ⟨ha, hb, hba⟩
  obtain ⟨ta, hta⟩ := Option.ne_none_iff_exists'.mp (hmem a ha)
  obtain ⟨tb, htb⟩ := Option.ne_none_iff_exists'.mp (hmem b hb)
  rw [rankLess_eq_false_iff a b ta tb hta htb] at hba
  refine ⟨by omega, fun heq => ⟨ta, tb, hta, htb, by omega⟩⟩

/-- C3, at three probed registries: two of priority 1 and one of priority 2. -/
theorem rank_sorted_perm_witness :
    (sortSlice rankLess
        [⟨"b".toList, [], 2, false, 15, [], true, some 10⟩,
         ⟨"a".toList, [], 1, false, 15, [], true, some 30⟩,
         ⟨"c".toList, [], 1, false, 15, [], true, some 20⟩]).Perm
      [⟨"b".toList, [], 2, false, 15, [], true, some 10⟩,
       ⟨"a".toList, [], 1, false, 15, [], true, some 30⟩,
       ⟨"c".toList, [], 1, false, 15, [], true, some 20⟩] ∧
    sortSlice rankLess
        [⟨"b".toList, [], 2, false, 15, [], true, some 10⟩,
         ⟨"a".toList, [], 1, false, 15, [], true, some 30⟩,
         ⟨"c".toList, [], 1, false, 15, [], true, some 20⟩] =
      [⟨"c".toList, [], 1, false, 15, [], true, some 20⟩,
       ⟨"a".toList, [], 1, false, 15, [], true, some 30⟩,
       ⟨"b".toList, [], 2, false, 15, [], true, some 10⟩] :=
  ⟨(rank_sorted_perm _ (by decide)).1, by decide⟩

/-! ## Search orchestrator: the static-registry search -/

/-- Every registry either fails the auth handshake, or fails the manifest fetch with
the token it got, or passes both. -/
theorem auth_fetch_cases (w : World) (r : RegistryConfig) (repository tag username password : Str) :
    ((∃ e, GetAuthToken w r repository username password = .error e) ∨
      (∃ token e, GetAuthToken w r repository username password = .ok token ∧
        FetchManifest w r repository tag token = .error e)) ∨
    (∃ token manifest, GetAuthToken w r repository username password = .ok token ∧
      FetchManifest w r repository tag token = .ok manifest) := by
  cases hA : GetAuthToken w r repository username password with
  | error e => exact Or.inl (Or.inl ⟨e, rfl⟩)
  | ok token =>
    cases hF : FetchManifest w r repository tag token with
    | error e => exact Or.inl (Or.inr ⟨token, e, rfl, hF⟩)
    | ok manifest => exact Or.inr ⟨token, manifest, rfl, hF⟩

/-- The loop skips a registry that fails the auth handshake or the manifest fetch. -/
theorem searchRanked_cons_of_fail (w : World) (info : ImageInfo) (arch username password : Str)
    (r : RegistryConfig) (rest : List RegistryConfig)
    (hfail : (∃ e, GetAuthToken w r info.Repository username password = .error e) ∨
      (∃ token e, GetAuthToken w r info.Repository username password = .ok token ∧
        FetchManifest w r info.Repository info.Tag token = .error e)) :
    searchRanked w info arch username password (r :: rest) =
      searchRanked w info arch username password rest := by
  rcases hfail with ⟨e, hA⟩ | ⟨token, e, hA, hF⟩
  · simp only [searchRanked, hA]
  · simp only [searchRanked, hA, hF]

/-- The loop returns at a registry that passes both steps. -/
theorem searchRanked_cons_of_pass (w : World) (info : ImageInfo) (arch username password : Str)
    (r : RegistryConfig) (rest : List RegistryConfig) (token : Str) (manifest : ManifestResponse)
    (hA : GetAuthToken w r info.Repository username password = .ok token)
    (hF : FetchManifest w r info.Repository info.Tag token = .ok manifest) :
    searchRanked w info arch username password (r :: rest) =
      ⟨some r, some (resolveIndex w r info.Repository arch token manifest), info, none⟩ := by
  simp only [searchRanked, hA, hF]

/-- When every registry of the list fails, the loop ends with the not-found error. -/
theorem searchRanked_of_all_fail (w : World) (info : ImageInfo) (arch username password : Str)
    (l : List RegistryConfig)
    (hfail : ∀ r ∈ l, (∃ e, GetAuthToken w r info.Repository username password = .error e) ∨
      (∃ token e, GetAuthToken w r info.Repository username password = .ok token ∧
        FetchManifest w r info.Repository info.Tag token = .error e)) :
    searchRanked w info arch username password l =
      ⟨none, none, info, some (.imageNotFound info.Repository info.Tag)⟩ := by
  induction l with
  | nil => rfl
  | cons r rest ih =>
    rw [searchRanked_cons_of_fail w info arch username password r rest (hfail r (by simp))]
    exact ih (fun x hx => hfail x (by simp [hx]))

/-- When some registry of the list passes both steps, the loop returns the first
such registry: everything before it failed. -/
theorem searchRanked_first_pass (w : World) (info : ImageInfo) (arch username password : Str)
    (l : List RegistryConfig)
    (hpass : ∃ r ∈ l, ∃ token manifest,
      GetAuthToken w r info.Repository username password = .ok token ∧
      FetchManifest w r info.Repository info.Tag token = .ok manifest) :
    ∃ pre registry post token manifest,
      l = pre ++ registry :: post ∧
      (∀ r ∈ pre, (∃ e, GetAuthToken w r info.Repository username password = .error e) ∨
        (∃ tok e, GetAuthToken w r info.Repository username password = .ok tok ∧
          FetchManifest w r info.Repository info.Tag tok = .error e)) ∧
      GetAuthToken w registry info.Repository username password = .ok token ∧
      FetchManifest w registry info.Repository info.Tag token = .ok manifest ∧
      searchRanked w info arch username password l =
        ⟨some registry, some (resolveIndex w registry info.Repository arch token manifest),
          info, none⟩ := by
  induction l with
  | nil =>
    obtain ⟨r, hr, -⟩ := hpass
    cases hr
  | cons x rest ih =>
    rcases auth_fetch_cases w x info.Repository info.Tag username password with hfail | hok
    · have hrest : ∃ r ∈ rest, ∃ token manifest,
          GetAuthToken w r info.Repository username password = .ok token ∧
          FetchManifest w r info.Repository info.Tag token = .ok manifest := by
        obtain ⟨r, hr, token, manifest, hA, hF⟩ := hpass
        rcases List.mem_cons.mp hr with rfl | hr
        · rcases hfail with ⟨e, hA'⟩ | ⟨tok, e, hA', hF'⟩
          · rw [hA] at hA'; cases hA'
          · rw [hA] at hA'
            cases hA'
            rw [hF] at hF'; cases hF'
        · exact ⟨r, hr, token, manifest, hA, hF⟩
      obtain ⟨pre, registry, post, token, manifest, hl, hpre, hA, hF, hres⟩ := ih hrest
      refine ⟨x :: pre, registry, post, token, manifest, by rw [hl]; rfl, ?_, hA, hF, ?_⟩
      · intro r hr
        rcases List.mem_cons.mp hr with rfl | hr
        · exact hfail
        · exact hpre r hr
      · rw [searchRanked_cons_of_fail w info arch username password x rest hfail]
        exact hres
    · obtain ⟨token, manifest, hA, hF⟩ := hok
      exact ⟨[], x, rest, token, manifest, rfl, by simp, hA, hF,
        searchRanked_cons_of_pass w info arch username password x rest token manifest hA hF⟩

/-- What the probe fan-out leaves when it completes. -/
theorem probeRegistries_done (w : World) (p : MultiRegistryImagePuller)
    (availableRegistries : List RegistryConfig)
    (h : probeRegistries w p = .done availableRegistries) :
    availableRegistries = (w.arrival p.registries).filterMap fun reg =>
      if (TestRegistryAvailability w reg).2 then some (TestRegistryAvailability w reg).1
      else none := by
  unfold probeRegistries at h
  simp only at h
  split at h
  · cases h
  · split at h
    · cases h
    · injection h with h
      exact h.symm

/-- The available set is empty exactly when no static registry probes as available. -/
theorem availableRegistries_eq_nil_iff (w : World) (p : MultiRegistryImagePuller)
    (availableRegistries : List RegistryConfig)
    (h : probeRegistries w p = .done availableRegistries) :
    availableRegistries = [] ↔
      ∀ r ∈ p.registries, (TestRegistryAvailability w r).2 = false := by
  rw [probeRegistries_done w p availableRegistries h, List.filterMap_eq_nil_iff]
  constructor
  · intro hall r hr
    have := hall r ((w.arrival_perm p.registries).mem_iff.mpr hr)
    by_contra hne
    simp only [Bool.not_eq_false] at hne
    simp [hne] at this
  · intro hall r hr
    simp [hall r ((w.arrival_perm p.registries).mem_iff.mp hr)]

/-- With a semaphore of capacity zero and a registry to probe, the static-registry
search never returns: no probe goroutine passes the send on the semaphore. -/
theorem SearchImageInRegistries_hangs_without_permits (w : World)
    (p : MultiRegistryImagePuller) (imageInput arch username password : Str)
    (hoff : p.config.Settings.EnableAdvancedAPI = false)
    (hzero : p.config.Settings.MaxConcurrentRegistries = 0) (hreg : p.registries ≠ []) :
    SearchImageInRegistries w p imageInput arch username password = .hang := by
  simp [SearchImageInRegistries, probeRegistries, hoff, hzero, hreg]

/-- With at least one permit the probe fan-out completes. -/
theorem probeRegistries_completes (w : World) (p : MultiRegistryImagePuller)
    (hpos : 0 < p.config.Settings.MaxConcurrentRegistries) :
    ∃ availableRegistries, probeRegistries w p = .done availableRegistries := by
  unfold probeRegistries
  simp only
  rw [if_neg (by omega), if_neg (by omega)]
  exact ⟨_, rfl⟩

/-- C1: with the directory API (Phase A) disabled, whenever some registry of the
available set passes both the auth handshake and the manifest fetch by tag,
`SearchImageInRegistries` returns without error the first such registry of the
ranked list: every registry ranked before it failed the auth handshake or the
manifest fetch, and the returned reference carries the parsed repository and the
rewritten tag unchanged. -/
theorem SearchImageInRegistries_first_success (w : World) (p : MultiRegistryImagePuller)
    (imageInput arch username password : Str) (availableRegistries : List RegistryConfig)
    (hoff : p.config.Settings.EnableAdvancedAPI = false)
    (hprobe : probeRegistries w p = .done availableRegistries)
    (hpass : ∃ r ∈ availableRegistries, ∃ token manifest,
      GetAuthToken w r (ParseImageInput imageInput).Repository username password = .ok token ∧
      FetchManifest w r (ParseImageInput imageInput).Repository
        (TransformTag w p.config (ParseImageInput imageInput).Tag) token = .ok manifest) :
    ∃ pre registry post token manifest,
      sortSlice rankLess availableRegistries = pre ++ registry :: post ∧
      (∀ r ∈ pre,
        (∃ e, GetAuthToken w r (ParseImageInput imageInput).Repository username password =
          .error e) ∨
        (∃ tok e,
          GetAuthToken w r (ParseImageInput imageInput).Repository username password = .ok tok ∧
          FetchManifest w r (ParseImageInput imageInput).Repository
            (TransformTag w p.config (ParseImageInput imageInput).Tag) tok = .error e)) ∧
      GetAuthToken w registry (ParseImageInput imageInput).Repository username password =
        .ok token ∧
      FetchManifest w registry (ParseImageInput imageInput).Repository
        (TransformTag w p.config (ParseImageInput imageInput).Tag) token = .ok manifest ∧
      SearchImageInRegistries w p imageInput arch username password =
        .done ⟨some registry,
          some (resolveIndex w registry (ParseImageInput imageInput).Repository arch token
            manifest),
          ⟨(ParseImageInput imageInput).Repository, (ParseImageInput imageInput).Image,
            TransformTag w p.config (ParseImageInput imageInput).Tag⟩, none⟩ := by
  have hne : availableRegistries.length ≠ 0 := by
    obtain ⟨r, hr, -⟩ := hpass
    exact List.length_pos.mp (List.length_pos_of_mem hr) |> fun h => by
      simpa [List.length_eq_zero] using h
  have hranked : ∃ r ∈ sortSlice rankLess availableRegistries, ∃ token manifest,
      GetAuthToken w r (ParseImageInput imageInput).Repository username password = .ok token ∧
      FetchManifest w r (ParseImageInput imageInput).Repository
        (TransformTag w p.config (ParseImageInput imageInput).Tag) token = .ok manifest := by
    obtain ⟨r, hr, h⟩ := hpass
    exact ⟨r, (sortSlice_perm rankLess availableRegistries).mem_iff.mpr hr, h⟩
  obtain ⟨pre, registry, post, token, manifest, hl, hpre, hA, hF, hres⟩ :=
    searchRanked_first_pass w
      ⟨(ParseImageInput imageInput).Repository, (ParseImageInput imageInput).Image,
        TransformTag w p.config (ParseImageInput imageInput).Tag⟩
      arch username password (sortSlice rankLess availableRegistries) hranked
  refine ⟨pre, registry, post, token, manifest, hl, hpre, hA, hF, ?_⟩
  simp only [SearchImageInRegistries, hoff, Bool.false_eq_true, if_false, hprobe, hne]
  exact congrArg Run.done hres

/-- C1, at the failover scenario: registry A is ranked first and answers 404 for the
manifest, registry B serves it, and the search returns B. -/
theorem SearchImageInRegistries_first_success_witness :
    probeRegistries failoverWorld (twoRegistryPuller plainSettings) = .done [probedA, probedB] ∧
    SearchImageInRegistries failoverWorld (twoRegistryPuller plainSettings) "nginx:1.25".toList
      "amd64".toList [] [] =
      .done ⟨some probedB, some nginxManifest,
        ⟨"nginx".toList, "nginx".toList, "1.25".toList⟩, none⟩ ∧
    ∃ pre registry post token manifest,
      sortSlice rankLess [probedA, probedB] = pre ++ registry :: post ∧
      (∀ r ∈ pre,
        (∃ e, GetAuthToken failoverWorld r (ParseImageInput "nginx:1.25".toList).Repository [] [] =
          .error e) ∨
        (∃ tok e,
          GetAuthToken failoverWorld r (ParseImageInput "nginx:1.25".toList).Repository [] [] =
            .ok tok ∧
          FetchManifest failoverWorld r (ParseImageInput "nginx:1.25".toList).Repository
            (TransformTag failoverWorld (twoRegistryPuller plainSettings).config
              (ParseImageInput "nginx:1.25".toList).Tag) tok = .error e)) ∧
      GetAuthToken failoverWorld registry (ParseImageInput "nginx:1.25".toList).Repository [] [] =
        .ok token ∧
      FetchManifest failoverWorld registry (ParseImageInput "nginx:1.25".toList).Repository
        (TransformTag failoverWorld (twoRegistryPuller plainSettings).config
          (ParseImageInput "nginx:1.25".toList).Tag) token = .ok manifest ∧
      SearchImageInRegistries failoverWorld (twoRegistryPuller plainSettings)
          "nginx:1.25".toList "amd64".toList [] [] =
        .done ⟨some registry,
          some (resolveIndex failoverWorld registry
            (ParseImageInput "nginx:1.25".toList).Repository "amd64".toList token manifest),
          ⟨(ParseImageInput "nginx:1.25".toList).Repository,
            (ParseImageInput "nginx:1.25".toList).Image,
            TransformTag failoverWorld (twoRegistryPuller plainSettings).config
              (ParseImageInput "nginx:1.25".toList).Tag⟩, none⟩ :=
  ⟨by decide, by decide,
    SearchImageInRegistries_first_success failoverWorld (twoRegistryPuller plainSettings)
      "nginx:1.25".toList "amd64".toList [] [] [probedA, probedB] rfl (by decide)
      ⟨probedB, by decide, [], nginxManifest, rfl, rfl⟩⟩

/-- When the static-registry search runs (Phase A is disabled or falls through) and its
probe fan-out completes, `SearchImageInRegistries` returns the
no-registries-available error exactly when no static registry probes as available,
and the not-found error for `repository:tag` exactly when some registry is available
but every available registry fails the auth handshake or the manifest fetch; with
either error it returns no registry and no manifest. -/
theorem SearchImageInRegistries_failure_of_probe_done (w : World) (p : MultiRegistryImagePuller)
    (imageInput arch username password : Str) (availableRegistries : List RegistryConfig)
    (hphaseB : p.config.Settings.EnableAdvancedAPI = false ∨
      searchAdvancedAPI w p
        ⟨(ParseImageInput imageInput).Repository, (ParseImageInput imageInput).Image,
          TransformTag w p.config (ParseImageInput imageInput).Tag⟩
        arch username password = none)
    (hprobe : probeRegistries w p = .done availableRegistries) :
    ∃ result, SearchImageInRegistries w p imageInput arch username password = .done result ∧
      (result.err = some .noRegistriesAvailable ↔
        ∀ r ∈ p.registries, (TestRegistryAvailability w r).2 = false) ∧
      (result.err = some (.imageNotFound (ParseImageInput imageInput).Repository
          (TransformTag w p.config (ParseImageInput imageInput).Tag)) ↔
        (∃ r ∈ p.registries, (TestRegistryAvailability w r).2 = true) ∧
        ∀ r ∈ availableRegistries,
          (∃ e, GetAuthToken w r (ParseImageInput imageInput).Repository username password =
            .error e) ∨
          (∃ tok e,
            GetAuthToken w r (ParseImageInput imageInput).Repository username password =
              .ok tok ∧
            FetchManifest w r (ParseImageInput imageInput).Repository
              (TransformTag w p.config (ParseImageInput imageInput).Tag) tok = .error e)) ∧
      (result.err ≠ none → result.registry = none ∧ result.manifest = none) := by
  have hA : (if p.config.Settings.EnableAdvancedAPI = true then
      searchAdvancedAPI w p
        ⟨(ParseImageInput imageInput).Repository, (ParseImageInput imageInput).Image,
          TransformTag w p.config (ParseImageInput imageInput).Tag⟩
        arch username password
      else none) = none := by
    rcases hphaseB with hoff | hnone
    · simp [hoff]
    · simp [hnone]
  have hnil := availableRegistries_eq_nil_iff w p availableRegistries hprobe
  by_cases hempty : availableRegistries = []
  · refine ⟨⟨none, none, ⟨(ParseImageInput imageInput).Repository,
      (ParseImageInput imageInput).Image,
      TransformTag w p.config (ParseImageInput imageInput).Tag⟩,
      some .noRegistriesAvailable⟩, ?_, ?_, ?_, ?_⟩
    · simp only [SearchImageInRegistries, hA, hprobe, hempty, List.length_nil, if_true]
    · exact ⟨fun _ => hnil.mp hempty, fun _ => rfl⟩
    · constructor
      · intro h; cases h
      · rintro ⟨⟨r, hr, hav⟩, -⟩
        rw [hnil.mp hempty r hr] at hav
        cases hav
    · exact fun _ => ⟨rfl, rfl⟩
  · have hlen : availableRegistries.length ≠ 0 := by
      simpa [List.length_eq_zero] using hempty
    have hsome : ∃ r ∈ p.registries, (TestRegistryAvailability w r).2 = true := by
      by_contra hno
      apply hempty
      apply hnil.mpr
      intro r hr
      by_contra hne
      exact hno ⟨r, hr, by simpa using hne⟩
    have hrun : SearchImageInRegistries w p imageInput arch username password =
        .done (searchRanked w
          ⟨(ParseImageInput imageInput).Repository, (ParseImageInput imageInput).Image,
          TransformTag w p.config (ParseImageInput imageInput).Tag⟩
          arch username password (sortSlice rankLess availableRegistries)) := by
      simp only [SearchImageInRegistries, hA, hprobe, hlen, if_false]
    by_cases hall : ∀ r ∈ availableRegistries,
        (∃ e, GetAuthToken w r (ParseImageInput imageInput).Repository username password =
          .error e) ∨
        (∃ tok e,
          GetAuthToken w r (ParseImageInput imageInput).Repository username password =
            .ok tok ∧
          FetchManifest w r (ParseImageInput imageInput).Repository
            (TransformTag w p.config (ParseImageInput imageInput).Tag) tok = .error e)
    · have hres := searchRanked_of_all_fail w
        ⟨(ParseImageInput imageInput).Repository, (ParseImageInput imageInput).Image,
          TransformTag w p.config (ParseImageInput imageInput).Tag⟩
        arch username password (sortSlice rankLess availableRegistries)
        (fun r hr => hall r ((sortSlice_perm rankLess availableRegistries).mem_iff.mp hr))
      refine ⟨_, hrun, ?_, ?_, ?_⟩
      · rw [hres]
        constructor
        · intro h; cases h
        · intro h; exact absurd (hnil.mpr h) hempty
      · rw [hres]
        exact ⟨fun _ => ⟨hsome, hall⟩, fun _ => rfl⟩
      · rw [hres]
        exact fun _ => ⟨rfl, rfl⟩
    · have hpass : ∃ r ∈ sortSlice rankLess availableRegistries, ∃ token manifest,
          GetAuthToken w r (ParseImageInput imageInput).Repository username password =
            .ok token ∧
          FetchManifest w r (ParseImageInput imageInput).Repository
            (TransformTag w p.config (ParseImageInput imageInput).Tag) token = .ok manifest := by
        by_contra hno
        apply hall
        intro r hr
        rcases auth_fetch_cases w r (ParseImageInput imageInput).Repository
          (TransformTag w p.config (ParseImageInput imageInput).Tag) username password
          with hfail | hok
        · exact hfail
        · exact absurd
            ⟨r, (sortSlice_perm rankLess availableRegistries).mem_iff.mpr hr, hok⟩ hno
      obtain ⟨pre, registry, post, token, manifest, -, -, -, -, hres⟩ :=
        searchRanked_first_pass w
          ⟨(ParseImageInput imageInput).Repository, (ParseImageInput imageInput).Image,
          TransformTag w p.config (ParseImageInput imageInput).Tag⟩
          arch username password (sortSlice rankLess availableRegistries) hpass
      refine ⟨_, hrun, ?_, ?_, ?_⟩
      · rw [hres]
        constructor
        · intro h; cases h
        · intro h; exact absurd (hnil.mpr h) hempty
      · rw [hres]
        constructor
        · intro h; cases h
        · rintro ⟨-, h⟩; exact absurd h hall
      · rw [hres]
        intro h
        exact absurd rfl h

/-- C2 as amended: when the static-registry search runs (Phase A is disabled or falls
through) with at least one probe permit (`max_concurrent_registries` of 1 or more), or
with no static registry to probe, the probe fan-out completes and
`SearchImageInRegistries` returns the no-registries-available error exactly when no
static registry probes as available, and the not-found error for `repository:tag`
exactly when some registry is available but every available registry fails the auth
handshake or the manifest fetch; with either error it returns no registry and no
manifest.  With zero permits and a registry to probe the call never returns, and with
a negative number of permits it panics. -/
theorem SearchImageInRegistries_failure_iff (w : World) (p : MultiRegistryImagePuller)
    (imageInput arch username password : Str)
    (hphaseB : p.config.Settings.EnableAdvancedAPI = false ∨
      searchAdvancedAPI w p
        ⟨(ParseImageInput imageInput).Repository, (ParseImageInput imageInput).Image,
          TransformTag w p.config (ParseImageInput imageInput).Tag⟩
        arch username password = none) :
    (0 < p.config.Settings.MaxConcurrentRegistries ∨
        (p.config.Settings.MaxConcurrentRegistries = 0 ∧ p.registries = []) →
      ∃ availableRegistries result,
        probeRegistries w p = .done availableRegistries ∧
        SearchImageInRegistries w p imageInput arch username password = .done result ∧
        (result.err = some .noRegistriesAvailable ↔
          ∀ r ∈ p.registries, (TestRegistryAvailability w r).2 = false) ∧
        (result.err = some (.imageNotFound (ParseImageInput imageInput).Repository
            (TransformTag w p.config (ParseImageInput imageInput).Tag)) ↔
          (∃ r ∈ p.registries, (TestRegistryAvailability w r).2 = true) ∧
          ∀ r ∈ availableRegistries,
            (∃ e, GetAuthToken w r (ParseImageInput imageInput).Repository username password =
              .error e) ∨
            (∃ tok e,
              GetAuthToken w r (ParseImageInput imageInput).Repository username password =
                .ok tok ∧
              FetchManifest w r (ParseImageInput imageInput).Repository
                (TransformTag w p.config (ParseImageInput imageInput).Tag) tok = .error e)) ∧
        (result.err ≠ none → result.registry = none ∧ result.manifest = none)) ∧
    (p.config.Settings.MaxConcurrentRegistries = 0 → p.registries ≠ [] →
      SearchImageInRegistries w p imageInput arch username password = .hang) ∧
    (p.config.Settings.MaxConcurrentRegistries < 0 →
      SearchImageInRegistries w p imageInput arch username password = .panic) := by
  have hA : (if p.config.Settings.EnableAdvancedAPI = true then
      searchAdvancedAPI w p
        ⟨(ParseImageInput imageInput).Repository, (ParseImageInput imageInput).Image,
          TransformTag w p.config (ParseImageInput imageInput).Tag⟩
        arch username password
      else none) = none := by
    rcases hphaseB with hoff | hnone
    · simp [hoff]
    · simp [hnone]
  refine ⟨?_, ?_, ?_⟩
  · intro hpermits
    have hdone : ∃ availableRegistries, probeRegistries w p = .done availableRegistries := by
      unfold probeRegistries
      simp only
      rcases hpermits with hpos | ⟨hzero, hnil⟩
      · rw [if_neg (by omega), if_neg (by omega)]
        exact ⟨_, rfl⟩
      · rw [if_neg (by omega), if_neg (by simp [hnil])]
        exact ⟨_, rfl⟩
    obtain ⟨availableRegistries, hprobe⟩ := hdone
    obtain ⟨result, hres⟩ := SearchImageInRegistries_failure_of_probe_done w p imageInput arch
      username password availableRegistries hphaseB hprobe
    exact ⟨availableRegistries, result, hprobe, hres⟩
  · intro hzero hreg
    have hprobe : probeRegistries w p = .hang := by
      unfold probeRegistries
      simp only
      rw [if_neg (by omega), if_pos ⟨hzero, hreg⟩]
    simp only [SearchImageInRegistries, hA, hprobe]
  · intro hneg
    have hprobe : probeRegistries w p = .panic := by
      unfold probeRegistries
      simp only
      rw [if_pos hneg]
    simp only [SearchImageInRegistries, hA, hprobe]

/-- Witness of C2 at a world in which no registry answers the probe, with five permits:
the search fails with the no-registries-available error and returns no registry and
no manifest. -/
theorem SearchImageInRegistries_failure_iff_witness :
    SearchImageInRegistries quietWorld (twoRegistryPuller plainSettings) "nginx:1.25".toList
      "amd64".toList [] [] =
      .done ⟨none, none, ⟨"nginx".toList, "nginx".toList, "1.25".toList⟩,
        some .noRegistriesAvailable⟩ ∧
    (∀ r ∈ (twoRegistryPuller plainSettings).registries,
      (TestRegistryAvailability quietWorld r).2 = false) ∧
    ∃ availableRegistries result,
      probeRegistries quietWorld (twoRegistryPuller plainSettings) =
        .done availableRegistries ∧
      SearchImageInRegistries quietWorld (twoRegistryPuller plainSettings)
        "nginx:1.25".toList "amd64".toList [] [] = .done result ∧
      (result.err = some .noRegistriesAvailable ↔
        ∀ r ∈ (twoRegistryPuller plainSettings).registries,
          (TestRegistryAvailability quietWorld r).2 = false) ∧
      (result.err = some (.imageNotFound (ParseImageInput "nginx:1.25".toList).Repository
          (TransformTag quietWorld (twoRegistryPuller plainSettings).config
            (ParseImageInput "nginx:1.25".toList).Tag)) ↔
        (∃ r ∈ (twoRegistryPuller plainSettings).registries,
          (TestRegistryAvailability quietWorld r).2 = true) ∧
        ∀ r ∈ availableRegistries,
          (∃ e, GetAuthToken quietWorld r (ParseImageInput "nginx:1.25".toList).Repository [] [] =
            .error e) ∨
          (∃ tok e,
            GetAuthToken quietWorld r (ParseImageInput "nginx:1.25".toList).Repository [] [] =
              .ok tok ∧
            FetchManifest quietWorld r (ParseImageInput "nginx:1.25".toList).Repository
              (TransformTag quietWorld (twoRegistryPuller plainSettings).config
                (ParseImageInput "nginx:1.25".toList).Tag) tok = .error e)) ∧
      (result.err ≠ none → result.registry = none ∧ result.manifest = none) :=
  ⟨by decide, by decide,
    (SearchImageInRegistries_failure_iff quietWorld (twoRegistryPuller plainSettings)
      "nginx:1.25".toList "amd64".toList [] [] (Or.inl rfl)).1 (Or.inl (by decide))⟩

/-- C2 as stated fails on the code: with `max_concurrent_registries = 0`, Phase A
disabled and two static registries neither of which answers the probe, no static
registry is probed as available, and `SearchImageInRegistries` does not fail with the
no-registries-available error: it never returns. -/
theorem SearchImageInRegistries_zero_permits_counterexample :
    (twoRegistryPuller zeroPermitSettings).config.Settings.EnableAdvancedAPI = false ∧
    (twoRegistryPuller zeroPermitSettings).config.Settings.MaxConcurrentRegistries = 0 ∧
    (∀ r ∈ (twoRegistryPuller zeroPermitSettings).registries,
      (TestRegistryAvailability quietWorld r).2 = false) ∧
    SearchImageInRegistries quietWorld (twoRegistryPuller zeroPermitSettings)
      "nginx:1.25".toList "amd64".toList [] [] = .hang ∧
    ¬ ∃ result,
      SearchImageInRegistries quietWorld (twoRegistryPuller zeroPermitSettings)
        "nginx:1.25".toList "amd64".toList [] [] = .done result ∧
      result.err = some .noRegistriesAvailable := by
  refine ⟨by decide, by decide, by decide, by decide, ?_⟩
  rintro ⟨result, hres, -⟩
  have hhang : SearchImageInRegistries quietWorld (twoRegistryPuller zeroPermitSettings)
      "nginx:1.25".toList "amd64".toList [] [] = .hang := by decide
  rw [hhang] at hres
  cases hres

/-! ## Search orchestrator: the directory-assisted phase -/

/-- The index step keeps an index manifest none of whose entries matches. -/
theorem resolveIndex_of_no_match (w : World) (registry : RegistryConfig)
    (repository arch token : Str) (manifest : ManifestResponse)
    (hnone : ∀ m ∈ manifest.Manifests,
      ¬ (m.Platform.Architecture = arch ∧ m.Platform.OS = "linux".toList)) :
    resolveIndex w registry repository arch token manifest = manifest := by
  unfold resolveIndex
  simp [selectManifest_of_no_match arch manifest.Manifests hnone]

/-- C4 as amended: in Phase A, when the directory-discovered registry serves an index
manifest none of whose entries matches the target architecture with os `linux`,
`SearchImageInRegistries` returns, without error, the transient registry together
with the index manifest itself and the reference with the discovered path; the
static-registry search is not run. -/
theorem SearchImageInRegistries_index_without_match (w : World) (p : MultiRegistryImagePuller)
    (imageInput arch username password : Str) (r0 : APIImageResult)
    (results : List APIImageResult) (registryURL imagePath : Str)
    (tempRegistry : RegistryConfig) (manifest : ManifestResponse)
    (hon : p.config.Settings.EnableAdvancedAPI = true)
    (hresults : searchAdvancedAPIResults w p
      ⟨(ParseImageInput imageInput).Repository, (ParseImageInput imageInput).Image,
        TransformTag w p.config (ParseImageInput imageInput).Tag⟩ arch = .ok (r0 :: results))
    (hconv : ConvertToRegistryInfo ((firstDockerIo (r0 :: results)).getD r0) =
      (registryURL, imagePath))
    (hurl : registryURL ≠ []) (hpath : imagePath ≠ [])
    (hprobe : TestRegistryAvailability w (apiMirrorRegistry registryURL) = (tempRegistry, true))
    (hfetch : FetchManifest w tempRegistry imagePath
      (TransformTag w p.config (ParseImageInput imageInput).Tag)
      (apiMirrorToken w tempRegistry imagePath username password) = .ok manifest)
    (_hindex : manifest.Manifests ≠ [])
    (hnone : ∀ m ∈ manifest.Manifests,
      ¬ (m.Platform.Architecture = arch ∧ m.Platform.OS = "linux".toList)) :
    SearchImageInRegistries w p imageInput arch username password =
      .done ⟨some tempRegistry, some manifest,
        ⟨imagePath, (ParseImageInput imageInput).Image,
          TransformTag w p.config (ParseImageInput imageInput).Tag⟩, none⟩ := by
  simp only [SearchImageInRegistries, hon, if_true, searchAdvancedAPI, hresults, hconv, hprobe,
    hfetch, ne_eq, hurl, hpath, not_false_eq_true, and_self,
    resolveIndex_of_no_match w tempRegistry imagePath arch _ manifest hnone]

/-- C4 as amended, at the directory scenario with target architecture `arm64`. -/
theorem SearchImageInRegistries_index_without_match_witness :
    (amd64Index.Manifests ≠ [] ∧ selectManifest amd64Index.Manifests "arm64".toList = []) ∧
    SearchImageInRegistries mirrorIndexWorld
        (twoRegistryPuller { plainSettings with EnableAdvancedAPI := true })
        "alpine:3.19".toList "arm64".toList [] [] =
      .done ⟨some probedMirror, some amd64Index,
        ⟨"library/alpine".toList, (ParseImageInput "alpine:3.19".toList).Image,
          TransformTag mirrorIndexWorld
            (twoRegistryPuller { plainSettings with EnableAdvancedAPI := true }).config
            (ParseImageInput "alpine:3.19".toList).Tag⟩, none⟩ :=
  ⟨by decide,
    SearchImageInRegistries_index_without_match mirrorIndexWorld
      (twoRegistryPuller { plainSettings with EnableAdvancedAPI := true })
      "alpine:3.19".toList "arm64".toList [] []
      ⟨"docker.io/library/alpine:3.19".toList, "mirror.example.com/library/alpine".toList,
        "linux/amd64".toList, "3MB".toList, []⟩ []
      "mirror.example.com".toList "library/alpine".toList probedMirror amd64Index
      rfl rfl rfl (by decide) (by decide) rfl rfl (by decide) (by decide)⟩

/-- C4 as stated fails at the directory scenario with target architecture `arm64`:
the mirror serves an index without an `arm64` entry, the static registry B would
serve an image manifest, and the search still returns the transient mirror registry
with the index manifest. -/
theorem SearchImageInRegistries_index_counterexample :
    (amd64Index.Manifests ≠ [] ∧ selectManifest amd64Index.Manifests "arm64".toList = []) ∧
    SearchImageInRegistries mirrorIndexWorld
        (twoRegistryPuller { plainSettings with EnableAdvancedAPI := true })
        "alpine:3.19".toList "arm64".toList [] [] =
      .done ⟨some probedMirror, some amd64Index,
        ⟨"library/alpine".toList, "alpine".toList, "3.19".toList⟩, none⟩ ∧
    SearchImageInRegistries mirrorIndexWorld (twoRegistryPuller plainSettings)
        "alpine:3.19".toList "arm64".toList [] [] =
      .done ⟨some probedB, some nginxManifest,
        ⟨"alpine".toList, "alpine".toList, "3.19".toList⟩, none⟩ := by
  decide

/-! ## Image assembler: the layer ids -/

/-- When the layer loop runs to its end, the layer paths it has appended are
`<id>/layer.tar` for the ids of the chain, and the last id is the parent it leaves. -/
theorem downloadLayersLoop_done (w : World) (registry : RegistryConfig) (imageInfo : ImageInfo)
    (token tmpDir : Str) (total : Nat) (layers : List LayerDescriptor) :
    ∀ (i : Nat) (st st' : LayerLoopState),
      downloadLayersLoop w registry imageInfo token tmpDir total i layers st =
        .done (st', none) →
      st'.layerPaths = st.layerPaths ++
        (layerIdChain w.sha256hex st.parentID (layers.map (·.Digest))).map
          (· ++ "/layer.tar".toList) ∧
      st'.parentID =
        (layerIdChain w.sha256hex st.parentID (layers.map (·.Digest))).getLastD st.parentID := by
  induction layers with
  | nil =>
    intro i st st' h
    simp only [downloadLayersLoop, Run.done.injEq, Prod.mk.injEq, and_true] at h
    subst h
    simp [layerIdChain]
  | cons layer layers ih =>
    intro i st st' h
    simp only [downloadLayersLoop] at h
    split at h
    · simp at h
    · split at h
      · split at h <;> simp at h
      · split at h
        · simp at h
        · split at h
          · simp at h
          · obtain ⟨h1, h2⟩ := ih _ _ _ h
            simp only [List.map_cons, layerIdChain, List.map_cons, List.getLastD_cons] at h1 h2 ⊢
            refine ⟨by rw [h1]; simp, ?_⟩
            rw [h2]

theorem layerIdChain_length (sha256hex : Str → Str) (digests : List Str) :
    ∀ parentID, (layerIdChain sha256hex parentID digests).length = digests.length := by
  induction digests with
  | nil => intro _; rfl
  | cons d digests ih => intro parentID; simp [layerIdChain, ih]

/-- The chain read by index: the id at `i` hashes the id at `i - 1` (the given parent
at 0) and the digest at `i`. -/
theorem layerIdChain_getD (sha256hex : Str → Str) (digests : List Str) :
    ∀ (parentID : Str) (i : Nat), i < digests.length →
      (layerIdChain sha256hex parentID digests).getD i [] =
        sha256hex ((if i = 0 then parentID
            else (layerIdChain sha256hex parentID digests).getD (i - 1) []) ++
          "\n".toList ++ digests.getD i [] ++ "\n".toList) := by
  induction digests with
  | nil => intro _ i hi; simp at hi
  | cons d digests ih =>
    intro parentID i hi
    cases i with
    | zero => simp [layerIdChain]
    | succ j =>
      have hj : j < digests.length := by simpa using hi
      have := ih (sha256hex (parentID ++ "\n".toList ++ d ++ "\n".toList)) j hj
      simp only [layerIdChain, List.getD_cons_succ, Nat.add_one_ne_zero, if_false,
        Nat.add_sub_cancel]
      rw [this]
      cases j with
      | zero => simp
      | succ k => simp

/-- C6: the layer ids `downloadLayers` computes for the digests `d_0 .. d_{n-1}` are
`id_0 = hex(SHA-256("" ++ "\n" ++ d_0 ++ "\n"))` and
`id_i = hex(SHA-256(id_{i-1} ++ "\n" ++ d_i ++ "\n"))`: a completed run lists
`<id_i>/layer.tar` in this order in `manifest.json` and names the last id in
`repositories`, so the chain depends on the digest sequence alone, not on the
registry, the reference, the tag, nor the sizes and media types of the layers. -/
theorem downloadLayers_layer_ids (w : World) (p : MultiRegistryImagePuller)
    (registry : RegistryConfig) (imageInfo : ImageInfo) (layers : List LayerDescriptor)
    (token tmpDir : Str) (ops : List FsOp)
    (h : downloadLayers w p registry imageInfo layers token tmpDir = .done (ops, none)) :
    (layerIdChain w.sha256hex [] (layers.map (·.Digest))).length = layers.length ∧
    (∀ i, i < layers.length →
      (layerIdChain w.sha256hex [] (layers.map (·.Digest))).getD i [] =
        w.sha256hex ((if i = 0 then []
            else (layerIdChain w.sha256hex [] (layers.map (·.Digest))).getD (i - 1) []) ++
          "\n".toList ++ (layers.map (·.Digest)).getD i [] ++ "\n".toList)) ∧
    ∃ manifestPath config repoTags repositoriesPath,
      FsOp.writeManifest manifestPath config repoTags
        ((layerIdChain w.sha256hex [] (layers.map (·.Digest))).map
          (· ++ "/layer.tar".toList)) ∈ ops ∧
      FsOp.writeRepositories repositoriesPath imageInfo.Image imageInfo.Tag
        ((layerIdChain w.sha256hex [] (layers.map (·.Digest))).getLastD []) ∈ ops := by
  refine ⟨by rw [layerIdChain_length, List.length_map], ?_, ?_⟩
  · intro i hi
    exact layerIdChain_getD w.sha256hex (layers.map (·.Digest)) [] i (by simpa using hi)
  · unfold downloadLayers at h
    cases hloop : downloadLayersLoop w registry imageInfo token tmpDir layers.length 0 layers
        ⟨[], [], []⟩ with
    | panic => simp [hloop] at h
    | hang => simp [hloop] at h
    | done r =>
      obtain ⟨st, e⟩ := r
      cases e with
      | some err => simp [hloop] at h
      | none =>
        obtain ⟨h1, h2⟩ := downloadLayersLoop_done w registry imageInfo token tmpDir
          layers.length layers 0 ⟨[], [], []⟩ st hloop
        simp only [List.nil_append] at h1 h2
        simp only [hloop] at h
        cases layers with
        | nil => simp at h
        | cons layer0 rest =>
          simp only at h
          cases hslice : sliceFrom layer0.Digest 7 with
          | none => simp [hslice] at h
          | some hex =>
            simp only [hslice] at h
            split at h
            · simp at h
            · split at h
              · simp at h
              · simp only [Run.done.injEq, Prod.mk.injEq, and_true] at h
                subst h
                rw [← h1, ← h2]
                exact ⟨w.filepathJoin tmpDir "manifest.json".toList,
                  w.filepathBase tmpDir ++ "/".toList ++ hex ++ ".json".toList,
                  [if !p.config.Settings.RemoveRegistryPrefix then
                    imageInfo.Repository ++ ":".toList ++ imageInfo.Tag
                  else imageInfo.Image ++ ":".toList ++ imageInfo.Tag],
                  w.filepathJoin tmpDir "repositories".toList, by simp, by simp⟩

/-- C6, at two layers pulled from registry B in the pull scenario. -/
theorem downloadLayers_layer_ids_witness :
    ∃ ops,
      downloadLayers pullWorld (twoRegistryPuller plainSettings) probedB
        ⟨"nginx".toList, "nginx".toList, "1.25".toList⟩
        twoLayers [] "tmp".toList =
        .done (ops, none) ∧
      FsOp.writeManifest "tmp/manifest.json".toList "tmp/cccc.json".toList ["nginx:1.25".toList]
        ["h(sha256:cccc)/layer.tar".toList, "h(h(sha256:cccc)sha256:llll)/layer.tar".toList] ∈ ops ∧
      ∃ manifestPath config repoTags repositoriesPath,
        FsOp.writeManifest manifestPath config repoTags
          ((layerIdChain pullWorld.sha256hex [] (twoLayers.map (·.Digest))).map
            (· ++ "/layer.tar".toList)) ∈ ops ∧
        FsOp.writeRepositories repositoriesPath "nginx".toList "1.25".toList
          ((layerIdChain pullWorld.sha256hex [] (twoLayers.map (·.Digest))).getLastD []) ∈ ops :=
  ⟨_, rfl, by decide,
    (downloadLayers_layer_ids pullWorld (twoRegistryPuller plainSettings) probedB
      ⟨"nginx".toList, "nginx".toList, "1.25".toList⟩ twoLayers [] "tmp".toList _ rfl).2.2⟩

/-! ## Image assembler: the Config entry of `manifest.json` -/

/-- C7 fails on the code, at a manifest whose config digest `sha256:cccc` differs from
the digest `sha256:llll` of its first layer: the pull saves the config blob as
`tmp/cccc.json`, and `manifest.json` names `tmp/llll.json`, a file the pull never
wrote. -/
theorem PullImage_config_entry_from_first_layer :
    nginxManifest.Config.Digest = "sha256:cccc".toList ∧
    PullImage pullWorld (twoRegistryPuller plainSettings) "nginx:1.25".toList "amd64".toList
        [] [] =
      .done
        ([.mkdirAll "tmp".toList,
          .mkdirAll "tmp".toList,
          .download "https://b.example/v2/nginx/blobs/sha256:cccc".toList []
            "tmp/cccc.json".toList "Config".toList,
          .mkdirAll "tmp/h(sha256:llll)".toList,
          .mkdirAll "tmp/h(sha256:llll)".toList,
          .download "https://b.example/v2/nginx/blobs/sha256:llll".toList []
            "tmp/h(sha256:llll)/layer_gzip.tar".toList "Layer 1/1".toList,
          .decompress "tmp/h(sha256:llll)/layer_gzip.tar".toList
            "tmp/h(sha256:llll)/layer.tar".toList,
          .remove "tmp/h(sha256:llll)/layer_gzip.tar".toList,
          .writeLayerJSON "tmp/h(sha256:llll)/json".toList "h(sha256:llll)".toList none,
          .writeManifest "tmp/manifest.json".toList "tmp/llll.json".toList
            ["nginx:1.25".toList] ["h(sha256:llll)/layer.tar".toList],
          .writeRepositories "tmp/repositories".toList "nginx".toList "1.25".toList
            "h(sha256:llll)".toList,
          .writeTar "nginx_1.25_amd64.tar".toList "tmp".toList],
        .ok "nginx_1.25_amd64.tar".toList) := by
  decide

/-! ## Reference parser: empty parts and the round trip -/

/-- The first segment of a split is empty exactly when the string is empty or
begins with the separator. -/
theorem headD_stringsSplit_eq_nil_iff (x : Str) (c : Char) :
    (stringsSplit x c).headD [] = [] ↔ x = [] ∨ x.head? = some c := by
  by_cases hc : c ∈ x
  · obtain ⟨a, rest, rfl, ha⟩ := List.eq_append_cons_of_mem hc
    rw [stringsSplit_append_sep a rest c ha]
    cases a with
    | nil => simp
    | cons y a =>
      have : y ≠ c := fun h => ha (by simp [h])
      simp [this]
  · rw [stringsSplit_of_not_mem x c hc]
    constructor
    · intro h; exact Or.inl (by simpa using h)
    · rintro (h | h)
      · simpa using h
      · exact absurd (List.mem_of_mem_head? h) hc

/-- Image and tag of a parse, read off the last segment of the input. -/
theorem ParseImageInput_image_tag (s : Str) :
    (ParseImageInput s).Image = (parseImageTag ((stringsSplit s '/').getLastD [])).1 ∧
    (ParseImageInput s).Tag = (parseImageTag ((stringsSplit s '/').getLastD [])).2 := by
  obtain ⟨I, L, hs, hj, hfree, -⟩ := stringsSplit_decomp s '/'
  rw [hs, getLastD_append_singleton, ← hj, ParseImageInput_segments I L hfree]
  split <;> exact ⟨rfl, rfl⟩

/-- C11 as amended: `ParseImageInput` has no error result and returns a reference for
every input.  The image is the part of the last `/`-separated segment before its first
`:`, so it is empty exactly when that segment is empty or begins with `:`; the tag is
the part between the first and the second `:` of that segment (`latest` without a
`:`), so it is empty exactly when the first `:` is followed by nothing or by another
`:`.  In every other case image and tag are non-empty. -/
theorem ParseImageInput_image_tag_empty_iff (s : Str) :
    ((ParseImageInput s).Image = [] ↔
      (stringsSplit s '/').getLastD [] = [] ∨
      ((stringsSplit s '/').getLastD []).head? = some ':') ∧
    ((ParseImageInput s).Tag = [] ↔
      ∃ a rest, (stringsSplit s '/').getLastD [] = a ++ ':' :: rest ∧ ':' ∉ a ∧
        (rest = [] ∨ rest.head? = some ':')) := by
  obtain ⟨hi, ht⟩ := ParseImageInput_image_tag s
  generalize (stringsSplit s '/').getLastD [] = L at hi ht
  rw [hi, ht]
  constructor
  · rw [← headD_stringsSplit_eq_nil_iff L ':']
    unfold parseImageTag
    simp only [List.getD_eq_getElem?_getD, List.headD_eq_head?_getD, List.head?_eq_getElem?]
    split <;> rfl
  · by_cases hc : ':' ∈ L
    · obtain ⟨a, rest, rfl, ha⟩ := List.eq_append_cons_of_mem hc
      have hne := stringsSplit_ne_nil rest ':'
      have hhead := headD_stringsSplit_eq_nil_iff rest ':'
      have htag : (parseImageTag (a ++ ':' :: rest)).2 = (stringsSplit rest ':').headD [] := by
        unfold parseImageTag
        rw [stringsSplit_append_sep a rest ':' ha]
        cases hsp : stringsSplit rest ':' with
        | nil => exact absurd hsp hne
        | cons x xs => simp
      rw [htag, hhead]
      constructor
      · intro h
        exact ⟨a, rest, rfl, ha, h⟩
      · rintro ⟨a', rest', heq, ha', h⟩
        have : a = a' ∧ rest = rest' := by
          have h1 := stringsSplit_append_sep a rest ':' ha
          have h2 := stringsSplit_append_sep a' rest' ':' ha'
          rw [heq, h2] at h1
          have hr : stringsSplit rest' ':' = stringsSplit rest ':' := (List.cons.inj h1).2
          refine ⟨((List.cons.inj h1).1).symm, ?_⟩
          rw [← stringsJoin_stringsSplit rest ':', ← stringsJoin_stringsSplit rest' ':', hr]
        rw [this.2]
        exact h
    · rw [parseImageTag_of_not_mem L hc]
      constructor
      · intro h; cases h
      · rintro ⟨a, rest, heq, -, -⟩
        exact absurd (by rw [heq]; simp) hc

/-- C11 as stated fails: the empty input is returned with an empty image, and the
input `nginx:` is returned with an empty tag; neither is rejected. -/
theorem ParseImageInput_empty_counterexample :
    ParseImageInput [] = ⟨[], [], "latest".toList⟩ ∧
    ParseImageInput "nginx:".toList = ⟨"nginx".toList, "nginx".toList, []⟩ := by
  decide

/-- C12 as amended: for an input `s` whose last `/`-separated segment is `image:tag`
(both non-empty, no further `:`), re-parsing `Repository ++ ":" ++ Tag` of the parse
of `s` gives the parse of `s` again, provided `s` is read in the standard form (no
`/`, or a first segment without `.` and `:`), or `s` is `h/p:tag` with a registry host
`h` and a path `p` without `:` that is itself read verbatim (no `.` in its first
segment when it has several, and not a single segment behind a leading `/`). -/
theorem ParseImageInput_round_trip (s image tag : Str)
    (hlast : (stringsSplit s '/').getLastD [] = image ++ [':'] ++ tag)
    (himage : image ≠ [] ∧ ':' ∉ image) (htag : tag ≠ [] ∧ ':' ∉ tag)
    (hform :
      ('/' ∉ s ∨
        ('.' ∉ (stringsSplit s '/').headD [] ∧ ':' ∉ (stringsSplit s '/').headD [])) ∨
      (∃ h p, s = h ++ ['/'] ++ (p ++ [':'] ++ tag) ∧ '/' ∉ h ∧ ('.' ∈ h ∨ ':' ∈ h) ∧
        ':' ∉ p ∧ ('/' ∉ p ∨ '.' ∉ (stringsSplit p '/').headD []) ∧
        ¬ (p.head? = some '/' ∧ '/' ∉ p.tail))) :
    ParseImageInput ((ParseImageInput s).Repository ++ [':'] ++ (ParseImageInput s).Tag) =
      ParseImageInput s := by
  have hslash : '/' ∉ image ++ [':'] ++ tag := by
    rw [← hlast]
    apply not_mem_of_mem_stringsSplit '/' s
    have hne := stringsSplit_ne_nil s '/'
    cases hsp : stringsSplit s '/' with
    | nil => exact absurd hsp hne
    | cons x xs =>
      rw [List.getLastD_cons, ← List.getLast_eq_getLastD x xs (by simp)]
      exact List.getLast_mem _
  have htslash : '/' ∉ tag := fun h => hslash (by simp [h])
  have hislash : '/' ∉ image := fun h => hslash (by simp [h])
  have hsfx : '/' ∉ image ++ ':' :: tag := by simpa using hslash
  rcases hform with hstd | ⟨h, p, hs, hh, hhost, hp, hfirst, hdeg⟩
  · obtain ⟨I, L, hsp, hj, hfree, -⟩ := stringsSplit_decomp s '/'
    rw [hsp, getLastD_append_singleton] at hlast
    subst hlast
    have hcond : ¬ (I ≠ [] ∧ ('.' ∈ I.headD [] ∨ ':' ∈ I.headD [])) := by
      rintro ⟨hne, hdot⟩
      obtain ⟨a, I, rfl⟩ := List.exists_cons_of_ne_nil hne
      rcases hstd with hno | hno
      · rw [stringsSplit_of_not_mem s '/' hno] at hsp
        have := congrArg List.length hsp
        simp at this
      · rw [hsp] at hno
        simp only [List.cons_append, List.headD_cons] at hno hdot
        rcases hdot with hdot | hdot
        · exact hno.1 hdot
        · exact hno.2 hdot
    have hs' : s = stringsJoin (I ++ [image]) '/' ++ ':' :: tag := by
      rw [← stringsJoin_append_last, ← hj]
      simp
    have hparse := ParseImageInput_standard_core I image (':' :: tag) tag
      (by simpa using hfree) hcond (parseImageTag_colon image tag himage.2 htag.2)
    rw [← hs'] at hparse
    rw [hparse]
    by_cases he : stringsJoin I '/' = []
    · simp only [he, if_true]
      have := ParseImageInput_standard_core [] image (':' :: tag) tag
        (by simpa using hsfx) (by simp) (parseImageTag_colon image tag himage.2 htag.2)
      simpa [stringsJoin_singleton, stringsJoin_nil] using this
    · simp only [he, if_false]
      have hI : I ≠ [] := by
        rintro rfl
        exact he (stringsJoin_nil '/')
      have : stringsJoin I '/' ++ ['/'] ++ image ++ [':'] ++ tag = s := by
        rw [hs', stringsJoin_snoc '/' I image hI]
        simp
      rw [this, hparse, if_neg he]
  · obtain ⟨I, L, hsp, hj, hfree, hmem⟩ := stringsSplit_decomp p '/'
    have hL : ':' ∉ L := fun hc => hp (hmem L (by simp) ':' hc)
    have htagL := parseImageTag_colon L tag hL htag.2
    have hfreeSfx : ∀ l ∈ I ++ [L ++ ':' :: tag], '/' ∉ l := by
      intro l hl
      simp only [List.mem_append, List.mem_singleton] at hl
      rcases hl with hl | rfl
      · exact hfree l (by simp [hl])
      · have hLs := hfree L (by simp)
        simp only [List.mem_append, List.mem_cons, not_or]
        exact ⟨hLs, by decide, htslash⟩
    have hhostparse := ParseImageInput_host_core h I L (':' :: tag) tag
      (by
        intro l hl
        rw [List.cons_append] at hl
        rcases List.mem_cons.mp hl with rfl | hl
        · exact hh
        · exact hfreeSfx l hl)
      hhost htagL
      (by rw [hj, stringsSplit_append_sep p tag ':' hp]; rfl)
    rw [hj] at hhostparse
    have hs2 : s = h ++ ['/'] ++ (p ++ ':' :: tag) := by rw [hs]; simp
    rw [hs2, hhostparse]
    have hcond : ¬ (I ≠ [] ∧ ('.' ∈ I.headD [] ∨ ':' ∈ I.headD [])) := by
      rintro ⟨hne, hdot⟩
      obtain ⟨a, I, rfl⟩ := List.exists_cons_of_ne_nil hne
      simp only [List.headD_cons] at hdot
      rcases hdot with hdot | hcol
      · rcases hfirst with hno | hno
        · rw [stringsSplit_of_not_mem p '/' hno] at hsp
          have := congrArg List.length hsp
          simp at this
        · rw [hsp] at hno
          exact hno hdot
      · exact hp (hmem a (by simp) ':' hcol)
    have hstdparse := ParseImageInput_standard_core I L (':' :: tag) tag hfreeSfx hcond htagL
    rw [hj, standard_repository_eq I L p hj hfree, if_neg hdeg] at hstdparse
    simpa using hstdparse

/-- C12 as amended, at `library/nginx:1.25`. -/
theorem ParseImageInput_round_trip_witness :
    (stringsSplit "library/nginx:1.25".toList '/').getLastD [] =
      "nginx".toList ++ [':'] ++ "1.25".toList ∧
    ParseImageInput ((ParseImageInput "library/nginx:1.25".toList).Repository ++ [':'] ++
        (ParseImageInput "library/nginx:1.25".toList).Tag) =
      ParseImageInput "library/nginx:1.25".toList :=
  ⟨by decide,
    ParseImageInput_round_trip "library/nginx:1.25".toList "nginx".toList "1.25".toList
      (by decide) (by decide) (by decide) (Or.inl (Or.inr (by decide)))⟩

/-- C12 as stated fails at `reg.io/foo.bar/img:tag`: the parse strips the host and
gives repository `foo.bar/img`; the reassembled `foo.bar/img:tag` is parsed with
`foo.bar` taken for a host, and gives repository `img`. -/
theorem ParseImageInput_round_trip_counterexample :
    (stringsSplit "reg.io/foo.bar/img:tag".toList '/').getLastD [] =
      "img".toList ++ [':'] ++ "tag".toList ∧
    ParseImageInput "reg.io/foo.bar/img:tag".toList =
      ⟨"foo.bar/img".toList, "img".toList, "tag".toList⟩ ∧
    ParseImageInput ("foo.bar/img".toList ++ [':'] ++ "tag".toList) =
      ⟨"img".toList, "img".toList, "tag".toList⟩ ∧
    ParseImageInput ((ParseImageInput "reg.io/foo.bar/img:tag".toList).Repository ++ [':'] ++
        (ParseImageInput "reg.io/foo.bar/img:tag".toList).Tag) ≠
      ParseImageInput "reg.io/foo.bar/img:tag".toList := by
  decide

/-! ## Tag rewriter: the claims -/

theorem transformTagRules_of_first_match (w : World) (t : Str) (pre : List TagTransformRule)
    (rule : TagTransformRule) (post : List TagTransformRule)
    (hpre : ∀ r ∈ pre, ¬ (r.Enabled = true ∧ w.regexpMatchString r.Pattern t = some true))
    (hrule : rule.Enabled = true ∧ w.regexpMatchString rule.Pattern t = some true) :
    transformTagRules w t (pre ++ rule :: post) =
      stringsReplaceAll rule.Replacement "\x7boriginal_tag\x7d".toList t := by
  induction pre with
  | nil => simp [transformTagRules, hrule.1, hrule.2]
  | cons r pre ih =>
    have hr := hpre r (by simp)
    have ih' := ih (fun x hx => hpre x (by simp [hx]))
    rw [List.cons_append, transformTagRules]
    by_cases hen : r.Enabled = true
    · simp only [hen, Bool.not_true, Bool.false_eq_true, if_false]
      cases hm : w.regexpMatchString r.Pattern t with
      | none => exact ih'
      | some matched =>
        cases matched with
        | true => exact absurd ⟨hen, hm⟩ hr
        | false => simpa using ih'
    · simp only [hen, Bool.not_eq_true, Bool.not_false] at *
      simpa [hen] using ih'

theorem transformTagRules_of_no_match (w : World) (t : Str) (rules : List TagTransformRule)
    (hnone : ∀ r ∈ rules, r.Enabled = true → w.regexpMatchString r.Pattern t ≠ some true) :
    transformTagRules w t rules = t := by
  induction rules with
  | nil => rfl
  | cons r rules ih =>
    have ih' := ih (fun x hx => hnone x (by simp [hx]))
    rw [transformTagRules]
    by_cases hen : r.Enabled = true
    · simp only [hen, Bool.not_true, Bool.false_eq_true, if_false]
      cases hm : w.regexpMatchString r.Pattern t with
      | none => exact ih'
      | some matched =>
        cases matched with
        | true => exact absurd hm (hnone r (by simp) hen)
        | false => simpa using ih'
    · simp only [Bool.not_eq_true] at hen
      simpa [hen] using ih'

theorem TransformTag_of_enabled (w : World) (config : Config) (t : Str)
    (hen : config.TagTransform.Enabled = true) :
    TransformTag w config t = transformTagRules w t config.TagTransform.Rules := by
  simp [TransformTag, hen]

/-- C13: with tag transformation enabled, when `rule` is the first rule of the list
that is enabled and whose pattern matches `t`, `TransformTag` returns the replacement
of `rule` with every `{original_tag}` replaced by `t`, whatever rules come after it;
the single rule (`^v(.*)$`, `{original_tag}-suffix`) maps `v2` to `v2-suffix`. -/
theorem TransformTag_first_match (w : World) (config : Config) (t : Str)
    (pre : List TagTransformRule) (rule : TagTransformRule) (post : List TagTransformRule)
    (hen : config.TagTransform.Enabled = true)
    (hrules : config.TagTransform.Rules = pre ++ rule :: post)
    (hpre : ∀ r ∈ pre, ¬ (r.Enabled = true ∧ w.regexpMatchString r.Pattern t = some true))
    (hrule : rule.Enabled = true ∧ w.regexpMatchString rule.Pattern t = some true) :
    TransformTag w config t =
      stringsReplaceAll rule.Replacement "\x7boriginal_tag\x7d".toList t ∧
    TransformTag tagWorld (tagConfig [suffixRule]) "v2".toList = "v2-suffix".toList := by
  refine ⟨?_, by decide⟩
  rw [TransformTag_of_enabled w config t hen, hrules]
  exact transformTagRules_of_first_match w t pre rule post hpre hrule

/-- C13, at a list in which a disabled rule and a non-compiling rule come before
the suffix rule and a rule matching everything comes after it. -/
theorem TransformTag_first_match_witness :
    TransformTag tagWorld
        (tagConfig [{ suffixRule with Enabled := false },
          ⟨[], [], "(".toList, "broken".toList, true⟩, suffixRule,
          ⟨[], [], ".*".toList, "later".toList, true⟩]) "v2".toList =
      stringsReplaceAll suffixRule.Replacement "\x7boriginal_tag\x7d".toList "v2".toList ∧
    stringsReplaceAll suffixRule.Replacement "\x7boriginal_tag\x7d".toList "v2".toList =
      "v2-suffix".toList :=
  ⟨(TransformTag_first_match tagWorld _ "v2".toList
      [{ suffixRule with Enabled := false }, ⟨[], [], "(".toList, "broken".toList, true⟩]
      suffixRule [⟨[], [], ".*".toList, "later".toList, true⟩] rfl rfl (by decide)
      (by decide)).1, by decide⟩

theorem TransformTag_of_no_match (w : World) (config : Config) (t : Str)
    (hnone : ∀ r ∈ config.TagTransform.Rules,
      r.Enabled = true → w.regexpMatchString r.Pattern t ≠ some true) :
    TransformTag w config t = t := by
  unfold TransformTag
  split
  · rfl
  · exact transformTagRules_of_no_match w t _ hnone

/-- C14: when no enabled rule has a pattern that matches `t` (the list may be empty,
and rules that would match may be disabled), `TransformTag` returns `t`. -/
theorem TransformTag_no_match (w : World) (config : Config) (t : Str)
    (hnone : ∀ r ∈ config.TagTransform.Rules,
      r.Enabled = true → w.regexpMatchString r.Pattern t ≠ some true) :
    TransformTag w config t = t := by
  by_cases hen : config.TagTransform.Enabled = true
  · rw [TransformTag_of_enabled w config t hen]
    exact transformTagRules_of_no_match w t config.TagTransform.Rules hnone
  · simp [TransformTag, hen]

/-- C14, at a list whose only matching rule is disabled and whose enabled rule does
not compile. -/
theorem TransformTag_no_match_witness :
    TransformTag tagWorld
        (tagConfig [{ suffixRule with Enabled := false },
          ⟨[], [], "(".toList, "broken".toList, true⟩]) "v2".toList = "v2".toList :=
  TransformTag_no_match tagWorld _ "v2".toList (by decide)

theorem transformTagRules_filter_compiling (w : World) (t : Str)
    (rules : List TagTransformRule) :
    transformTagRules w t rules =
      transformTagRules w t
        (rules.filter fun r => (w.regexpMatchString r.Pattern t).isSome) := by
  induction rules with
  | nil => rfl
  | cons r rules ih =>
    cases hm : w.regexpMatchString r.Pattern t with
    | none =>
      rw [List.filter_cons_of_neg (by simp [hm]), ← ih, transformTagRules]
      simp [hm]
    | some matched =>
      rw [List.filter_cons_of_pos (by simp [hm]), transformTagRules, transformTagRules, ih]

/-- C15: a rule whose pattern does not compile is skipped and evaluation goes on:
`TransformTag` on a rule list returns what it returns on the list with the
non-compiling rules removed; with a non-compiling rule before the suffix rule, `v2`
still becomes `v2-suffix`. -/
theorem TransformTag_skips_non_compiling (w : World) (config : Config) (t : Str) :
    TransformTag w config t =
      TransformTag w
        ⟨config.Registries,
          ⟨config.TagTransform.Enabled,
            config.TagTransform.Rules.filter fun r =>
              (w.regexpMatchString r.Pattern t).isSome⟩,
          config.Settings⟩ t ∧
    TransformTag tagWorld
        (tagConfig [⟨[], [], "(".toList, "broken".toList, true⟩, suffixRule]) "v2".toList =
      "v2-suffix".toList := by
  refine ⟨?_, by decide⟩
  unfold TransformTag
  simp only
  split
  · rfl
  · exact transformTagRules_filter_compiling w t _

theorem replaceAllFrom_of_not_contains (old new : Str) (s : Str)
    (h : stringsContains s old = false) : replaceAllFrom old new 0 s = s := by
  induction s with
  | nil => rfl
  | cons c s ih =>
    simp only [stringsContains, Bool.or_eq_false_iff] at h
    rw [replaceAllFrom, if_neg (by simp [h.1]), ih h.2]

theorem replaceAllFrom_of_length_le (old new : Str) :
    ∀ (n : Nat) (s : Str), s.length ≤ n → replaceAllFrom old new n s = [] := by
  intro n
  induction n with
  | zero =>
    intro s hs
    have : s = [] := List.length_eq_zero.mp (Nat.le_zero.mp hs)
    subst this
    rfl
  | succ n ih =>
    intro s hs
    cases s with
    | nil => rfl
    | cons c s =>
      rw [replaceAllFrom]
      exact ih s (by simpa using hs)

/-- A replacement without the token is returned as it is. -/
theorem stringsReplaceAll_of_not_contains (s old new : Str)
    (h : stringsContains s old = false) : stringsReplaceAll s old new = s := by
  unfold stringsReplaceAll
  cases old with
  | nil => cases s <;> simp [stringsContains] at h
  | cons c old =>
    rw [if_neg (by simp)]
    exact replaceAllFrom_of_not_contains _ new s h

/-- Replacing the token in the token alone gives the new text. -/
theorem stringsReplaceAll_self (old new : Str) (hne : old ≠ []) :
    stringsReplaceAll old old new = new := by
  unfold stringsReplaceAll
  cases old with
  | nil => exact absurd rfl hne
  | cons c old =>
    rw [if_neg (by simp), replaceAllFrom, if_pos (by simp),
      replaceAllFrom_of_length_le _ _ _ _ (by simp)]
    simp

/-- C16 as amended: `TransformTag (TransformTag t) = TransformTag t` holds when tag
transformation is disabled, or when no enabled rule matches `TransformTag t`, or when
the rule that fires on `TransformTag t` is the rule that fired on `t` and its
replacement either contains no `{original_tag}` or is exactly `{original_tag}`. -/
theorem TransformTag_idempotent (w : World) (config : Config) (t : Str)
    (h : config.TagTransform.Enabled = false ∨
      (∀ r ∈ config.TagTransform.Rules, r.Enabled = true →
        w.regexpMatchString r.Pattern (TransformTag w config t) ≠ some true) ∨
      (∃ pre rule post, config.TagTransform.Rules = pre ++ rule :: post ∧
        (∀ r ∈ pre, ¬ (r.Enabled = true ∧ w.regexpMatchString r.Pattern t = some true)) ∧
        (∀ r ∈ pre, ¬ (r.Enabled = true ∧
          w.regexpMatchString r.Pattern (TransformTag w config t) = some true)) ∧
        rule.Enabled = true ∧ w.regexpMatchString rule.Pattern t = some true ∧
        w.regexpMatchString rule.Pattern (TransformTag w config t) = some true ∧
        (stringsContains rule.Replacement "\x7boriginal_tag\x7d".toList = false ∨
          rule.Replacement = "\x7boriginal_tag\x7d".toList))) :
    TransformTag w config (TransformTag w config t) = TransformTag w config t := by
  rcases h with hoff | hnone | ⟨pre, rule, post, hrules, hpre, hpre', hen, hm, hm', hrepl⟩
  · simp [TransformTag, hoff]
  · exact TransformTag_of_no_match w config _ hnone
  · by_cases hon : config.TagTransform.Enabled = true
    · have h1 : TransformTag w config t =
          stringsReplaceAll rule.Replacement "\x7boriginal_tag\x7d".toList t := by
        rw [TransformTag_of_enabled w config t hon, hrules]
        exact transformTagRules_of_first_match w t pre rule post hpre ⟨hen, hm⟩
      have h2 : TransformTag w config (TransformTag w config t) =
          stringsReplaceAll rule.Replacement "\x7boriginal_tag\x7d".toList
            (TransformTag w config t) := by
        rw [TransformTag_of_enabled w config _ hon, hrules]
        exact transformTagRules_of_first_match w _ pre rule post hpre' ⟨hen, hm'⟩
      rw [h2]
      rcases hrepl with hc | he
      · rw [stringsReplaceAll_of_not_contains _ _ _ hc, h1,
          stringsReplaceAll_of_not_contains _ _ _ hc]
      · rw [he, stringsReplaceAll_self _ _ (by decide)]
    · simp [TransformTag, hon]

/-- C16 as amended, at the default rule (`.*`, `{original_tag}`), which fires on
every tag and keeps it. -/
theorem TransformTag_idempotent_witness :
    TransformTag tagWorld (tagConfig [identityRule]) "v2".toList = "v2".toList ∧
    TransformTag tagWorld (tagConfig [identityRule])
        (TransformTag tagWorld (tagConfig [identityRule]) "v2".toList) =
      TransformTag tagWorld (tagConfig [identityRule]) "v2".toList :=
  ⟨by decide,
    TransformTag_idempotent tagWorld (tagConfig [identityRule]) "v2".toList
      (Or.inr (Or.inr ⟨[], identityRule, [], rfl, by simp, by simp, rfl, by decide, by decide,
        Or.inr rfl⟩))⟩

/-- C16 as stated fails at the single rule (`^v(.*)$`, `{original_tag}-suffix`) and the
tag `v2`: re-applying the rewriter to `v2-suffix` fires the same rule, no other rule
exists, and the result is `v2-suffix-suffix`. -/
theorem TransformTag_idempotent_counterexample :
    (tagConfig [suffixRule]).TagTransform.Rules = [suffixRule] ∧
    TransformTag tagWorld (tagConfig [suffixRule]) "v2".toList = "v2-suffix".toList ∧
    TransformTag tagWorld (tagConfig [suffixRule]) "v2-suffix".toList =
      "v2-suffix-suffix".toList ∧
    TransformTag tagWorld (tagConfig [suffixRule])
        (TransformTag tagWorld (tagConfig [suffixRule]) "v2".toList) ≠
      TransformTag tagWorld (tagConfig [suffixRule]) "v2".toList := by
  decide

/-! ## Platform selection: stability -/

/-- The selection reads only the matching entries, in their order. -/
theorem selectManifest_filter (arch : Str) (manifests : List PlatformManifest) :
    selectManifest manifests arch =
      selectManifest
        (manifests.filter fun m =>
          decide (m.Platform.Architecture = arch ∧ m.Platform.OS = "linux".toList)) arch := by
  induction manifests with
  | nil => rfl
  | cons m manifests ih =>
    by_cases hm : m.Platform.Architecture = arch ∧ m.Platform.OS = "linux".toList
    · rw [List.filter_cons_of_pos (by simpa using hm), selectManifest, selectManifest,
        if_pos hm, if_pos hm]
    · rw [List.filter_cons_of_neg (by simpa using hm), selectManifest, if_neg hm, ih]

/-- C17: two manifest lists that are permutations of each other and hold the matching
entries (architecture = target, os = `linux`) in the same order give the same
selected digest. -/
theorem selectManifest_stable (arch : Str) (manifests₁ manifests₂ : List PlatformManifest)
    (_hperm : manifests₁.Perm manifests₂)
    (hmatching :
      (manifests₁.filter fun m =>
        decide (m.Platform.Architecture = arch ∧ m.Platform.OS = "linux".toList)) =
      (manifests₂.filter fun m =>
        decide (m.Platform.Architecture = arch ∧ m.Platform.OS = "linux".toList))) :
    selectManifest manifests₁ arch = selectManifest manifests₂ arch := by
  rw [selectManifest_filter arch manifests₁, selectManifest_filter arch manifests₂, hmatching]

/-- C17, at two orders of four entries with the two `linux/arm64` entries in the same
relative order. -/
theorem selectManifest_stable_witness :
    selectManifest
        [⟨[], 0, "d-amd64".toList, ⟨"amd64".toList, "linux".toList⟩⟩,
         ⟨[], 0, "d-arm64-a".toList, ⟨"arm64".toList, "linux".toList⟩⟩,
         ⟨[], 0, "d-win".toList, ⟨"arm64".toList, "windows".toList⟩⟩,
         ⟨[], 0, "d-arm64-b".toList, ⟨"arm64".toList, "linux".toList⟩⟩] "arm64".toList =
      selectManifest
        [⟨[], 0, "d-win".toList, ⟨"arm64".toList, "windows".toList⟩⟩,
         ⟨[], 0, "d-arm64-a".toList, ⟨"arm64".toList, "linux".toList⟩⟩,
         ⟨[], 0, "d-arm64-b".toList, ⟨"arm64".toList, "linux".toList⟩⟩,
         ⟨[], 0, "d-amd64".toList, ⟨"amd64".toList, "linux".toList⟩⟩] "arm64".toList :=
  selectManifest_stable "arm64".toList _ _ (by decide) (by decide)

/-! ## Ranking: arrival order -/

/-- Two sorted permutations of one another are equal when the order is antisymmetric
on their elements. -/
theorem eq_of_perm_of_pairwise {α : Type} (r : α → α → Prop) (l₁ l₂ : List α)
    (hanti : ∀ a ∈ l₁, ∀ b ∈ l₁, r a b → r b a → a = b) (hperm : l₁.Perm l₂)
    (h₁ : l₁.Pairwise r) (h₂ : l₂.Pairwise r) : l₁ = l₂ := by
  haveI : IsAntisymm α (fun a b => a ∈ l₁ ∧ b ∈ l₁ ∧ r a b) :=
    ⟨fun a b hab hba => hanti a hab.1 b hab.2.1 hab.2.2 hba.2.2⟩
  refine List.eq_of_perm_of_sorted (r := fun a b => a ∈ l₁ ∧ b ∈ l₁ ∧ r a b) hperm ?_ ?_
  · exact List.Pairwise.and_mem.mp h₁
  · refine (List.Pairwise.and_mem.mp h₂).imp ?_
    rintro a b ⟨ha, hb, hab⟩
    exact ⟨hperm.mem_iff.mpr ha, hperm.mem_iff.mpr hb, hab⟩

/-- With every response time measured, the ranked list has no later element below an
earlier one. -/
theorem sortSlice_rankLess_pairwise (l : List RegistryConfig)
    (hmeasured : ∀ r ∈ l, r.ResponseTime ≠ none) :
    (sortSlice rankLess l).Pairwise (fun a b => rankLess b a = false) :=
  sortSlice_pairwise rankLess (fun r => r.ResponseTime ≠ none)
    (by
      intro a b ha hb hab
      obtain ⟨ta, hta⟩ := Option.ne_none_iff_exists'.mp ha
      obtain ⟨tb, htb⟩ := Option.ne_none_iff_exists'.mp hb
      rw [rankLess_eq_false_iff a b ta tb hta htb]
      have hab' : ¬ rankLess a b = false := by simp [hab]
      rw [rankLess_eq_false_iff b a tb ta htb hta] at hab'
      omega)
    (by
      intro a b c ha hb hc hab hbc
      obtain ⟨ta, hta⟩ := Option.ne_none_iff_exists'.mp ha
      obtain ⟨tb, htb⟩ := Option.ne_none_iff_exists'.mp hb
      obtain ⟨tc, htc⟩ := Option.ne_none_iff_exists'.mp hc
      rw [rankLess_eq_false_iff b a tb ta htb hta] at hab
      rw [rankLess_eq_false_iff c b tc tb htc htb] at hbc
      rw [rankLess_eq_false_iff c a tc ta htc hta]
      omega)
    l hmeasured

/-- C19 as amended: for two arrival orders of the same available registries, every
one with a measured response time, the ranking step produces the same list provided
no two different registries share both priority and response time.  This does not
depend on how the sort breaks ties: any two rankings of the two arrival orders, each
a permutation with no later element below an earlier one, are the same list. -/
theorem rank_independent_of_arrival (arrival₁ arrival₂ : List RegistryConfig)
    (hperm : arrival₁.Perm arrival₂)
    (hmeasured : ∀ r ∈ arrival₁, r.ResponseTime ≠ none)
    (hdistinct : ∀ a ∈ arrival₁, ∀ b ∈ arrival₁,
      a.Priority = b.Priority → a.ResponseTime = b.ResponseTime → a = b) :
    sortSlice rankLess arrival₁ = sortSlice rankLess arrival₂ ∧
    ∀ ranked₁ ranked₂ : List RegistryConfig,
      ranked₁.Perm arrival₁ → ranked₂.Perm arrival₂ →
      ranked₁.Pairwise (fun a b => rankLess b a = false) →
      ranked₂.Pairwise (fun a b => rankLess b a = false) →
      ranked₁ = ranked₂ := by
  have hmeasured₂ : ∀ r ∈ arrival₂, r.ResponseTime ≠ none :=
    fun r hr => hmeasured r (hperm.mem_iff.mpr hr)
  have key : ∀ ranked₁ ranked₂ : List RegistryConfig,
      ranked₁.Perm arrival₁ → ranked₂.Perm arrival₂ →
      ranked₁.Pairwise (fun a b => rankLess b a = false) →
      ranked₂.Pairwise (fun a b => rankLess b a = false) →
      ranked₁ = ranked₂ := by
    intro ranked₁ ranked₂ hp₁ hp₂ hs₁ hs₂
    refine eq_of_perm_of_pairwise (fun a b => rankLess b a = false) _ _ ?_
      (hp₁.trans (hperm.trans hp₂.symm)) hs₁ hs₂
    intro a ha b hb hab hba
    have ha' := hp₁.mem_iff.mp ha
    have hb' := hp₁.mem_iff.mp hb
    obtain ⟨ta, hta⟩ := Option.ne_none_iff_exists'.mp (hmeasured a ha')
    obtain ⟨tb, htb⟩ := Option.ne_none_iff_exists'.mp (hmeasured b hb')
    rw [rankLess_eq_false_iff a b ta tb hta htb] at hab
    rw [rankLess_eq_false_iff b a tb ta htb hta] at hba
    refine hdistinct a ha' b hb' (by omega) ?_
    rw [hta, htb]
    congr 1
    omega
  exact ⟨key _ _ (sortSlice_perm rankLess arrival₁) (sortSlice_perm rankLess arrival₂)
    (sortSlice_rankLess_pairwise arrival₁ hmeasured)
    (sortSlice_rankLess_pairwise arrival₂ hmeasured₂), key⟩

/-- C19 as amended, at the two arrival orders of the probed registries A and B. -/
theorem rank_independent_of_arrival_witness :
    [probedB, probedA].Perm [probedA, probedB] ∧
    sortSlice rankLess [probedB, probedA] = sortSlice rankLess [probedA, probedB] :=
  ⟨List.Perm.swap probedA probedB [],
    (rank_independent_of_arrival [probedB, probedA] [probedA, probedB]
      (List.Perm.swap probedA probedB []) (by decide) (by decide)).1⟩

/-- C19 as stated fails at two registries with the same priority and the same measured
response time: the comparison orders neither before the other and the ranked list is
the arrival order, so the two arrival orders give different ranked lists. -/
theorem rank_arrival_counterexample :
    [probedA, tiedB].Perm [tiedB, probedA] ∧
    (probedA.Priority = tiedB.Priority ∧ probedA.ResponseTime = tiedB.ResponseTime) ∧
    sortSlice rankLess [probedA, tiedB] = [probedA, tiedB] ∧
    sortSlice rankLess [tiedB, probedA] = [tiedB, probedA] ∧
    sortSlice rankLess [probedA, tiedB] ≠ sortSlice rankLess [tiedB, probedA] :=
  ⟨List.Perm.swap tiedB probedA [], by decide, by decide, by decide, by decide⟩

/-! ## Directory API client: the mirror string -/

/-- The conversion of a mirror given with its first slash singled out. -/
theorem ConvertToRegistryInfo_of_split (apiResult : APIImageResult) (host path : Str)
    (hmirror : apiResult.Mirror = host ++ ['/'] ++ path) (hhost : '/' ∉ host) :
    ConvertToRegistryInfo apiResult = (host, path) := by
  have hsplit : stringsSplit apiResult.Mirror '/' = host :: stringsSplit path '/' := by
    rw [hmirror]
    simpa using stringsSplit_append_sep host path '/' hhost
  have hne := stringsSplit_ne_nil path '/'
  have hlen : ¬ (host :: stringsSplit path '/').length < 2 := by
    cases hsp : stringsSplit path '/' with
    | nil => exact absurd hsp hne
    | cons x xs => simp
  have hm : ¬ apiResult.Mirror = [] := by rw [hmirror]; simp
  unfold ConvertToRegistryInfo
  simp only [hm, if_false, hsplit, hlen, List.getD_cons_zero, List.drop_succ_cons,
    List.drop_zero, stringsJoin_stringsSplit]

/-- C20: for a mirror string that contains `/`, `ConvertToRegistryInfo` splits it at
the first `/`: the host contains no `/`, host ++ `/` ++ path is the mirror string, and
the pair is the one decomposition of that kind; `mirror.example.com/library/alpine`
gives host `mirror.example.com` and path `library/alpine`. -/
theorem ConvertToRegistryInfo_splits_at_first_slash (apiResult : APIImageResult)
    (hslash : '/' ∈ apiResult.Mirror) :
    '/' ∉ (ConvertToRegistryInfo apiResult).1 ∧
    (ConvertToRegistryInfo apiResult).1 ++ ['/'] ++ (ConvertToRegistryInfo apiResult).2 =
      apiResult.Mirror ∧
    (∀ host path, apiResult.Mirror = host ++ ['/'] ++ path → '/' ∉ host →
      ConvertToRegistryInfo apiResult = (host, path)) ∧
    ConvertToRegistryInfo ⟨[], "mirror.example.com/library/alpine".toList, [], [], []⟩ =
      ("mirror.example.com".toList, "library/alpine".toList) := by
  obtain ⟨host, path, hm, hhost⟩ := List.eq_append_cons_of_mem hslash
  have hm' : apiResult.Mirror = host ++ ['/'] ++ path := by rw [hm]; simp
  have hconv := ConvertToRegistryInfo_of_split apiResult host path hm' hhost
  refine ⟨by rw [hconv]; exact hhost, by rw [hconv, hm'], ?_, by decide⟩
  intro host' path' h1 h2
  exact ConvertToRegistryInfo_of_split apiResult host' path' h1 h2

/-- C20, at the mirror `registry.cn/ns/app`. -/
theorem ConvertToRegistryInfo_splits_at_first_slash_witness :
    '/' ∈ "registry.cn/ns/app".toList ∧
    ConvertToRegistryInfo ⟨[], "registry.cn/ns/app".toList, [], [], []⟩ =
      ("registry.cn".toList, "ns/app".toList) :=
  ⟨by decide,
    (ConvertToRegistryInfo_splits_at_first_slash ⟨[], "registry.cn/ns/app".toList, [], [], []⟩
      (by decide)).2.2.1 "registry.cn".toList "ns/app".toList (by decide) (by decide)⟩

/-! ## Image assembler: the `RepoTags` of `manifest.json` -/

/-- The blob downloader writes no `manifest.json`. -/
theorem DownloadFileWithProgress_no_manifest (w : World) (url token savePath desc : Str) :
    ∀ op ∈ (DownloadFileWithProgress w url token savePath desc).1,
      ∀ path config repoTags layerPaths, op ≠ .writeManifest path config repoTags layerPaths := by
  intro op hop path config repoTags layerPaths heq
  subst heq
  unfold DownloadFileWithProgress at hop
  simp only at hop
  generalize (if token ≠ [] then "Bearer ".toList ++ token else []) = authorization at hop
  split at hop
  · simp at hop
  · cases hh : w.httpDo ⟨url, [], authorization⟩ with
    | none => simp [hh] at hop
    | some resp =>
      simp only [hh] at hop
      repeat' split at hop
      all_goals simp at hop

/-- The layer loop writes no `manifest.json`. -/
theorem downloadLayersLoop_no_manifest (w : World) (registry : RegistryConfig)
    (imageInfo : ImageInfo) (token tmpDir : Str) (total : Nat) (layers : List LayerDescriptor) :
    ∀ (i : Nat) (st st' : LayerLoopState) (e : Option PullError),
      downloadLayersLoop w registry imageInfo token tmpDir total i layers st = .done (st', e) →
      (∀ op ∈ st.ops, ∀ path config repoTags layerPaths,
        op ≠ .writeManifest path config repoTags layerPaths) →
      ∀ op ∈ st'.ops, ∀ path config repoTags layerPaths,
        op ≠ .writeManifest path config repoTags layerPaths := by
  induction layers with
  | nil =>
    intro i st st' e h hst
    simp only [downloadLayersLoop, Run.done.injEq, Prod.mk.injEq] at h
    rw [← h.1]
    exact hst
  | cons layer layers ih =>
    intro i st st' e h hst
    simp only [downloadLayersLoop] at h
    have hdl := DownloadFileWithProgress_no_manifest w
      ("https://".toList ++ registry.URL ++ "/v2/".toList ++ imageInfo.Repository ++
        "/blobs/".toList ++ layer.Digest) token
      (w.filepathJoin (w.filepathJoin tmpDir
        (w.sha256hex (st.parentID ++ "\n".toList ++ layer.Digest ++ "\n".toList)))
        "layer_gzip.tar".toList)
      ("Layer ".toList ++ (Nat.repr (i + 1)).toList ++ "/".toList ++ (Nat.repr total).toList)
    split at h
    · simp only [Run.done.injEq, Prod.mk.injEq] at h
      rw [← h.1]
      exact hst
    · split at h
      · rename_i dops err hd
        rw [hd] at hdl
        split at h
        · cases h
        · simp only [Run.done.injEq, Prod.mk.injEq] at h
          rw [← h.1]
          intro op hop
          simp only [List.mem_append, List.mem_singleton] at hop
          rcases hop with (hop | rfl) | hop
          · exact hst op hop
          · intro _ _ _ _ hc; cases hc
          · exact hdl op hop
      · rename_i dops hd
        rw [hd] at hdl
        have hbase : ∀ op ∈ st.ops ++ [FsOp.mkdirAll (w.filepathJoin tmpDir
            (w.sha256hex (st.parentID ++ "\n".toList ++ layer.Digest ++ "\n".toList)))] ++ dops,
            ∀ path config repoTags layerPaths,
              op ≠ .writeManifest path config repoTags layerPaths := by
          intro op hop
          simp only [List.mem_append, List.mem_singleton] at hop
          rcases hop with (hop | rfl) | hop
          · exact hst op hop
          · intro _ _ _ _ hc; cases hc
          · exact hdl op hop
        split at h
        · simp only [Run.done.injEq, Prod.mk.injEq] at h
          rw [← h.1]
          exact hbase
        · split at h
          · simp only [Run.done.injEq, Prod.mk.injEq] at h
            rw [← h.1]
            intro op hop
            simp only [List.mem_append, List.mem_cons, List.mem_singleton, List.not_mem_nil,
              or_false] at hop
            rcases hop with hop | rfl | rfl
            · exact hbase op (by simp only [List.mem_append, List.mem_singleton]; tauto)
            · intro _ _ _ _ hc; cases hc
            · intro _ _ _ _ hc; cases hc
          · refine ih _ _ _ _ h ?_
            intro op hop
            simp only [List.mem_append, List.mem_cons, List.mem_singleton, List.not_mem_nil,
              or_false] at hop
            rcases hop with (hop | rfl | rfl) | rfl
            · exact hbase op (by simp only [List.mem_append, List.mem_singleton]; tauto)
            · intro _ _ _ _ hc; cases hc
            · intro _ _ _ _ hc; cases hc
            · intro _ _ _ _ hc; cases hc

/-- C21: when `downloadLayers` returns without error, its file-system effects end with
the write of `manifest.json` followed by the write of `repositories`; the `RepoTags`
of that manifest is the one-element list holding `image:tag` when
`RemoveRegistryPrefix` is true and `repository:tag` when it is false, and no earlier
effect writes a `manifest.json`.  For the reference `nginx:1.25` with
`RemoveRegistryPrefix = true` the list is `["nginx:1.25"]`. -/
theorem downloadLayers_repo_tags (w : World) (p : MultiRegistryImagePuller)
    (registry : RegistryConfig) (imageInfo : ImageInfo) (layers : List LayerDescriptor)
    (token tmpDir : Str) (ops : List FsOp)
    (h : downloadLayers w p registry imageInfo layers token tmpDir = .done (ops, none)) :
    (∃ layerOps manifestPath config layerPaths repositoriesPath lastID,
      ops = layerOps ++
        [.writeManifest manifestPath config
            [if p.config.Settings.RemoveRegistryPrefix = true then
                imageInfo.Image ++ ":".toList ++ imageInfo.Tag
              else imageInfo.Repository ++ ":".toList ++ imageInfo.Tag]
            layerPaths,
          .writeRepositories repositoriesPath imageInfo.Image imageInfo.Tag lastID] ∧
      ∀ op ∈ layerOps, ∀ path cfg repoTags paths,
        op ≠ .writeManifest path cfg repoTags paths) ∧
    downloadLayers blobWorld (twoRegistryPuller plainSettings) probedB
        ⟨"nginx".toList, "nginx".toList, "1.25".toList⟩ nginxManifest.Layers []
        "tmp".toList =
      .done (nginxLayerOps "nginx".toList ++
        [.writeManifest "tmp/manifest.json".toList "tmp/llll.json".toList
            ["nginx:1.25".toList] ["h(sha256:llll)/layer.tar".toList],
          .writeRepositories "tmp/repositories".toList "nginx".toList "1.25".toList
            "h(sha256:llll)".toList], none) := by
  refine ⟨?_, by decide⟩
  unfold downloadLayers at h
  cases hloop : downloadLayersLoop w registry imageInfo token tmpDir layers.length 0 layers
      ⟨[], [], []⟩ with
  | panic => simp [hloop] at h
  | hang => simp [hloop] at h
  | done r =>
    obtain ⟨st, e⟩ := r
    cases e with
    | some err => simp [hloop] at h
    | none =>
      have hno := downloadLayersLoop_no_manifest w registry imageInfo token tmpDir
        layers.length layers 0 ⟨[], [], []⟩ st none hloop (by simp)
      simp only [hloop] at h
      cases layers with
      | nil => simp at h
      | cons layer0 rest =>
        simp only at h
        cases hslice : sliceFrom layer0.Digest 7 with
        | none => simp [hslice] at h
        | some hex =>
          simp only [hslice] at h
          split at h
          · simp at h
          · split at h
            · simp at h
            · simp only [Run.done.injEq, Prod.mk.injEq, and_true] at h
              subst h
              refine ⟨st.ops, w.filepathJoin tmpDir "manifest.json".toList,
                w.filepathBase tmpDir ++ "/".toList ++ hex ++ ".json".toList, st.layerPaths,
                w.filepathJoin tmpDir "repositories".toList, st.parentID, ?_, hno⟩
              cases p.config.Settings.RemoveRegistryPrefix <;> simp

/-- Witness of C21 on the reference `library/nginx:1.25` with `RemoveRegistryPrefix`
false: the staging completes and `RepoTags` is `["library/nginx:1.25"]`. -/
theorem downloadLayers_repo_tags_witness :
    downloadLayers blobWorld
        (twoRegistryPuller keepPrefixSettings) probedB
        ⟨"library/nginx".toList, "nginx".toList, "1.25".toList⟩ nginxManifest.Layers []
        "tmp".toList =
      .done (nginxLayerOps "library/nginx".toList ++
        [.writeManifest "tmp/manifest.json".toList "tmp/llll.json".toList
            ["library/nginx:1.25".toList] ["h(sha256:llll)/layer.tar".toList],
          .writeRepositories "tmp/repositories".toList "nginx".toList "1.25".toList
            "h(sha256:llll)".toList], none) ∧
    ∃ layerOps manifestPath config layerPaths repositoriesPath lastID,
      nginxLayerOps "library/nginx".toList ++
        [.writeManifest "tmp/manifest.json".toList "tmp/llll.json".toList
            ["library/nginx:1.25".toList] ["h(sha256:llll)/layer.tar".toList],
          .writeRepositories "tmp/repositories".toList "nginx".toList "1.25".toList
            "h(sha256:llll)".toList] =
        layerOps ++
          [.writeManifest manifestPath config ["library/nginx:1.25".toList] layerPaths,
            .writeRepositories repositoriesPath "nginx".toList "1.25".toList lastID] ∧
      ∀ op ∈ layerOps, ∀ path cfg repoTags paths,
        op ≠ .writeManifest path cfg repoTags paths :=
  ⟨by decide,
    (downloadLayers_repo_tags blobWorld
      (twoRegistryPuller keepPrefixSettings) probedB
      ⟨"library/nginx".toList, "nginx".toList, "1.25".toList⟩ nginxManifest.Layers []
      "tmp".toList _ (by decide)).1⟩

/-! ## Archive writer: the name of the output file -/

/-- Replacing a one-character text by a one-character text maps the string. -/
theorem stringsReplaceAll_char (s : Str) (c d : Char) :
    stringsReplaceAll s [c] [d] = s.map fun x => if x = c then d else x := by
  unfold stringsReplaceAll
  rw [if_neg (by simp)]
  induction s with
  | nil => rfl
  | cons x s ih =>
    rw [replaceAllFrom]
    by_cases hx : x = c
    · subst hx
      simp [ih]
    · have hne : ¬ c = x := fun h => hx h.symm
      simp [hx, hne, ih]

/-- C22: the archive name that `createImageTar` returns is
`safeRepo ++ "_" ++ tag ++ "_" ++ arch ++ ".tar"`, where `safeRepo` is the repository
with every `/` replaced by `_`, and `safeRepo` contains no `/`.  The function returns
no other name, and it returns this one whenever creating the file and walking the
scratch tree succeed; repository `nginx`, tag `1.25` and architecture `amd64` give
`nginx_1.25_amd64.tar`. -/
theorem createImageTar_output_name (w : World) (tmpDir : Str) (imageInfo : ImageInfo)
    (arch : Str) :
    '/' ∉ (imageInfo.Repository.map fun c => if c = '/' then '_' else c) ∧
    (∀ ops outputFile, createImageTar w tmpDir imageInfo arch = (ops, .ok outputFile) →
      outputFile =
        (imageInfo.Repository.map fun c => if c = '/' then '_' else c) ++ "_".toList ++
          imageInfo.Tag ++ "_".toList ++ arch ++ ".tar".toList) ∧
    (w.create ((imageInfo.Repository.map fun c => if c = '/' then '_' else c) ++ "_".toList ++
          imageInfo.Tag ++ "_".toList ++ arch ++ ".tar".toList) = true →
      w.walkTar tmpDir ((imageInfo.Repository.map fun c => if c = '/' then '_' else c) ++
          "_".toList ++ imageInfo.Tag ++ "_".toList ++ arch ++ ".tar".toList) = true →
      (createImageTar w tmpDir imageInfo arch).2 =
        .ok ((imageInfo.Repository.map fun c => if c = '/' then '_' else c) ++ "_".toList ++
          imageInfo.Tag ++ "_".toList ++ arch ++ ".tar".toList)) ∧
    (createImageTar quietWorld "tmp".toList ⟨"nginx".toList, "nginx".toList, "1.25".toList⟩
        "amd64".toList).2 = .ok "nginx_1.25_amd64.tar".toList := by
  have hrepl := stringsReplaceAll_char imageInfo.Repository '/' '_'
  refine ⟨?_, ?_, ?_, by decide⟩
  · intro hmem
    obtain ⟨x, -, hx⟩ := List.mem_map.mp hmem
    by_cases h : x = '/'
    · rw [if_pos h] at hx
      exact absurd hx (by decide)
    · rw [if_neg h] at hx
      exact h hx
  · intro ops outputFile h
    unfold createImageTar at h
    simp only at h
    rw [show ("/".toList) = ['/'] from rfl, show ("_".toList) = ['_'] from rfl, hrepl] at h
    split at h
    · simp at h
    · split at h
      · simp at h
      · simp only [Prod.mk.injEq, Except.ok.injEq] at h
        rw [← h.2]
        rfl
  · intro hc hw
    unfold createImageTar
    simp only
    rw [show ("/".toList) = ['/'] from rfl, show ("_".toList) = ['_'] from rfl, hrepl]
    have hc' : w.create ((imageInfo.Repository.map fun c => if c = '/' then '_' else c) ++ ['_'] ++
        imageInfo.Tag ++ ['_'] ++ arch ++ ".tar".toList) = true := hc
    have hw' : w.walkTar tmpDir ((imageInfo.Repository.map fun c => if c = '/' then '_' else c) ++
        ['_'] ++ imageInfo.Tag ++ ['_'] ++ arch ++ ".tar".toList) = true := hw
    simp only [hc', hw', Bool.not_true, Bool.false_eq_true, if_false]

/-- Witness of C22 on the repository `library/team/nginx`, tag `1.25`, architecture
`arm64`: the archive is `library_team_nginx_1.25_arm64.tar`. -/
theorem createImageTar_output_name_witness :
    createImageTar quietWorld "tmp".toList
        ⟨"library/team/nginx".toList, "nginx".toList, "1.25".toList⟩ "arm64".toList =
      ([.writeTar "library_team_nginx_1.25_arm64.tar".toList "tmp".toList],
        .ok "library_team_nginx_1.25_arm64.tar".toList) ∧
    "library_team_nginx_1.25_arm64.tar".toList =
      ("library/team/nginx".toList.map fun c => if c = '/' then '_' else c) ++ "_".toList ++
        "1.25".toList ++ "_".toList ++ "arm64".toList ++ ".tar".toList :=
  ⟨by decide,
    (createImageTar_output_name quietWorld "tmp".toList
      ⟨"library/team/nginx".toList, "nginx".toList, "1.25".toList⟩ "arm64".toList).2.1
      [.writeTar "library_team_nginx_1.25_arm64.tar".toList "tmp".toList]
      "library_team_nginx_1.25_arm64.tar".toList (by decide)⟩

/-! ## Directory API: the best match -/

/-- The embedding of `strings.Contains` decides whether one string occurs inside the
other. -/
theorem stringsContains_iff_occurs (s substr : Str) :
    stringsContains s substr = true ↔ substr <:+: s := by
  induction s with
  | nil =>
    simp only [stringsContains, List.infix_nil, List.isEmpty_iff]
  | cons c s ih =>
    simp only [stringsContains, Bool.or_eq_true, ih, List.isPrefixOf_iff_prefix,
      List.infix_cons_iff]

/-- The scan stops at the first record whose source contains `docker.io`. -/
theorem firstDockerIo_of_first_match (pre : List APIImageResult) (m : APIImageResult)
    (post : List APIImageResult)
    (hpre : ∀ x ∈ pre, ¬ "docker.io".toList <:+: x.Source)
    (hm : "docker.io".toList <:+: m.Source) :
    firstDockerIo (pre ++ m :: post) = some m := by
  induction pre with
  | nil =>
    rw [List.nil_append, firstDockerIo, if_pos ((stringsContains_iff_occurs _ _).mpr hm)]
  | cons x pre ih =>
    have hx : ¬ stringsContains x.Source "docker.io".toList = true :=
      fun h => hpre x (by simp) ((stringsContains_iff_occurs _ _).mp h)
    rw [List.cons_append, firstDockerIo, if_neg hx]
    exact ih (fun y hy => hpre y (by simp [hy]))

/-- The scan finds nothing when no source contains `docker.io`. -/
theorem firstDockerIo_of_no_match (results : List APIImageResult)
    (hnone : ∀ x ∈ results, ¬ "docker.io".toList <:+: x.Source) :
    firstDockerIo results = none := by
  induction results with
  | nil => rfl
  | cons x results ih =>
    have hx : ¬ stringsContains x.Source "docker.io".toList = true :=
      fun h => hnone x (by simp) ((stringsContains_iff_occurs _ _).mp h)
    rw [firstDockerIo, if_neg hx]
    exact ih (fun y hy => hnone y (by simp [hy]))

/-- The probe leaves the host of the descriptor as it was. -/
theorem TestRegistryAvailability_URL (w : World) (registry : RegistryConfig) :
    (TestRegistryAvailability w registry).1.URL = registry.URL := by
  unfold TestRegistryAvailability
  simp only
  split
  · rfl
  · split <;> rfl

/-- C23: for a non-empty list of directory-API results the record chosen is the first
in list order whose source contains `docker.io` when there is one, and the first
record of the list otherwise.  `GetBestMatch` returns that record, for the results
of its first search and for those of its retry on the name before the first `:`, and
the orchestrator takes the host of the temporary registry and the repository from
that record. -/
theorem bestMatch_first_docker_io (r0 : APIImageResult) (results : List APIImageResult) :
    (∀ pre m post, r0 :: results = pre ++ m :: post →
      (∀ x ∈ pre, ¬ "docker.io".toList <:+: x.Source) → "docker.io".toList <:+: m.Source →
      (firstDockerIo (r0 :: results)).getD r0 = m) ∧
    ((∀ x ∈ r0 :: results, ¬ "docker.io".toList <:+: x.Source) →
      (firstDockerIo (r0 :: results)).getD r0 = r0) ∧
    (∀ w baseURL imageName arch,
      SearchImage w baseURL imageName [] [] = .ok (r0 :: results) →
      GetBestMatch w baseURL imageName arch =
        .ok ((firstDockerIo (r0 :: results)).getD r0)) ∧
    (∀ w baseURL imageName arch,
      SearchImage w baseURL imageName [] [] = .ok [] →
      1 < (stringsSplit imageName ':').length →
      SearchImage w baseURL ((stringsSplit imageName ':').getD 0 []) [] [] =
        .ok (r0 :: results) →
      GetBestMatch w baseURL imageName arch =
        .ok ((firstDockerIo (r0 :: results)).getD r0)) ∧
    (∀ w p imageInfo arch username password result,
      searchAdvancedAPIResults w p imageInfo arch = .ok (r0 :: results) →
      searchAdvancedAPI w p imageInfo arch username password = some result →
      ∃ registry, result.registry = some registry ∧
        registry.URL =
          (ConvertToRegistryInfo ((firstDockerIo (r0 :: results)).getD r0)).1 ∧
        result.imageInfo.Repository =
          (ConvertToRegistryInfo ((firstDockerIo (r0 :: results)).getD r0)).2) := by
  refine ⟨?_, ?_, ?_, ?_, ?_⟩
  · intro pre m post hsplit hpre hm
    rw [hsplit, firstDockerIo_of_first_match pre m post hpre hm]
    rfl
  · intro hnone
    rw [firstDockerIo_of_no_match _ hnone]
    rfl
  · intro w baseURL imageName arch hsearch
    simp [GetBestMatch, hsearch]
  · intro w baseURL imageName arch hsearch hparts hretry
    have hp : (stringsSplit imageName ':').length > 1 := hparts
    unfold GetBestMatch
    simp only [hsearch, List.length_nil, if_true, if_pos hp, hretry]
  · intro w p imageInfo arch username password result hresults hsome
    unfold searchAdvancedAPI at hsome
    simp only [hresults] at hsome
    cases hconv : ConvertToRegistryInfo ((firstDockerIo (r0 :: results)).getD r0) with
    | mk registryURL imagePath =>
      simp only [hconv] at hsome
      split at hsome
      · have hurl := TestRegistryAvailability_URL w (apiMirrorRegistry registryURL)
        cases hprobe : TestRegistryAvailability w (apiMirrorRegistry registryURL) with
        | mk tempRegistry ok =>
          rw [hprobe] at hurl
          simp only [hprobe] at hsome
          split at hsome
          · split at hsome
            · simp only [Option.some.injEq] at hsome
              subst hsome
              exact ⟨tempRegistry, rfl, hurl, rfl⟩
            · cases hsome
          · cases hsome
      · cases hsome

/-- Witness of C23 on three records, the first from `quay.io` and the next two from
`docker.io`: the second record is chosen. -/
theorem bestMatch_first_docker_io_witness :
    (firstDockerIo
        [⟨"quay.io/library/alpine".toList, "m1.example/alpine".toList, [], [], []⟩,
         ⟨"docker.io/library/alpine".toList, "m2.example/library/alpine".toList, [], [], []⟩,
         ⟨"docker.io/other/alpine".toList, "m3.example/other/alpine".toList, [], [], []⟩]).getD
      ⟨"quay.io/library/alpine".toList, "m1.example/alpine".toList, [], [], []⟩ =
    ⟨"docker.io/library/alpine".toList, "m2.example/library/alpine".toList, [], [], []⟩ :=
  (bestMatch_first_docker_io
      ⟨"quay.io/library/alpine".toList, "m1.example/alpine".toList, [], [], []⟩
      [⟨"docker.io/library/alpine".toList, "m2.example/library/alpine".toList, [], [], []⟩,
       ⟨"docker.io/other/alpine".toList, "m3.example/other/alpine".toList, [], [], []⟩]).1
    [⟨"quay.io/library/alpine".toList, "m1.example/alpine".toList, [], [], []⟩]
    ⟨"docker.io/library/alpine".toList, "m2.example/library/alpine".toList, [], [], []⟩
    [⟨"docker.io/other/alpine".toList, "m3.example/other/alpine".toList, [], [], []⟩]
    rfl (by decide) (by decide)

/-! ## Auth handshake: the bearer challenge -/

/-- Splitting at a character yields one segment more than the string has occurrences of
that character. -/
theorem stringsSplit_length (s : Str) (sep : Char) :
    (stringsSplit s sep).length = s.count sep + 1 := by
  unfold stringsSplit List.splitOn
  induction s with
  | nil => simp [List.splitOnP_nil]
  | cons a s ih =>
    rw [List.splitOnP_cons]
    by_cases ha : (a == sep) = true
    · have hac : a = sep := beq_iff_eq.mp ha
      rw [if_pos ha, List.length_cons, ih, hac, List.count_cons_self]
    · have hac : a ≠ sep := fun h => ha (beq_iff_eq.mpr h)
      rw [if_neg ha, List.length_modifyHead, ih, List.count_cons_of_ne (Ne.symm hac)]

/-- The segments of a header with two quoted fields. -/
theorem stringsSplit_two_quoted (pre R mid S rest : Str)
    (hpre : '"' ∉ pre) (hR : '"' ∉ R) (hmid : '"' ∉ mid) (hS : '"' ∉ S) :
    stringsSplit (pre ++ '"' :: (R ++ '"' :: (mid ++ '"' :: (S ++ '"' :: rest)))) '"' =
      pre :: R :: mid :: S :: stringsSplit rest '"' := by
  rw [stringsSplit_append_sep _ _ _ hpre, stringsSplit_append_sep _ _ _ hR,
    stringsSplit_append_sep _ _ _ hmid, stringsSplit_append_sep _ _ _ hS]

/-- The bearer challenge in the shape registries send it, as its four pieces. -/
theorem bearer_challenge_shape (R S : Str) :
    "Bearer realm=\"".toList ++ R ++ "\",service=\"".toList ++ S ++ "\"".toList =
      "Bearer realm=".toList ++
        '"' :: (R ++ '"' :: (",service=".toList ++ '"' :: (S ++ '"' :: []))) := by
  simp [List.append_assoc]

/-- The traced handshake returns what `GetAuthToken` returns. -/
theorem GetAuthTokenTraced_result (w : World) (registry : RegistryConfig)
    (repository username password : Str) :
    (GetAuthTokenTraced w registry repository username password).2 =
      GetAuthToken w registry repository username password := by
  unfold GetAuthTokenTraced GetAuthToken tokenExchange
  simp only
  split
  · rfl
  · split
    · rfl
    · split
      · rfl
      · split
        · rfl
        · split
          · rfl
          · rfl

/-- With fewer than three double quotes in the header the handshake fails after the
probe, and the probe is the only request. -/
theorem GetAuthTokenTraced_short_header (w : World) (registry : RegistryConfig)
    (repository username password : Str) (resp : HttpResponse)
    (hprobe : w.httpDo ⟨"https://".toList ++ registry.URL ++ "/v2/".toList, [], []⟩ = some resp)
    (hstatus : resp.StatusCode ≠ 200)
    (hquotes : resp.WWWAuthenticate.count '"' < 3) :
    GetAuthTokenTraced w registry repository username password =
      ([⟨"https://".toList ++ registry.URL ++ "/v2/".toList, [], []⟩],
        .error (if resp.WWWAuthenticate = [] then .authHeaderMissing else .authHeaderFormat)) := by
  have hlen : (stringsSplit resp.WWWAuthenticate '"').length < 4 := by
    rw [stringsSplit_length]; omega
  unfold GetAuthTokenTraced
  simp only [hprobe, if_neg hstatus, if_pos hlen]
  by_cases hempty : resp.WWWAuthenticate = []
  · simp only [if_pos hempty]
  · simp only [if_neg hempty]

/-- With at least three double quotes in the header the token URL is built from the
second and the fourth segment; the token request goes out when that URL makes a
request, and otherwise the handshake fails after the probe. -/
theorem GetAuthTokenTraced_long_header (w : World) (registry : RegistryConfig)
    (repository username password : Str) (resp : HttpResponse)
    (hprobe : w.httpDo ⟨"https://".toList ++ registry.URL ++ "/v2/".toList, [], []⟩ = some resp)
    (hstatus : resp.StatusCode ≠ 200)
    (hquotes : 3 ≤ resp.WWWAuthenticate.count '"') :
    GetAuthTokenTraced w registry repository username password =
      if w.newRequest ((stringsSplit resp.WWWAuthenticate '"').getD 1 [] ++
          "?service=".toList ++ (stringsSplit resp.WWWAuthenticate '"').getD 3 [] ++
          "&scope=repository:".toList ++ repository ++ ":pull".toList) = true then
        ([⟨"https://".toList ++ registry.URL ++ "/v2/".toList, [], []⟩,
          ⟨(stringsSplit resp.WWWAuthenticate '"').getD 1 [] ++
            "?service=".toList ++ (stringsSplit resp.WWWAuthenticate '"').getD 3 [] ++
            "&scope=repository:".toList ++ repository ++ ":pull".toList, [],
           if username ≠ [] ∧ password ≠ [] then
             "Basic ".toList ++ w.base64 (username ++ ":".toList ++ password) else []⟩],
         tokenExchange w
          ⟨(stringsSplit resp.WWWAuthenticate '"').getD 1 [] ++
            "?service=".toList ++ (stringsSplit resp.WWWAuthenticate '"').getD 3 [] ++
            "&scope=repository:".toList ++ repository ++ ":pull".toList, [],
           if username ≠ [] ∧ password ≠ [] then
             "Basic ".toList ++ w.base64 (username ++ ":".toList ++ password) else []⟩)
      else
        ([⟨"https://".toList ++ registry.URL ++ "/v2/".toList, [], []⟩],
          .error .authRequest) := by
  have hlen : ¬ (stringsSplit resp.WWWAuthenticate '"').length < 4 := by
    rw [stringsSplit_length]; omega
  have hempty : resp.WWWAuthenticate ≠ [] := by
    intro h
    rw [h] at hquotes
    simp at hquotes
  unfold GetAuthTokenTraced
  simp only [hprobe, if_neg hstatus, if_neg hlen, if_neg hempty]
  cases hreq : w.newRequest ((stringsSplit resp.WWWAuthenticate '"').getD 1 [] ++
      "?service=".toList ++ (stringsSplit resp.WWWAuthenticate '"').getD 3 [] ++
      "&scope=repository:".toList ++ repository ++ ":pull".toList)
  · simp only [Bool.not_false, if_true, Bool.false_eq_true, if_false]
  · simp only [Bool.not_true, Bool.false_eq_true, if_false, if_true]

/-- C24 as amended: after a `/v2/` probe answered with a status other than 200,
`GetAuthToken` splits the header at the double quotes.  For a header of the form
`Bearer realm="R",service="S"` with `R` and `S` free of double quotes the realm read
is `R`, the service read is `S`, and the token URL is
`R ++ "?service=" ++ S ++ "&scope=repository:" ++ repository ++ ":pull"`: when that URL
makes a request, the token request is sent to it, with a Basic credential exactly when
user name and password are both non-empty, and `GetAuthToken` returns what the token
exchange returns; when it does not, `GetAuthToken` fails with only the probe sent.  A
header with fewer than three double-quote characters, the empty header among them,
makes `GetAuthToken` fail with only the probe sent.  A header with three or more
passes the format check, and the token request is sent exactly when the URL built
from the second and the fourth segment makes a request.  Throughout, the traced
handshake returns what `GetAuthToken` returns. -/
theorem GetAuthToken_bearer_challenge (w : World) (registry : RegistryConfig)
    (repository username password : Str) (resp : HttpResponse)
    (hprobe : w.httpDo ⟨"https://".toList ++ registry.URL ++ "/v2/".toList, [], []⟩ = some resp)
    (hstatus : resp.StatusCode ≠ 200) :
    (GetAuthTokenTraced w registry repository username password).2 =
      GetAuthToken w registry repository username password ∧
    (∀ R S : Str, '"' ∉ R → '"' ∉ S →
      resp.WWWAuthenticate =
        "Bearer realm=\"".toList ++ R ++ "\",service=\"".toList ++ S ++ "\"".toList →
      (stringsSplit resp.WWWAuthenticate '"').getD 1 [] = R ∧
      (stringsSplit resp.WWWAuthenticate '"').getD 3 [] = S ∧
      (w.newRequest (R ++ "?service=".toList ++ S ++ "&scope=repository:".toList ++
          repository ++ ":pull".toList) = true →
        GetAuthTokenTraced w registry repository username password =
          ([⟨"https://".toList ++ registry.URL ++ "/v2/".toList, [], []⟩,
            ⟨R ++ "?service=".toList ++ S ++ "&scope=repository:".toList ++
              repository ++ ":pull".toList, [],
             if username ≠ [] ∧ password ≠ [] then
               "Basic ".toList ++ w.base64 (username ++ ":".toList ++ password) else []⟩],
           tokenExchange w
            ⟨R ++ "?service=".toList ++ S ++ "&scope=repository:".toList ++
              repository ++ ":pull".toList, [],
             if username ≠ [] ∧ password ≠ [] then
               "Basic ".toList ++ w.base64 (username ++ ":".toList ++ password) else []⟩) ∧
        GetAuthToken w registry repository username password =
          tokenExchange w
            ⟨R ++ "?service=".toList ++ S ++ "&scope=repository:".toList ++
              repository ++ ":pull".toList, [],
             if username ≠ [] ∧ password ≠ [] then
               "Basic ".toList ++ w.base64 (username ++ ":".toList ++ password) else []⟩) ∧
      (w.newRequest (R ++ "?service=".toList ++ S ++ "&scope=repository:".toList ++
          repository ++ ":pull".toList) = false →
        GetAuthTokenTraced w registry repository username password =
          ([⟨"https://".toList ++ registry.URL ++ "/v2/".toList, [], []⟩],
            .error .authRequest) ∧
        GetAuthToken w registry repository username password = .error .authRequest)) ∧
    (resp.WWWAuthenticate.count '"' < 3 →
      GetAuthTokenTraced w registry repository username password =
        ([⟨"https://".toList ++ registry.URL ++ "/v2/".toList, [], []⟩],
          .error (if resp.WWWAuthenticate = [] then .authHeaderMissing
            else .authHeaderFormat)) ∧
      GetAuthToken w registry repository username password =
        .error (if resp.WWWAuthenticate = [] then .authHeaderMissing
          else .authHeaderFormat)) ∧
    (3 ≤ resp.WWWAuthenticate.count '"' →
      ((GetAuthTokenTraced w registry repository username password).1.length = 2 ↔
        w.newRequest ((stringsSplit resp.WWWAuthenticate '"').getD 1 [] ++
          "?service=".toList ++ (stringsSplit resp.WWWAuthenticate '"').getD 3 [] ++
          "&scope=repository:".toList ++ repository ++ ":pull".toList) = true) ∧
      GetAuthToken w registry repository username password ≠ .error .authHeaderMissing ∧
      GetAuthToken w registry repository username password ≠ .error .authHeaderFormat) := by
  have hlink := GetAuthTokenTraced_result w registry repository username password
  refine ⟨hlink, ?_, ?_, ?_⟩
  · intro R S hR hS hheader
    have hsplit : stringsSplit resp.WWWAuthenticate '"' =
        ["Bearer realm=".toList, R, ",service=".toList, S, []] := by
      rw [hheader, bearer_challenge_shape,
        stringsSplit_two_quoted _ _ _ _ _ (by decide) hR (by decide) hS]
      rfl
    have hquotes : 3 ≤ resp.WWWAuthenticate.count '"' := by
      have := stringsSplit_length resp.WWWAuthenticate '"'
      rw [hsplit] at this
      simp only [List.length_cons, List.length_nil] at this
      omega
    have h := GetAuthTokenTraced_long_header w registry repository username password resp
      hprobe hstatus hquotes
    rw [hsplit] at h
    refine ⟨by rw [hsplit]; rfl, by rw [hsplit]; rfl, ?_, ?_⟩
    · intro hreq
      have h' := h
      rw [show ([("Bearer realm=".toList : Str), R, ",service=".toList, S, []]).getD 1 [] = R
        from rfl, show ([("Bearer realm=".toList : Str), R, ",service=".toList, S, []]).getD 3 []
        = S from rfl, if_pos hreq] at h'
      refine ⟨h', ?_⟩
      rw [← hlink, h']
    · intro hreq
      have h' := h
      rw [show ([("Bearer realm=".toList : Str), R, ",service=".toList, S, []]).getD 1 [] = R
        from rfl, show ([("Bearer realm=".toList : Str), R, ",service=".toList, S, []]).getD 3 []
        = S from rfl, if_neg (by rw [hreq]; exact Bool.false_ne_true)] at h'
      refine ⟨h', ?_⟩
      rw [← hlink, h']
  · intro hquotes
    have h := GetAuthTokenTraced_short_header w registry repository username password resp
      hprobe hstatus hquotes
    refine ⟨h, ?_⟩
    rw [← hlink, h]
  · intro hquotes
    have h := GetAuthTokenTraced_long_header w registry repository username password resp
      hprobe hstatus hquotes
    rw [← hlink, h]
    cases hreq : w.newRequest ((stringsSplit resp.WWWAuthenticate '"').getD 1 [] ++
      "?service=".toList ++ (stringsSplit resp.WWWAuthenticate '"').getD 3 [] ++
      "&scope=repository:".toList ++ repository ++ ":pull".toList)
    · simp
    · refine ⟨by simp, ?_, ?_⟩
      · simp only [if_true]
        unfold tokenExchange
        split
        · simp
        · split
          · simp
          · split
            · simp
            · split <;> simp
      · simp only [if_true]
        unfold tokenExchange
        split
        · simp
        · split
          · simp
          · split
            · simp
            · split <;> simp

/-- Witness of C24 on the challenge of `auth.example` for the repository
`library/nginx`: the token request goes to
`https://auth.example/token?service=registry.example&scope=repository:library/nginx:pull`
and the token is returned; with an empty header the handshake fails after the probe,
and so it does with the realm `1:2`, whose token URL makes no request. -/
theorem GetAuthToken_bearer_challenge_witness :
    (challengeWorld bearerHeader).httpDo ⟨"https://a.example/v2/".toList, [], []⟩ =
        some ⟨401, bearerHeader, none⟩ ∧
      GetAuthTokenTraced (challengeWorld bearerHeader)
          (staticRegistry "A".toList "a.example".toList 1) "library/nginx".toList [] [] =
        ([⟨"https://a.example/v2/".toList, [], []⟩,
          ⟨("https://auth.example/token?service=registry.example" ++
            "&scope=repository:library/nginx:pull").toList, [], []⟩],
         tokenExchange (challengeWorld bearerHeader)
          ⟨("https://auth.example/token?service=registry.example" ++
            "&scope=repository:library/nginx:pull").toList, [], []⟩) ∧
      GetAuthToken (challengeWorld bearerHeader)
          (staticRegistry "A".toList "a.example".toList 1) "library/nginx".toList [] [] =
        .ok "secret".toList ∧
      GetAuthTokenTraced (challengeWorld [])
          (staticRegistry "A".toList "a.example".toList 1) "library/nginx".toList [] [] =
        ([⟨"https://a.example/v2/".toList, [], []⟩], .error .authHeaderMissing) ∧
      GetAuthTokenTraced (brokenRealmWorld "Bearer realm=\"1:2\",service=\"s\"".toList)
          (staticRegistry "A".toList "a.example".toList 1) "library/nginx".toList [] [] =
        ([⟨"https://a.example/v2/".toList, [], []⟩], .error .authRequest) :=
  ⟨by decide,
   (((GetAuthToken_bearer_challenge (challengeWorld bearerHeader)
      (staticRegistry "A".toList "a.example".toList 1) "library/nginx".toList [] []
      ⟨401, bearerHeader, none⟩ (by decide) (by decide)).2.1
      "https://auth.example/token".toList "registry.example".toList
      (by decide) (by decide) (by decide)).2.2.1 (by decide)).1,
   by decide, by decide, by decide⟩

/-- C24 as stated fails on the code: the header
`Bearer realm="https://auth.example/token",service="registry.example` has three double
quotes, so only one field of it is quoted, and `GetAuthToken` still sends the token
request and returns the token. -/
theorem GetAuthToken_unterminated_field_counterexample :
    unterminatedHeader.count '"' = 3 ∧
      GetAuthTokenTraced (challengeWorld unterminatedHeader)
          (staticRegistry "A".toList "a.example".toList 1) "library/nginx".toList [] [] =
        ([⟨"https://a.example/v2/".toList, [], []⟩,
          ⟨("https://auth.example/token?service=registry.example" ++
            "&scope=repository:library/nginx:pull").toList, [], []⟩],
         .ok "secret".toList) ∧
      GetAuthToken (challengeWorld unterminatedHeader)
          (staticRegistry "A".toList "a.example".toList 1) "library/nginx".toList [] [] =
        .ok "secret".toList := by
  decide

/-! ## Pull: the file name of the config blob -/

/-- Slicing seven bytes off a digest that begins with `sha256:` is in range and leaves
what follows the prefix. -/
theorem sliceFrom_sha256 (h : Str) : sliceFrom ("sha256:".toList ++ h) 7 = some h := by
  have hlen : 7 ≤ ("sha256:".toList ++ h).length := by
    rw [List.length_append]
    exact Nat.le_add_right 7 h.length
  unfold sliceFrom
  rw [if_pos hlen]
  rfl

/-- A download that returns no error wrote the file it was asked to write. -/
theorem DownloadFileWithProgress_ok (w : World) (url token savePath desc : Str)
    (ops : List FsOp) (hdl : DownloadFileWithProgress w url token savePath desc = (ops, none)) :
    ops = [.mkdirAll (w.filepathDir savePath), .download url token savePath desc] := by
  unfold DownloadFileWithProgress at hdl
  simp only at hdl
  generalize (if token ≠ [] then "Bearer ".toList ++ token else []) = authorization at hdl
  split at hdl
  · simp at hdl
  · cases hh : w.httpDo ⟨url, [], authorization⟩ with
    | none => simp [hh] at hdl
    | some resp =>
      simp only [hh] at hdl
      repeat' split at hdl
      all_goals simp at hdl
      exact hdl.symm

/-- C25: when the search returns a manifest whose config digest is `"sha256:" ++ h`, the
slice `Digest[7:]` is in range and equals `h`, and every pull that returns an output
file has downloaded the config blob of that digest to
`filepath.Join("tmp", h ++ ".json")`, right after creating the scratch directory. -/
theorem PullImage_config_file_name (w : World) (p : MultiRegistryImagePuller)
    (imageInput arch username password : Str) (registry : RegistryConfig)
    (manifest : ManifestResponse) (imageInfo : ImageInfo) (h : Str)
    (hsearch : SearchImageInRegistries w p imageInput arch username password =
      .done ⟨some registry, some manifest, imageInfo, none⟩)
    (hdigest : manifest.Config.Digest = "sha256:".toList ++ h) :
    sliceFrom manifest.Config.Digest 7 = some h ∧
    ∀ ops outputFile,
      PullImage w p imageInput arch username password = .done (ops, .ok outputFile) →
      ∃ token rest,
        GetAuthToken w registry imageInfo.Repository username password = .ok token ∧
        ops = .mkdirAll "tmp".toList ::
          .mkdirAll (w.filepathDir (w.filepathJoin "tmp".toList (h ++ ".json".toList))) ::
          .download ("https://".toList ++ registry.URL ++ "/v2/".toList ++
              imageInfo.Repository ++ "/blobs/".toList ++ manifest.Config.Digest) token
            (w.filepathJoin "tmp".toList (h ++ ".json".toList)) "Config".toList :: rest := by
  have hslice : sliceFrom manifest.Config.Digest 7 = some h := by
    rw [hdigest]
    exact sliceFrom_sha256 h
  refine ⟨hslice, ?_⟩
  intro ops outputFile hpull
  unfold PullImage at hpull
  simp only [hsearch, hslice] at hpull
  split at hpull
  · cases hpull
  · cases hauth : GetAuthToken w registry imageInfo.Repository username password with
    | error err => simp only [hauth] at hpull; cases hpull
    | ok token =>
      simp only [hauth] at hpull
      split at hpull
      · cases hpull
      · cases hdl : DownloadFileWithProgress w
            ("https://".toList ++ registry.URL ++ "/v2/".toList ++ imageInfo.Repository ++
              "/blobs/".toList ++ manifest.Config.Digest) token
            (w.filepathJoin "tmp".toList (h ++ ".json".toList)) "Config".toList with
        | mk cops cerr =>
          cases cerr with
          | some err => simp only [hdl] at hpull; cases hpull
          | none =>
            have hcops := DownloadFileWithProgress_ok w _ _ _ _ cops hdl
            simp only [hdl] at hpull
            subst hcops
            cases hlayers : downloadLayers w p registry imageInfo manifest.Layers token
                "tmp".toList with
            | panic => simp only [hlayers] at hpull; cases hpull
            | hang => simp only [hlayers] at hpull; cases hpull
            | done res =>
              obtain ⟨lops, lerr⟩ := res
              cases lerr with
              | some err => simp only [hlayers] at hpull; cases hpull
              | none =>
                simp only [hlayers] at hpull
                cases htar : createImageTar w "tmp".toList imageInfo arch with
                | mk tops tres =>
                  cases tres with
                  | error err => simp only [htar] at hpull; cases hpull
                  | ok out =>
                    simp only [htar, Run.done.injEq, Prod.mk.injEq, Except.ok.injEq] at hpull
                    exact ⟨token, lops ++ tops, rfl, by rw [← hpull.1]; simp⟩

/-- Witness of C25 on the pull of `nginx:1.25`, whose config digest is `sha256:cccc`: the
config blob is saved as `tmp/cccc.json`. -/
theorem PullImage_config_file_name_witness :
    SearchImageInRegistries pullWorld (twoRegistryPuller plainSettings) "nginx:1.25".toList
        "amd64".toList [] [] =
      .done ⟨some probedB, some nginxManifest,
        ⟨"nginx".toList, "nginx".toList, "1.25".toList⟩, none⟩ ∧
    nginxManifest.Config.Digest = "sha256:".toList ++ "cccc".toList ∧
    sliceFrom nginxManifest.Config.Digest 7 = some "cccc".toList ∧
    ∃ rest,
      PullImage pullWorld (twoRegistryPuller plainSettings) "nginx:1.25".toList
          "amd64".toList [] [] =
        .done
          (.mkdirAll "tmp".toList :: .mkdirAll "tmp".toList ::
            .download "https://b.example/v2/nginx/blobs/sha256:cccc".toList []
              "tmp/cccc.json".toList "Config".toList :: rest,
           .ok "nginx_1.25_amd64.tar".toList) :=
  ⟨by decide, by decide,
   (PullImage_config_file_name pullWorld (twoRegistryPuller plainSettings)
      "nginx:1.25".toList "amd64".toList [] [] probedB nginxManifest
      ⟨"nginx".toList, "nginx".toList, "1.25".toList⟩ "cccc".toList
      (by decide) (by decide)).1,
   ⟨nginxLayerOps "nginx".toList ++
      [.writeManifest "tmp/manifest.json".toList "tmp/llll.json".toList
          ["nginx:1.25".toList] ["h(sha256:llll)/layer.tar".toList],
       .writeRepositories "tmp/repositories".toList "nginx".toList "1.25".toList
          "h(sha256:llll)".toList,
       .writeTar "nginx_1.25_amd64.tar".toList "tmp".toList], by decide⟩⟩

/-! ## Registry probe: available registries are measured -/

/-- A probe that reports the registry available recorded the time it measured. -/
theorem TestRegistryAvailability_available (w : World) (registry : RegistryConfig)
    (hok : (TestRegistryAvailability w registry).2 = true) :
    (TestRegistryAvailability w registry).1.Available = true ∧
    ∃ statusCode t,
      w.probe ("https://".toList ++ registry.URL ++ "/v2/".toList) registry.Timeout =
        some (statusCode, t) ∧
      (TestRegistryAvailability w registry).1.ResponseTime = some t := by
  unfold TestRegistryAvailability at hok ⊢
  simp only at hok ⊢
  split
  · rw [if_pos (by assumption)] at hok
    cases hok
  · rw [if_neg (by assumption)] at hok
    cases hp : w.probe ("https://".toList ++ registry.URL ++ "/v2/".toList)
        registry.Timeout with
    | none =>
      rw [hp] at hok
      cases hok
    | some res =>
      obtain ⟨statusCode, t⟩ := res
      rw [hp] at hok
      exact ⟨hok, statusCode, t, rfl, rfl⟩

/-- C26: when `TestRegistryAvailability` returns true, the descriptor is marked available
and its `ResponseTime` holds the time the probe measured.  Hence every registry of
the available set of Phase B has a response time, and on two registries of that set
the ranking comparator compares the priorities and, when these are equal, the two
measured times. -/
theorem TestRegistryAvailability_measured (w : World) (p : MultiRegistryImagePuller) :
    (∀ registry, (TestRegistryAvailability w registry).2 = true →
      (TestRegistryAvailability w registry).1.Available = true ∧
      ∃ statusCode t,
        w.probe ("https://".toList ++ registry.URL ++ "/v2/".toList) registry.Timeout =
          some (statusCode, t) ∧
        (TestRegistryAvailability w registry).1.ResponseTime = some t) ∧
    (∀ availableRegistries, probeRegistries w p = .done availableRegistries →
      (∀ r ∈ availableRegistries, r.ResponseTime ≠ none) ∧
      ∀ a ∈ availableRegistries, ∀ b ∈ availableRegistries,
        ∃ ta tb, a.ResponseTime = some ta ∧ b.ResponseTime = some tb ∧
          rankLess a b =
            if a.Priority ≠ b.Priority then decide (a.Priority < b.Priority)
            else decide (ta < tb)) := by
  refine ⟨fun registry hok => TestRegistryAvailability_available w registry hok, ?_⟩
  intro availableRegistries hdone
  have hmeasured : ∀ r ∈ availableRegistries, ∃ t, r.ResponseTime = some t := by
    intro r hr
    rw [probeRegistries_done w p availableRegistries hdone, List.mem_filterMap] at hr
    obtain ⟨reg, -, hreg⟩ := hr
    split at hreg
    · rename_i hok
      obtain ⟨-, -, t, -, ht⟩ := TestRegistryAvailability_available w reg hok
      simp only [Option.some.injEq] at hreg
      exact ⟨t, hreg ▸ ht⟩
    · cases hreg
  refine ⟨?_, ?_⟩
  · intro r hr
    obtain ⟨t, ht⟩ := hmeasured r hr
    rw [ht]
    exact Option.some_ne_none t
  · intro a ha b hb
    obtain ⟨ta, hta⟩ := hmeasured a ha
    obtain ⟨tb, htb⟩ := hmeasured b hb
    refine ⟨ta, tb, hta, htb, ?_⟩
    unfold rankLess
    rw [hta, htb]

/-- Witness of C26 on the failover scenario: both registries are available, with
response times 10 and 20. -/
theorem TestRegistryAvailability_measured_witness :
    probeRegistries failoverWorld (twoRegistryPuller plainSettings) =
        .done [probedA, probedB] ∧
      (∀ r ∈ [probedA, probedB], r.ResponseTime ≠ none) ∧
      probedA.ResponseTime = some 10 ∧ probedB.ResponseTime = some 20 :=
  ⟨by decide,
   ((TestRegistryAvailability_measured failoverWorld (twoRegistryPuller plainSettings)).2
      [probedA, probedB] (by decide)).1,
   by decide, by decide⟩

/-! ## Ranking: registries without a measured response time -/

/-- C18 as amended: a registry without a measured response time takes no part in the
Phase B ranking.  Every registry of the ranked list is the probed copy of a static
registry whose probe returned true, and has a measured response time; a static
registry whose probe leaves it without a response time is not available and its
descriptor is not in the ranked list.  The comparison function has no rule that puts
a missing time last: for two descriptors of equal priority of which one has no
response time it orders neither before the other. -/
theorem rank_leaves_out_unmeasured (w : World) (p : MultiRegistryImagePuller)
    (availableRegistries : List RegistryConfig)
    (hprobe : probeRegistries w p = .done availableRegistries) :
    (∀ x ∈ sortSlice rankLess availableRegistries,
      x.ResponseTime ≠ none ∧
      ∃ r ∈ p.registries, (TestRegistryAvailability w r).2 = true ∧
        x = (TestRegistryAvailability w r).1) ∧
    (∀ r ∈ p.registries, (TestRegistryAvailability w r).1.ResponseTime = none →
      (TestRegistryAvailability w r).2 = false ∧
      (TestRegistryAvailability w r).1 ∉ sortSlice rankLess availableRegistries) ∧
    (∀ a b : RegistryConfig, a.Priority = b.Priority →
      a.ResponseTime = none ∨ b.ResponseTime = none →
      rankLess a b = false ∧ rankLess b a = false) := by
  have hfrom : ∀ x ∈ sortSlice rankLess availableRegistries,
      ∃ r ∈ p.registries, (TestRegistryAvailability w r).2 = true ∧
        x = (TestRegistryAvailability w r).1 := by
    intro x hx
    have hx' := (sortSlice_perm rankLess availableRegistries).mem_iff.mp hx
    rw [probeRegistries_done w p availableRegistries hprobe, List.mem_filterMap] at hx'
    obtain ⟨reg, hreg, hsome⟩ := hx'
    split at hsome
    · rename_i hok
      simp only [Option.some.injEq] at hsome
      exact ⟨reg, (w.arrival_perm p.registries).mem_iff.mp hreg, hok, hsome.symm⟩
    · cases hsome
  have hmeasured : ∀ x ∈ sortSlice rankLess availableRegistries, x.ResponseTime ≠ none := by
    intro x hx
    obtain ⟨r, -, hok, rfl⟩ := hfrom x hx
    obtain ⟨-, -, t, -, ht⟩ := TestRegistryAvailability_available w r hok
    rw [ht]
    exact Option.some_ne_none t
  refine ⟨fun x hx => ⟨hmeasured x hx, hfrom x hx⟩, ?_, ?_⟩
  · intro r _ hnone
    refine ⟨?_, fun hmem => hmeasured _ hmem hnone⟩
    by_contra hok
    obtain ⟨-, -, t, -, ht⟩ := TestRegistryAvailability_available w r (by simpa using hok)
    rw [ht] at hnone
    cases hnone
  · intro a b hprio hnone
    constructor
    · unfold rankLess
      rw [if_neg (by simpa using hprio)]
      rcases hnone with h | h
      · rw [h]
      · rw [h]; cases a.ResponseTime <;> rfl
    · unfold rankLess
      rw [if_neg (by simpa using hprio.symm)]
      rcases hnone with h | h
      · rw [h]; cases b.ResponseTime <;> rfl
      · rw [h]

/-- Witness of C18 on the registries A and C of priority 1, of which only A answers the
probe: the ranked list is A alone, with a measured response time. -/
theorem rank_leaves_out_unmeasured_witness :
    probeRegistries failoverWorld sameClassPuller = .done [probedA] ∧
    ∀ x ∈ sortSlice rankLess [probedA],
      x.ResponseTime ≠ none ∧
      ∃ r ∈ sameClassPuller.registries, (TestRegistryAvailability failoverWorld r).2 = true ∧
        x = (TestRegistryAvailability failoverWorld r).1 :=
  ⟨by decide,
    (rank_leaves_out_unmeasured failoverWorld sameClassPuller [probedA] (by decide)).1⟩

/-- C18 as stated fails on the code: of the registries A and C, both of priority 1, only
A answers the probe, so A has a measured response time and C has none; the ranked
list is A alone.  C does not sort last in its priority class, it is not ranked, and A
does not precede it in the ranked list. -/
theorem rank_unmeasured_absent_counterexample :
    (staticRegistry "A".toList "a.example".toList 1).Priority =
      (staticRegistry "C".toList "c.example".toList 1).Priority ∧
    (TestRegistryAvailability failoverWorld
      (staticRegistry "A".toList "a.example".toList 1)).1.ResponseTime = some 10 ∧
    (TestRegistryAvailability failoverWorld
      (staticRegistry "C".toList "c.example".toList 1)).1.ResponseTime = none ∧
    probeRegistries failoverWorld sameClassPuller = .done [probedA] ∧
    sortSlice rankLess [probedA] = [probedA] ∧
    (∀ x ∈ sortSlice rankLess [probedA], x.Name ≠ "C".toList) := by
  decide

end DockerOps
